import Mathlib

/-!
# Verilog::Preproc core (`Preproc/VPreProc.cpp`): a shallow embedding

C++ `std::string` values are modelled as `List Char`; a walk over `c_str()` is a walk
over the characters before the first NUL.  `int` counters are `Int`, sizes are `Nat`.
The character classes are those of the C locale.
-/

namespace VPreProcImp

/-! ## Characters -/

/-- NUL, the terminator of a C string. -/
def NUL : Char := Char.ofNat 0
/-- The newline character. -/
def NL : Char := Char.ofNat 10
/-- The double quote character. -/
def DQUOTE : Char := Char.ofNat 34
/-- The single quote character. -/
def SQUOTE : Char := Char.ofNat 39
/-- The backslash character. -/
def BACKSLASH : Char := Char.ofNat 92
/-- The backtick that introduces directives and references. -/
def BACKTICK : Char := Char.ofNat 96
/-- Opening brace. -/
def LBRACE : Char := Char.ofNat 123
/-- Closing brace. -/
def RBRACE : Char := Char.ofNat 125

/-- C locale `isspace`: space, and the controls tab, newline, vertical tab, form feed,
carriage return (codes 9 to 13). -/
def isspace (c : Char) : Bool := c.toNat == 32 || (9 ≤ c.toNat && c.toNat ≤ 13)

/-- C locale `isalpha`. -/
def isalpha (c : Char) : Bool :=
  (65 ≤ c.toNat && c.toNat ≤ 90) || (97 ≤ c.toNat && c.toNat ≤ 122)

/-- C locale `isdigit`. -/
def isdigit (c : Char) : Bool := 48 ≤ c.toNat && c.toNat ≤ 57

/-- The characters a `c_str()` walk sees: everything before the first NUL. -/
def c_str (s : List Char) : List Char := s.takeWhile (fun c => c != NUL)

end VPreProcImp

/-! ## `VPreDefRef` -/

/-- One pending define substitution (`class VPreDefRef`). -/
structure VPreDefRef where
  m_name : List Char
  m_params : List Char
  m_nextarg : List Char
  m_parenLevel : Int
  m_args : List (List Char)
  deriving DecidableEq, Repr

/-- The constructor `VPreDefRef(name, params)`. -/
def VPreDefRef.new (name params : List Char) : VPreDefRef :=
  { m_name := name, m_params := params, m_nextarg := [], m_parenLevel := 0, m_args := [] }

namespace VPreProcImp

/-! ## `trimWhitespace` -/

/-- The count reached by `while (out.length() > n && isspace(out[n])) n++` from `n = 0`. -/
def leadspace : List Char → Nat
  | [] => 0
  | c :: cs => if isspace c then leadspace cs + 1 else 0

/-- The count reached by the trailing loop, which scans `out[out.length()-1-n]`. -/
def trailspace (out : List Char) : Nat := leadspace out.reverse

/-- Source `VPreProcImp::trimWhitespace(strg, trailing)`. -/
def trimWhitespace (strg : List Char) (trailing : Bool) : List Char :=
  let out := strg
  let out := if leadspace out != 0 then out.drop (leadspace out) else out
  if trailing then
    if trailspace out != 0 then out.take (out.length - trailspace out) else out
  else out

/-! ## `defineSubst` -/

/-- The `map<string,string> argValueByName`, newest binding first. -/
abbrev ArgMap := List (List Char × List Char)

/-- The assignment `argValueByName[k] = v`. -/
def ArgMap.set (m : ArgMap) (k v : List Char) : ArgMap := (k, v) :: m

/-- The lookup `argValueByName.find(k)`. -/
def ArgMap.find (m : ArgMap) (k : List Char) : Option (List Char) := m.lookup k

/-- Locals of the formals loop of `defineSubst`. -/
structure FormalsState where
  numArgs : Nat
  argName : List Char
  paren : Int
  token : List Char
  quote : Bool
  haveDefault : Bool
  argValueByName : ArgMap
  deriving DecidableEq, Repr

/-- The locals as declared before the formals loop. -/
def FormalsState.init : FormalsState :=
  { numArgs := 0, argName := [], paren := 1, token := [], quote := false,
    haveDefault := false, argValueByName := [] }

/-- What `defineSubst` gives back: the messages passed to `error` and the returned string. -/
structure SubstResult where
  errors : List (List Char)
  out : List Char
  deriving DecidableEq, Repr

/-- The string returned on an argument error: `" " + BACKTICK + name + " "`. -/
def errorStub (name : List Char) : List Char := [' ', BACKTICK] ++ name ++ [' ']

/-- The message of the missing-argument error. -/
def missingMsg (argName name : List Char) : List Char :=
  "Define missing argument ".toList ++ [SQUOTE] ++ argName ++ [SQUOTE] ++ " for: ".toList
    ++ name ++ [NL]

/-- The message of the too-many-arguments error. -/
def tooManyMsg (name : List Char) : List Char :=
  "Define passed too many arguments: ".toList ++ name ++ [NL]

/-- The body of the formals loop at a `)` or `,` of the base level: bind the formal that
just ended.  `Except.error` is the early `return` after the missing-argument error. -/
def bindFormal (refp : VPreDefRef) (st : FormalsState) : Except SubstResult FormalsState :=
  let value : List Char := if st.haveDefault then st.token else []
  let argName : List Char := if st.haveDefault then st.argName else st.token
  let argName := trimWhitespace argName true
  let next (numArgs : Nat) (value : List Char) : FormalsState :=
    { st with numArgs := numArgs, argValueByName := st.argValueByName.set argName value,
              argName := [], token := [], haveDefault := false }
  if argName != [] then
    if refp.m_args.length > st.numArgs then
      let arg := trimWhitespace (refp.m_args.getD st.numArgs []) false
      let value := if arg != [] then arg else value
      .ok (next (st.numArgs + 1) value)
    else if !st.haveDefault then
      .error { errors := [missingMsg argName refp.m_name], out := errorStub refp.m_name }
    else .ok (next (st.numArgs + 1) value)
  else .ok (next st.numArgs value)

/-- The tail of the formals loop for a character that is not a base-level delimiter and
not an escape: count brackets, toggle the quote flag, append to the token. -/
def formalsChar (c : Char) (st : FormalsState) : FormalsState :=
  let paren :=
    if !st.quote then
      if c == '(' || c == LBRACE || c == '[' then st.paren + 1
      else if c == ')' || c == RBRACE || c == ']' then st.paren - 1
      else st.paren
    else st.paren
  { st with paren := paren, quote := if c == DQUOTE then !st.quote else st.quote,
            token := st.token ++ [c] }

/-- Whether the loop is at the base parsing level (`!quote && paren==1`). -/
def FormalsState.atBase (st : FormalsState) : Bool := !st.quote && st.paren == 1

/-- The formals loop `for (; *cp; cp++)` of `defineSubst`, over the characters left. -/
def parseFormals (refp : VPreDefRef) : List Char → FormalsState → Except SubstResult FormalsState
  | [], st => .ok st
  | [c], st =>
    if st.atBase && (c == ')' || c == ',') then bindFormal refp st
    else if st.atBase && c == '=' then
      .ok { st with haveDefault := true, argName := st.token, token := [] }
    else .ok (formalsChar c st)
  | c :: d :: rest, st =>
    if st.atBase && (c == ')' || c == ',') then
      match bindFormal refp st with
      | .error e => .error e
      | .ok st1 => parseFormals refp (d :: rest) st1
    else if st.atBase && c == '=' then
      parseFormals refp (d :: rest) { st with haveDefault := true, argName := st.token, token := [] }
    else if c == BACKSLASH then
      parseFormals refp rest { st with token := st.token ++ [c, d] }
    else parseFormals refp (d :: rest) (formalsChar c st)

/-- The text put out for a finished identifier run: its binding, or the run itself. -/
def substArg (m : ArgMap) (argName : List Char) : List Char :=
  if argName != [] then
    match m.find argName with
    | some subst => subst
    | none => argName
  else []

/-- The test that lets a character extend the identifier run. -/
def isArgChar (argName : List Char) (c : Char) : Bool :=
  isalpha c || c == '_' || c == '$' || (argName != [] && (isdigit c || c == '$'))

/-- The body loop `for (cp=value.c_str(); (*cp) || argName!=""; ...)` of `defineSubst`:
characters left, then the locals `argName`, `quote` and `out`. -/
def substBody (m : ArgMap) : List Char → List Char → Bool → List Char → List Char
  | [], argName, _, out => out ++ substArg m argName
  | [c], argName, quote, out =>
    if !quote && isArgChar argName c then substBody m [] (argName ++ [c]) quote out
    else
      substBody m [] [] (if c == DQUOTE then !quote else quote) (out ++ substArg m argName ++ [c])
  | c :: d :: rest, argName, quote, out =>
    if !quote && isArgChar argName c then substBody m (d :: rest) (argName ++ [c]) quote out
    else
      let out := out ++ substArg m argName
      if !quote && c == BACKTICK && d == BACKTICK then substBody m rest [] quote out
      else if !quote && c == BACKTICK && d == DQUOTE then substBody m rest [] quote (out ++ [DQUOTE])
      else if !quote && c == BACKTICK && d == BACKSLASH then
        substBody m rest [] quote (out ++ [BACKSLASH])
      else if c == BACKSLASH then substBody m rest [] quote (out ++ [c, d])
      else substBody m (d :: rest) [] (if c == DQUOTE then !quote else quote) (out ++ [c])

/-- Source `VPreProcImp::defineSubst(refp)`; `value` is the host's `defValue(refp->name())`. -/
def defineSubst (refp : VPreDefRef) (value : List Char) : SubstResult :=
  let params := c_str refp.m_params
  let cp := match params with
    | c :: rest => if c == '(' then rest else c :: rest
    | [] => []
  match parseFormals refp cp FormalsState.init with
  | .error e => e
  | .ok st =>
    if refp.m_args.length > st.numArgs
        && !(refp.m_args.length == 1 && st.numArgs == 0
              && trimWhitespace (refp.m_args.getD 0 []) false == []) then
      { errors := [tooManyMsg refp.m_name], out := errorStub refp.m_name }
    else
      { errors := [], out := substBody st.argValueByName (c_str value) [] false [] }

/-- A reference to `name` with formals `params` and the collected actuals `args`. -/
def mkRef (name params : String) (args : List String) : VPreDefRef :=
  { VPreDefRef.new name.toList params.toList with m_args := args.map String.toList }

end VPreProcImp


namespace VPreProcImp

/-! ## Well-formed formal lists and the argument-free scan (specification side) -/

/-- A formal of a well-formed list: padding, a name, and an optional default. -/
structure Formal where
  lpad : List Char
  name : List Char
  rpad : List Char
  dflt : Option (List Char)
  deriving DecidableEq, Repr

/-- Characters with no role in the formals loop: no delimiter, bracket, quote, escape, NUL. -/
def plainChar (c : Char) : Bool :=
  c != ')' && c != ',' && c != '=' && c != BACKSLASH && c != '(' && c != LBRACE && c != '['
    && c != RBRACE && c != ']' && c != DQUOTE && c != NUL

/-- Source text of one formal. -/
def Formal.render (f : Formal) : List Char :=
  f.lpad ++ f.name ++ f.rpad ++ (match f.dflt with | none => [] | some d => '=' :: d)

/-- Source text of a formal list after its opening parenthesis. -/
def renderFormals : List Formal → List Char
  | [] => [')']
  | [f] => f.render ++ [')']
  | f :: g :: fs => f.render ++ ',' :: renderFormals (g :: fs)

/-- Well-formedness of a formal. -/
def Formal.wf (f : Formal) : Bool :=
  f.lpad.all isspace && f.rpad.all isspace && f.name != []
    && f.name.all (fun c => plainChar c && !isspace c)
    && (match f.dflt with | none => true | some d => d.all plainChar)

/-- The value the formal at index `i` is bound to. -/
def effective (args : List (List Char)) (i : Nat) (f : Formal) : List Char :=
  let arg := trimWhitespace (args.getD i []) false
  if i < args.length && arg != [] then arg else f.dflt.getD []

/-- The loop state between two formals: `k` formals bound so far into `m`. -/
def FormalsState.start (k : Nat) (m : ArgMap) : FormalsState :=
  { numArgs := k, argName := [], paren := 1, token := [], quote := false,
    haveDefault := false, argValueByName := m }

/-- The loop state when the delimiter after formal `f` is reached. -/
def FormalsState.atDelim (f : Formal) (k : Nat) (m : ArgMap) : FormalsState :=
  match f.dflt with
  | none => { FormalsState.start k m with token := f.lpad ++ f.name ++ f.rpad }
  | some d => { FormalsState.start k m with
                  haveDefault := true, argName := f.lpad ++ f.name ++ f.rpad, token := d }

/-- The outcome of binding the formals `fs` in order from index `k`: the first formal with
neither an actual nor a default stops with the missing-argument error. -/
def bindList (refp : VPreDefRef) : Nat → List Formal → ArgMap → Except SubstResult FormalsState
  | k, [], m => .ok (FormalsState.start k m)
  | k, f :: fs, m =>
    if decide (k < refp.m_args.length) || f.dflt.isSome then
      bindList refp (k + 1) fs (m.set f.name (effective refp.m_args k f))
    else .error { errors := [missingMsg f.name refp.m_name], out := errorStub refp.m_name }

/-- The formals string of a well-formed formal list. -/
def formalsText (fs : List Formal) : List Char := '(' :: renderFormals fs

/-- The formals loop at a delimiter with the argument list left out: the formal that just
ended is counted when its trimmed name is not empty. -/
def countFormal (st : FormalsState) : FormalsState :=
  let argName := trimWhitespace (if st.haveDefault then st.argName else st.token) true
  { st with numArgs := if argName != [] then st.numArgs + 1 else st.numArgs,
            argName := [], token := [], haveDefault := false }

/-- The formals loop with the argument list left out: it scans like `parseFormals` and only
counts the named formals. -/
def scanFormals : List Char → FormalsState → FormalsState
  | [], st => st
  | [c], st =>
    if st.atBase && (c == ')' || c == ',') then countFormal st
    else if st.atBase && c == '=' then
      { st with haveDefault := true, argName := st.token, token := [] }
    else formalsChar c st
  | c :: d :: rest, st =>
    if st.atBase && (c == ')' || c == ',') then scanFormals (d :: rest) (countFormal st)
    else if st.atBase && c == '=' then
      scanFormals (d :: rest) { st with haveDefault := true, argName := st.token, token := [] }
    else if c == BACKSLASH then
      scanFormals rest { st with token := st.token ++ [c, d] }
    else scanFormals (d :: rest) (formalsChar c st)

/-- The characters of a formals string that the loop walks: after the opening parenthesis. -/
def formalsChars (params : List Char) : List Char :=
  match c_str params with
  | c :: rest => if c == '(' then rest else c :: rest
  | [] => []

/-- The number of named formals that a formals string declares. -/
def namedFormals (params : List Char) : Nat :=
  (scanFormals (formalsChars params) FormalsState.init).numArgs

/-- Two loop states that agree on everything but the map. -/
def sameScan (a b : FormalsState) : Prop :=
  a.numArgs = b.numArgs ∧ a.argName = b.argName ∧ a.paren = b.paren ∧ a.token = b.token
    ∧ a.quote = b.quote ∧ a.haveDefault = b.haveDefault

/-- While no named formal has been counted, the map holds only the empty name. -/
def onlyEmptyNames (st : FormalsState) : Prop :=
  st.numArgs = 0 → ∀ p ∈ st.argValueByName, p.1 = []

end VPreProcImp


/-! ## The driver: tokens, parser states, the scanner and the host -/

/-- The token kinds `VP_*` that the scanner returns (`tokenName` lists them). -/
inductive VPTok
  | VP_EOF | VP_INCLUDE | VP_IFDEF | VP_IFNDEF | VP_ENDIF | VP_UNDEF | VP_DEFINE | VP_ELSE
  | VP_ELSIF | VP_LINE | VP_SYMBOL | VP_STRING | VP_DEFFORM | VP_DEFVALUE | VP_COMMENT
  | VP_TEXT | VP_WHITE | VP_DEFREF | VP_DEFARG | VP_ERROR | VP_UNDEFINEALL
  deriving DecidableEq, Repr

open VPTok

/-- Source `VPreProcImp::tokenName`. -/
def VPTok.tokenName : VPTok → List Char
  | VP_EOF => "EOF".toList
  | VP_INCLUDE => "INCLUDE".toList
  | VP_IFDEF => "IFDEF".toList
  | VP_IFNDEF => "IFNDEF".toList
  | VP_ENDIF => "ENDIF".toList
  | VP_UNDEF => "UNDEF".toList
  | VP_DEFINE => "DEFINE".toList
  | VP_ELSE => "ELSE".toList
  | VP_ELSIF => "ELSIF".toList
  | VP_LINE => "LINE".toList
  | VP_SYMBOL => "SYMBOL".toList
  | VP_STRING => "STRING".toList
  | VP_DEFFORM => "DEFFORM".toList
  | VP_DEFVALUE => "DEFVALUE".toList
  | VP_COMMENT => "COMMENT".toList
  | VP_TEXT => "TEXT".toList
  | VP_WHITE => "WHITE".toList
  | VP_DEFREF => "DEFREF".toList
  | VP_DEFARG => "DEFARG".toList
  | VP_ERROR => "ERROR".toList
  | VP_UNDEFINEALL => "UNDEFINEALL".toList

/-- Modelled from the spec: the integer code of a token kind, declared in the scanner's
header, which is not part of the sources at hand.  End of input is the scanner's 0; every
other kind has a nonzero code. -/
def VPTok.code : VPTok → Nat
  | VP_EOF => 0
  | VP_INCLUDE => 256 | VP_IFDEF => 257 | VP_IFNDEF => 258 | VP_ENDIF => 259
  | VP_UNDEF => 260 | VP_DEFINE => 261 | VP_ELSE => 262 | VP_ELSIF => 263 | VP_LINE => 264
  | VP_UNDEFINEALL => 265 | VP_SYMBOL => 300 | VP_STRING => 301 | VP_DEFVALUE => 302
  | VP_COMMENT => 303 | VP_TEXT => 304 | VP_WHITE => 305 | VP_DEFREF => 306
  | VP_DEFARG => 307 | VP_ERROR => 308 | VP_DEFFORM => 309

/-- One pending ifdef/ifndef (`class VPreIfEntry`). -/
structure VPreIfEntry where
  m_on : Bool
  m_everOn : Bool
  deriving DecidableEq, Repr

/-- The constructor `VPreIfEntry(on, everOn)`: `everOn` includes the new state. -/
def VPreIfEntry.new (isOn everOn : Bool) : VPreIfEntry :=
  { m_on := isOn, m_everOn := everOn || isOn }

/-- Modelled from the spec: the location record `VFileLine`, a file name and a line number.
Its class is not part of the sources at hand. -/
structure VFileLine where
  filename : List Char
  lineno : Nat
  deriving DecidableEq, Repr

/-- Modelled from the spec: the factory `create(filename, lineno)` of `VFileLine`. -/
def VFileLine.create (filename : List Char) (lineno : Nat) : VFileLine :=
  { filename := filename, lineno := lineno }

/-- Modelled from the spec: the keep-comments policy, OFF, KEEP, SUB or EXP.  The scanner
field `m_keepComments` is an integer that is zero for OFF and is compared with the
constants `KEEPCMT_SUB` and `KEEPCMT_EXP`. -/
inductive KeepCmt
  | OFF | KEEP | KEEPCMT_SUB | KEEPCMT_EXP
  deriving DecidableEq, Repr

/-- Modelled from the spec: the part of the scanner `VPreLex` that the driver reads and
writes: the policy flags copied from the host, the accumulated define text `m_defValue`,
the running paren depth, the enter/exit level of the last line directive, the current
location, and the stack of scan buffers, newest first.  The class is not part of the
sources at hand. -/
structure VPreLex where
  m_keepComments : KeepCmt
  m_keepWhitespace : Bool
  m_pedantic : Bool
  m_defValue : List Char
  m_parenLevel : Int
  m_enterExit : Int
  m_curFilelinep : VFileLine
  m_bufferStack : List (List Char)
  deriving DecidableEq, Repr

/-- Modelled from the spec: the scanner `new VPreLex()` creates: nothing accumulated, no
buffer yet. -/
def VPreLex.new : VPreLex :=
  { m_keepComments := KeepCmt.OFF, m_keepWhitespace := true, m_pedantic := false,
    m_defValue := [], m_parenLevel := 0, m_enterExit := 0,
    m_curFilelinep := VFileLine.create [] 0, m_bufferStack := [] }

/-- Modelled from the spec: `scanBytes(text)` pushes a new buffer holding `text` on top of
the buffer stack. -/
def VPreLex.scanBytes (l : VPreLex) (text : List Char) : VPreLex :=
  { l with m_bufferStack := text :: l.m_bufferStack }

/-- Modelled from the spec: `scanBytesBack(text)` pushes `text` as the oldest buffer. -/
def VPreLex.scanBytesBack (l : VPreLex) (text : List Char) : VPreLex :=
  { l with m_bufferStack := l.m_bufferStack ++ [text] }

/-- Modelled from the spec: `pushStateDefForm()` switches the start condition; no field
that the driver reads changes. -/
def VPreLex.pushStateDefForm (l : VPreLex) : VPreLex := l

/-- Modelled from the spec: `pushStateDefValue()` switches the start condition. -/
def VPreLex.pushStateDefValue (l : VPreLex) : VPreLex := l

/-- Modelled from the spec: `pushStateDefArg(level)` switches the start condition with the
given paren level. -/
def VPreLex.pushStateDefArg (l : VPreLex) (level : Int) : VPreLex :=
  { l with m_parenLevel := level }

/-- Modelled from the spec: `pushStateIncFilename()` switches the start condition. -/
def VPreLex.pushStateIncFilename (l : VPreLex) : VPreLex := l

/-- Modelled from the spec: `appendDefValue(text, len)` appends to `m_defValue`. -/
def VPreLex.appendDefValue (l : VPreLex) (text : List Char) : VPreLex :=
  { l with m_defValue := l.m_defValue ++ text }

/-- Modelled from the spec: what one call of the scanner's `yylex()` delivers: the token
kind, its text, and the values that the scanner leaves in its own fields `m_defValue`,
`m_parenLevel`, `m_enterExit` and in the line number of its location.  The scanner is not
part of the sources at hand, so any sequence of such results is allowed. -/
structure LexOut where
  tok : VPTok
  text : List Char
  defValue : List Char
  parenLevel : Int
  enterExit : Int
  lineno : Nat
  deriving DecidableEq, Repr

/-- The calls that the driver makes to the host, and the two diagnostics channels. -/
inductive Event
  /-- A diagnostic passed to `error` by the driver itself. -/
  | error (msg : List Char)
  /-- The string of a user error directive passed to `error` in state `ps_ERRORNAME`. -/
  | userError (msg : List Char)
  /-- A message passed to `fatalSrc`. -/
  | fatal (msg : List Char)
  | define (name value formals : List Char)
  | undef (name : List Char)
  | undefineall
  | include (name : List Char)
  | comment (text : List Char)
  deriving DecidableEq, Repr

/-- The host calls that change the symbol table or the input, and the user error report. -/
def Event.sideEffect : Event → Bool
  | .define _ _ _ => true
  | .undef _ => true
  | .undefineall => true
  | .include _ => true
  | .userError _ => true
  | _ => false

/-- The host `VPreProc` object and the environment: configuration, the symbol table
queries, the substitution hook, the file that `include` decides to open, the location
formatting, and the file system as `readWholefile` sees it.  The symbol table and the
hooks may answer from everything that has been passed to the host so far. -/
structure Host where
  keepComments : KeepCmt
  keepWhitespace : Bool
  pedantic : Bool
  lineDirectives : Bool
  DEFINE_RECURSION_LEVEL_MAX : Nat
  INCLUDE_DEPTH_MAX : Nat
  defExists : List (Int × Event) → List Char → Bool
  defParams : List (Int × Event) → List Char → List Char
  defValue : List (Int × Event) → List Char → List Char
  defSubstitute : List (Int × Event) → List Char → List Char
  /-- The file that the host's `include(name)` passes to `openFile`, if any. -/
  includeFile : List (Int × Event) → List Char → Option (List Char)
  lineDirectiveStrg : VFileLine → Int → List Char
  /-- The descriptor that `open(filename, O_RDONLY)` returns. -/
  openFd : List Char → Int
  /-- The slabs that the successive `read` calls deliver for the file. -/
  readSlabs : List Char → List (List Char)

/-- The states of the directive parser (`enum ProcState`). -/
inductive VPreProcImp.ProcState
  | ps_TOP | ps_DEFNAME_UNDEF | ps_DEFNAME_DEFINE | ps_DEFNAME_IFDEF | ps_DEFNAME_IFNDEF
  | ps_DEFNAME_ELSIF | ps_DEFFORM | ps_DEFVALUE | ps_DEFPAREN | ps_DEFARG | ps_INCNAME
  | ps_ERRORNAME
  deriving DecidableEq, Repr

open VPreProcImp.ProcState

/-- The data of one preprocessor (`struct VPreProcImp`).  Stacks have their top first.
Besides the members of the struct there are: the scanner's current token text
(`yyourtext`), the record of the calls to the host (each with the off-depth at the time of
the call), whether `assert(m_off>=0)` has failed, and the results that the future `yylex()`
calls will deliver. -/
structure VPreProcImp where
  m_filelinep : VFileLine
  m_lexp : Option VPreLex
  m_includeStack : List VPreLex
  m_states : List VPreProcImp.ProcState
  m_off : Int
  m_lastSym : List Char
  m_formals : List Char
  m_lineCmt : List Char
  m_lineCmtNl : Bool
  m_lineAdd : Int
  m_rawAtBol : Bool
  m_defRefs : List VPreDefRef
  m_ifdefStack : List VPreIfEntry
  m_defDepth : Nat
  m_lineChars : List Char
  yytext : List Char
  log : List (Int × Event)
  assertFailed : Bool
  yyin : List LexOut
  deriving DecidableEq, Repr

/-- Where the body of the `getToken` loop leaves: `goto next_tok`, `return tok`, or `break`
out of the state switch into the token switch. -/
inductive Jump
  | next_tok
  | ret (tok : VPTok)
  | brk
  deriving DecidableEq, Repr

/-- The calls that a user of the preprocessor makes between construction and the end. -/
inductive ApiCall
  /-- One call of `getToken`, with the number of loop rounds granted to it. -/
  | getToken (fuel : Nat)
  | openFile (filename : List Char) (filelinep : Option VFileLine)
  | insertUnreadback (text : List Char)
  /-- One call of `getparseline` (`getline` has `stop_at_eol` true and chunk 0, `getall` has
  `stop_at_eol` false), with the number of loop rounds granted to it. -/
  | getparseline (stop_at_eol : Bool) (approx_chunk : Nat) (fuel : Nat)
  deriving DecidableEq, Repr

namespace VPreProcImp

/-- The constructor `VPreProcImp(filelinep)`; `yyin` is what the scanner will deliver. -/
def new (filelinep : VFileLine) (yyin : List LexOut) : VPreProcImp :=
  { m_filelinep := filelinep, m_lexp := none, m_includeStack := [], m_states := [ps_TOP],
    m_off := 0, m_lastSym := [], m_formals := [], m_lineCmt := [], m_lineCmtNl := false,
    m_lineAdd := 0, m_rawAtBol := true, m_defRefs := [], m_ifdefStack := [], m_defDepth := 0,
    m_lineChars := [], yytext := [], log := [], assertFailed := false, yyin := yyin }

/-- Source `isEof()`: no scanner is open. -/
def isEof (s : VPreProcImp) : Bool := s.m_lexp.isNone

/-- The scanner `*m_lexp`.  Where the C++ would dereference a null `m_lexp` the model
reads the fields of a fresh scanner. -/
def lexp (s : VPreProcImp) : VPreLex := s.m_lexp.getD VPreLex.new

/-- An update of `*m_lexp`; dropped when `m_lexp` is null. -/
def onLex (s : VPreProcImp) (f : VPreLex → VPreLex) : VPreProcImp :=
  { s with m_lexp := s.m_lexp.map f }

/-- The top of `m_states`. -/
def state (s : VPreProcImp) : ProcState := s.m_states.headD ps_TOP

/-- A call to the host or to a diagnostics channel, recorded with the current off-depth. -/
def emit (s : VPreProcImp) (e : Event) : VPreProcImp :=
  { s with log := s.log ++ [(s.m_off, e)] }

/-- Source `error(msg)`. -/
def error (s : VPreProcImp) (msg : List Char) : VPreProcImp := s.emit (Event.error msg)

/-- Source `fatalSrc(msg)`. -/
def fatalSrc (s : VPreProcImp) (msg : List Char) : VPreProcImp := s.emit (Event.fatal msg)

/-- Source `insertUnreadback(text)`. -/
def insertUnreadback (s : VPreProcImp) (text : List Char) : VPreProcImp :=
  { s with m_lineCmt := s.m_lineCmt ++ text }

/-- Source `insertUnreadbackAtBol(text)`. -/
def insertUnreadbackAtBol (s : VPreProcImp) (text : List Char) : VPreProcImp :=
  let s :=
    if s.m_lineCmt == [] then { s with m_lineCmtNl := true }
    else if s.m_lineCmt.getLast? != some NL then s.insertUnreadback [NL]
    else s
  s.insertUnreadback text

/-- Source `addLineComment(enter_exit_level)`. -/
def addLineComment (h : Host) (s : VPreProcImp) (enter_exit_level : Int) : VPreProcImp :=
  if h.lineDirectives then
    s.insertUnreadbackAtBol (h.lineDirectiveStrg s.lexp.m_curFilelinep enter_exit_level)
  else s

/-- Source `parsingOn()`: `m_off--; assert(m_off>=0); if (!m_off) addLineComment(0);`.  A failure of
the assertion is recorded in `assertFailed`. -/
def parsingOn (h : Host) (s : VPreProcImp) : VPreProcImp :=
  let s := { s with m_off := s.m_off - 1 }
  let s := if s.m_off < 0 then { s with assertFailed := true } else s
  if s.m_off == 0 then s.addLineComment h 0 else s

/-- Source `parsingOff()`. -/
def parsingOff (s : VPreProcImp) : VPreProcImp := { s with m_off := s.m_off + 1 }

/-- Source `statePush(state)`. -/
def statePush (s : VPreProcImp) (st : ProcState) : VPreProcImp :=
  { s with m_states := st :: s.m_states }

/-- Source `statePop()`.  The C++ pops before it tests for emptiness; the pop of an empty stack
leaves it empty in the model. -/
def statePop (s : VPreProcImp) : VPreProcImp :=
  let s := { s with m_states := s.m_states.tail }
  if s.m_states.isEmpty then
    (s.error "InternalError: Pop of parser state with nothing on stack".toList).statePush ps_TOP
  else s

/-- Source `stateChange(state)`. -/
def stateChange (s : VPreProcImp) (st : ProcState) : VPreProcImp := (s.statePop).statePush st

/-- Source `unputString(strg)`: the text becomes a new scan buffer of the current scanner. -/
def unputString (s : VPreProcImp) (strg : List Char) : VPreProcImp :=
  let s :=
    if s.lexp.m_bufferStack.isEmpty then
      s.fatalSrc "bufferStack missing current buffer; will return incorrectly".toList
    else s
  s.onLex (fun l => l.scanBytes strg)

/-- Source `readWholefile(filename, outl)`: whether it reports success, and the slabs read.  A
negative descriptor makes every `read` fail, so nothing is read from it. -/
def readWholefile (h : Host) (filename : List Char) : Bool × List (List Char) :=
  let fd := h.openFd filename
  if fd == 0 then (false, [])
  else (true, if fd < 0 then [] else h.readSlabs filename)

/-- The filter of `openFile` on one slab: CR and NUL are removed when one is present. -/
def stripSlab (slab : List Char) : List Char :=
  let strip := slab.any (fun c => c == Char.ofNat 13 || c == NUL)
  if strip then slab.filter (fun c => !(c == Char.ofNat 13 || c == NUL)) else slab

/-- Source `openFile(filename, filelinep)`. -/
def openFile (h : Host) (s : VPreProcImp) (filename : List Char)
    (filelinep : Option VFileLine) : VPreProcImp :=
  let s := match filelinep with
    | some fl => { s with m_filelinep := fl }
    | none => s
  let (ok, wholefile) := readWholefile h filename
  if !ok then s.error ("File not found: ".toList ++ filename ++ [NL])
  else
    let pushed : Option VPreProcImp :=
      match s.m_lexp with
      | some l =>
        if s.m_includeStack.length > h.INCLUDE_DEPTH_MAX then none
        else some (addLineComment h { s with m_includeStack := l :: s.m_includeStack } 0)
      | none => some s
    match pushed with
    | none => s.error ("Recursive inclusion of file: ".toList ++ filename)
    | some s =>
      let l : VPreLex :=
        { VPreLex.new with
            m_keepComments := h.keepComments, m_keepWhitespace := h.keepWhitespace,
            m_pedantic := h.pedantic, m_curFilelinep := VFileLine.create filename 1 }
      let s := { s with m_lexp := some l, m_filelinep := l.m_curFilelinep }
      let s := addLineComment h s 1
      wholefile.foldl (fun s slab => s.onLex (fun l => l.scanBytesBack (stripSlab slab))) s

/-- Source `eof()`: the end of an unput buffer, or the end of a file. -/
def eof (h : Host) (s : VPreProcImp) : VPreProcImp :=
  if s.lexp.m_bufferStack.length > 1 then
    s.onLex (fun l => { l with m_bufferStack := l.m_bufferStack.tail })
  else
    let s := addLineComment h s 2
    let s := { s with m_lexp := none }
    match s.m_includeStack with
    | [] => s
    | l :: rest =>
      let s := { s with m_lexp := some l, m_includeStack := rest }
      let s := addLineComment h s 0
      if s.lexp.m_bufferStack.isEmpty then s.fatalSrc "No include buffer to return to".toList
      else s

/-- Modelled from the spec: one call of `yylex()` on the current scanner: the next result
of the scanner is delivered, and end of input once there is none. -/
def yylex (s : VPreProcImp) : VPreProcImp × VPTok :=
  match s.yyin with
  | [] => ({ s with yytext := [] }, VP_EOF)
  | o :: rest =>
    let s := s.onLex (fun l =>
      { l with m_defValue := o.defValue, m_parenLevel := o.parenLevel,
               m_enterExit := o.enterExit,
               m_curFilelinep := { l.m_curFilelinep with lineno := o.lineno } })
    ({ s with yytext := o.text, yyin := rest }, o.tok)

/-- The update `if (yyourleng()) m_rawAtBol = (yyourtext()[yyourleng()-1]=='\n')`. -/
def noteBol (s : VPreProcImp) : VPreProcImp :=
  if s.yytext != [] then { s with m_rawAtBol := s.yytext.getLast? == some NL } else s

/-- The first branch of `getRawToken`: one owed newline is returned as the token text. -/
def takeLineAdd (s : VPreProcImp) : VPreProcImp :=
  { s with m_lineAdd := s.m_lineAdd - 1, m_rawAtBol := true, yytext := [NL] }

/-- The second branch of `getRawToken`, up to the test of the parser state: the pending
line comment becomes the token text, after a newline if one is needed. -/
def takeLineCmt (s : VPreProcImp) : VPreProcImp :=
  let rtncmt := s.m_lineCmt
  let rtncmt := if s.m_lineCmtNl && !s.m_rawAtBol then NL :: rtncmt else rtncmt
  let s := { s with m_lineCmtNl := if s.m_lineCmtNl then false else s.m_lineCmtNl,
                    yytext := rtncmt, m_lineCmt := [] }
  s.noteBol

/-- The last branch of `getRawToken`, up to the test for end of input: the token start
location is remembered and the scanner is called. -/
def lexToken (s : VPreProcImp) : VPreProcImp × VPTok :=
  yylex { s with m_filelinep := s.lexp.m_curFilelinep }

/-- Source `getRawToken()`, with a bound on the rounds of its loop; `none` when the bound is
reached.  In state `ps_DEFVALUE` the C++ appends the line comment to the scanner of the last
`yylex()` call (`s_currentLexp`); the model appends it to the current scanner. -/
def getRawToken (h : Host) : Nat → VPreProcImp → VPreProcImp × Option VPTok
  | 0, s => (s, none)
  | fuel + 1, s =>
    if s.m_lineAdd != 0 then (s.takeLineAdd, some VP_WHITE)
    else if s.m_lineCmt != [] then
      if s.takeLineCmt.state == ps_DEFVALUE then
        getRawToken h fuel
          (s.takeLineCmt.onLex (fun l => l.appendDefValue s.takeLineCmt.yytext))
      else (s.takeLineCmt, some VP_TEXT)
    else if s.isEof then (s, some VP_EOF)
    else if s.lexToken.2 == VP_EOF then getRawToken h fuel (eof h s.lexToken.1)
    else (s.lexToken.1.noteBol, some s.lexToken.2)

/-- The text of the error for a token that a state does not expect. -/
def expecting (what : String) (tok : VPTok) (nl : Bool) : List Char :=
  what.toList ++ tok.tokenName ++ (if nl then [NL] else [])

/-- The block of `ps_DEFNAME_IFDEF`/`ps_DEFNAME_IFNDEF` that opens a conditional:
`m_ifdefStack.push(VPreIfEntry(enable,false)); if (!enable) parsingOff();`. -/
def ifdefBlock (s : VPreProcImp) (enable : Bool) : VPreProcImp :=
  let s := { s with m_ifdefStack := VPreIfEntry.new enable false :: s.m_ifdefStack }
  if !enable then s.parsingOff else s

/-- The block of `ps_DEFNAME_ELSIF` for a non-empty IfEntry stack with top `lastIf`. -/
def elsifBlock (h : Host) (s : VPreProcImp) (lastIf : VPreIfEntry) (rest : List VPreIfEntry) :
    VPreProcImp :=
  let s := { s with m_ifdefStack := rest }
  let s := if !lastIf.m_on then s.parsingOn h else s
  let enable := !lastIf.m_everOn && h.defExists s.log s.m_lastSym
  let s := { s with m_ifdefStack := VPreIfEntry.new enable lastIf.m_everOn :: s.m_ifdefStack }
  if !enable then s.parsingOff else s

/-- The block of `case VP_ELSE` for a non-empty IfEntry stack with top `lastIf`. -/
def elseBlock (h : Host) (s : VPreProcImp) (lastIf : VPreIfEntry) (rest : List VPreIfEntry) :
    VPreProcImp :=
  let s := { s with m_ifdefStack := rest }
  let enable := !lastIf.m_everOn
  let s := { s with m_ifdefStack := VPreIfEntry.new enable lastIf.m_everOn :: s.m_ifdefStack }
  let s := if !lastIf.m_on then s.parsingOn h else s
  if !enable then s.parsingOff else s

/-- The block of `case VP_ENDIF` for a non-empty IfEntry stack with top `lastIf`. -/
def endifBlock (h : Host) (s : VPreProcImp) (lastIf : VPreIfEntry) (rest : List VPreIfEntry) :
    VPreProcImp :=
  let s := { s with m_ifdefStack := rest }
  if !lastIf.m_on then s.parsingOn h else s

/-- The elsif of `ps_DEFNAME_ELSIF`: an error without a matching if, else the elsif block. -/
def caseELSIF (h : Host) (s : VPreProcImp) : VPreProcImp :=
  match s.m_ifdefStack with
  | [] => s.error (BACKTICK :: "elsif with no matching ".toList ++ BACKTICK :: "if\n".toList)
  | lastIf :: rest => elsifBlock h s lastIf rest

/-- The body of `case VP_ELSE`: an error without a matching if, else the else block. -/
def caseELSE (h : Host) (s : VPreProcImp) : VPreProcImp :=
  match s.m_ifdefStack with
  | [] => s.error (BACKTICK :: "else with no matching ".toList ++ BACKTICK :: "if\n".toList)
  | lastIf :: rest => elseBlock h s lastIf rest

/-- The body of `case VP_ENDIF`: an error without a matching if, else the endif block. -/
def caseENDIF (h : Host) (s : VPreProcImp) : VPreProcImp :=
  match s.m_ifdefStack with
  | [] => s.error (BACKTICK :: "endif with no matching ".toList ++ BACKTICK :: "if\n".toList)
  | lastIf :: rest => endifBlock h s lastIf rest

/-- The cases `ps_DEFNAME_*` of the state switch. -/
def caseDEFNAME (h : Host) (s : VPreProcImp) (state : ProcState) (tok : VPTok) :
    VPreProcImp × Jump :=
  if tok == VP_SYMBOL then
    let s := { s with m_lastSym := s.yytext }
    if state == ps_DEFNAME_IFDEF || state == ps_DEFNAME_IFNDEF then
      let enable := h.defExists s.log s.m_lastSym
      let enable := if state == ps_DEFNAME_IFNDEF then !enable else enable
      ((s.ifdefBlock enable).statePop, Jump.next_tok)
    else if state == ps_DEFNAME_ELSIF then
      ((caseELSIF h s).statePop, Jump.next_tok)
    else if state == ps_DEFNAME_UNDEF then
      let s := if s.m_off == 0 then s.emit (Event.undef s.m_lastSym) else s
      (s.statePop, Jump.next_tok)
    else if state == ps_DEFNAME_DEFINE then
      (((s.stateChange ps_DEFFORM).onLex VPreLex.pushStateDefForm), Jump.next_tok)
    else (s.fatalSrc "Bad case\n".toList, Jump.next_tok)
  else if tok == VP_TEXT then
    if s.m_off == 0 then (s, Jump.ret tok) else (s, Jump.next_tok)
  else if tok == VP_DEFREF then (s, Jump.brk)
  else (s.error (expecting "Expecting define name. Found: " tok true), Jump.next_tok)

/-- The case `ps_DEFFORM` of the state switch. -/
def caseDEFFORM (s : VPreProcImp) (tok : VPTok) : VPreProcImp × Jump :=
  if tok == VP_DEFFORM then
    let s := { s with m_formals := s.lexp.m_defValue }
    (((s.stateChange ps_DEFVALUE).onLex VPreLex.pushStateDefValue), Jump.next_tok)
  else if tok == VP_TEXT then
    if s.m_off == 0 then (s, Jump.ret tok) else (s, Jump.next_tok)
  else (s.error (expecting "Expecting define formal arguments. Found: " tok true), Jump.next_tok)

/-- The rewrite of newlines to spaces in a captured define text. -/
def unNewline (text : List Char) : List Char := text.map (fun c => if c == NL then ' ' else c)

/-- The newlines that the rewrite of a captured define text owes. -/
def owedNewlines (text : List Char) : List Char := text.filter (fun c => c == NL)

/-- The case `ps_DEFVALUE` of the state switch. -/
def caseDEFVALUE (s : VPreProcImp) (tok : VPTok) : VPreProcImp × Jump :=
  let newlines : List Char := [NL]
  let (s, newlines) :=
    if tok == VP_DEFVALUE then
      let formals := s.m_formals
      let value := s.lexp.m_defValue
      let newlines := newlines ++ owedNewlines formals
      let formals := unNewline formals
      let newlines := newlines ++ owedNewlines value
      let value := unNewline value
      let s :=
        if s.m_off == 0 then
          let value := trimWhitespace value true
          s.emit (Event.define s.m_lastSym value formals)
        else s
      (s, newlines)
    else
      (s.fatalSrc ("Bad define text, unexpected ".toList ++ tok.tokenName ++ [NL]), newlines)
  let s := s.statePop
  ({ s with yytext := newlines }, Jump.ret VP_WHITE)

/-- The top of `m_defRefs`.  Where the C++ would take the top of an empty stack the model
reads an empty reference. -/
def topRef (s : VPreProcImp) : VPreDefRef := s.m_defRefs.headD (VPreDefRef.new [] [])

/-- An update of the top of `m_defRefs`; dropped when the stack is empty. -/
def onTopRef (s : VPreProcImp) (f : VPreDefRef → VPreDefRef) : VPreProcImp :=
  { s with m_defRefs := match s.m_defRefs with
      | [] => []
      | r :: rest => f r :: rest }

/-- The case `ps_DEFPAREN` of the state switch. -/
def caseDEFPAREN (s : VPreProcImp) (tok : VPTok) : VPreProcImp × Jump :=
  if tok == VP_TEXT && s.yytext == ['('] then (s.stateChange ps_DEFARG, Jump.next_tok)
  else
    let s :=
      if s.m_defRefs.isEmpty then
        s.error "InternalError: Shouldn't be in DEFPAREN w/o active defref".toList
      else s
    let s := s.error ("Expecting ( to begin argument list for define reference ".toList
      ++ BACKTICK :: s.topRef.m_name ++ [NL])
    (s.statePop, Jump.next_tok)

/-- The case `ps_DEFARG` of the state switch. -/
def caseDEFARG (h : Host) (s : VPreProcImp) (tok : VPTok) : VPreProcImp × Jump :=
  let s :=
    if s.m_defRefs.isEmpty then
      s.error "InternalError: Shouldn't be in DEFARG w/o active defref".toList
    else s
  let s := s.onTopRef (fun r => { r with m_nextarg := r.m_nextarg ++ s.lexp.m_defValue })
  let s := s.onLex (fun l => { l with m_defValue := [] })
  if tok == VP_DEFARG && s.yytext == [','] then
    let s := s.onTopRef (fun r => { r with m_args := r.m_args ++ [r.m_nextarg] })
    let s := s.stateChange ps_DEFARG
    let s := s.onLex (fun l => l.pushStateDefArg 1)
    (s.onTopRef (fun r => { r with m_nextarg := [] }), Jump.next_tok)
  else if tok == VP_DEFARG && s.yytext == [')'] then
    let s := s.onTopRef (fun r => { r with m_args := r.m_args ++ [r.m_nextarg] })
    let res := defineSubst s.topRef (h.defValue s.log s.topRef.m_name)
    let s := res.errors.foldl (fun s msg => s.error msg) s
    let out := res.out
    let s := { s with m_defRefs := s.m_defRefs.tail }
    let out := h.defSubstitute s.log out
    if s.m_defRefs.isEmpty then
      let s := s.unputString out
      let s := s.statePop
      (s.onLex (fun l => { l with m_parenLevel := 0 }), Jump.next_tok)
    else
      let s := s.onTopRef (fun r => { r with m_nextarg := r.m_nextarg ++ s.lexp.m_defValue ++ out })
      let s := s.onLex (fun l => { l with m_defValue := [] })
      let s := s.onLex (fun l => { l with m_parenLevel := s.topRef.m_parenLevel })
      (s.statePop, Jump.next_tok)
  else if tok == VP_DEFREF then (s, Jump.brk)
  else if tok == VP_SYMBOL || tok == VP_STRING || VP_TEXT.code != 0 || VP_WHITE.code != 0 then
    (s.onTopRef (fun r => { r with m_nextarg := r.m_nextarg ++ s.yytext }), Jump.next_tok)
  else
    let s := s.error (expecting
      "Expecting ) or , to end argument list for define reference. Found: " tok false)
    (s.statePop, Jump.next_tok)

/-- The host's `include(name)`: the call is recorded, and the host opens the file that it
resolves the name to, if any. -/
def hostInclude (h : Host) (s : VPreProcImp) (name : List Char) : VPreProcImp :=
  let s := s.emit (Event.include name)
  match h.includeFile s.log name with
  | some filename => openFile h s filename none
  | none => s

/-- The case `ps_INCNAME` of the state switch. -/
def caseINCNAME (h : Host) (s : VPreProcImp) (tok : VPTok) : VPreProcImp × Jump :=
  if tok == VP_STRING then
    let s := s.statePop
    let s := { s with m_lastSym := s.yytext }
    let s := { s with m_lastSym := s.m_lastSym.drop 1 }
    let s := { s with m_lastSym := s.m_lastSym.dropLast }
    (hostInclude h s s.m_lastSym, Jump.next_tok)
  else if tok == VP_TEXT && s.yytext == ['<'] then
    (((s.stateChange ps_INCNAME).onLex VPreLex.pushStateIncFilename), Jump.next_tok)
  else if tok == VP_DEFREF then (s, Jump.brk)
  else
    let s := s.statePop
    (s.error (expecting "Expecting include filename. Found: " tok true), Jump.next_tok)

/-- The case `ps_ERRORNAME` of the state switch. -/
def caseERRORNAME (s : VPreProcImp) (tok : VPTok) : VPreProcImp × Jump :=
  if tok == VP_STRING then
    let s :=
      if s.m_off == 0 then
        let s := { s with m_lastSym := s.yytext }
        s.emit (Event.userError s.m_lastSym)
      else s
    (s.statePop, Jump.next_tok)
  else
    let s := s.error ("Expecting ".toList ++ BACKTICK :: expecting "error string. Found: " tok true)
    (s.statePop, Jump.next_tok)

/-- The switch on the parser state in `getToken`. -/
def stateSwitch (h : Host) (s : VPreProcImp) (tok : VPTok) : VPreProcImp × Jump :=
  match s.state with
  | ps_TOP => (s, Jump.brk)
  | ps_DEFNAME_UNDEF => caseDEFNAME h s ps_DEFNAME_UNDEF tok
  | ps_DEFNAME_DEFINE => caseDEFNAME h s ps_DEFNAME_DEFINE tok
  | ps_DEFNAME_IFDEF => caseDEFNAME h s ps_DEFNAME_IFDEF tok
  | ps_DEFNAME_IFNDEF => caseDEFNAME h s ps_DEFNAME_IFNDEF tok
  | ps_DEFNAME_ELSIF => caseDEFNAME h s ps_DEFNAME_ELSIF tok
  | ps_DEFFORM => caseDEFFORM s tok
  | ps_DEFVALUE => caseDEFVALUE s tok
  | ps_DEFPAREN => caseDEFPAREN s tok
  | ps_DEFARG => caseDEFARG h s tok
  | ps_INCNAME => caseINCNAME h s tok
  | ps_ERRORNAME => caseERRORNAME s tok

/-- The message of the fatal error of the default case of the token switch. -/
def unexpectedMsg : List Char := "Internal error: Unexpected token.\n".toList

/-- The case `VP_DEFREF` of the token switch. -/
def caseDEFREF (h : Host) (s : VPreProcImp) : VPreProcImp × Jump :=
  if s.m_off == 0 then
    let name := s.yytext.drop 1
    let depth := s.m_defDepth
    let s := { s with m_defDepth := (s.m_defDepth + 1) % 2 ^ 32 }
    if depth > h.DEFINE_RECURSION_LEVEL_MAX then
      (s.error ("Recursive ".toList ++ BACKTICK :: "define substitution: ".toList
        ++ BACKTICK :: name), Jump.next_tok)
    else
      let params := h.defParams s.log name
      if params == [] then
        ({ s with m_defDepth := 0 }, Jump.ret VP_TEXT)
      else if params == ['0'] then
        let out := h.defValue s.log name
        let out := h.defSubstitute s.log out
        if s.m_defRefs.isEmpty then (s.unputString out, Jump.next_tok)
        else
          let s := s.onTopRef
            (fun r => { r with m_nextarg := r.m_nextarg ++ s.lexp.m_defValue ++ out })
          (s.onLex (fun l => { l with m_defValue := [] }), Jump.next_tok)
      else
        let s := s.onTopRef (fun r => { r with m_parenLevel := s.lexp.m_parenLevel })
        let s := { s with m_defRefs := VPreDefRef.new name params :: s.m_defRefs }
        let s := s.statePush ps_DEFPAREN
        (s.onLex (fun l => l.pushStateDefArg 0), Jump.next_tok)
  else (s, Jump.next_tok)

/-- The switch on the token in `getToken`, reached by `break` from the state switch. -/
def tokSwitch (h : Host) (s : VPreProcImp) (tok : VPTok) : VPreProcImp × Jump :=
  match tok with
  | VP_INCLUDE => ((if s.m_off == 0 then s.statePush ps_INCNAME else s), Jump.next_tok)
  | VP_UNDEF => (s.statePush ps_DEFNAME_UNDEF, Jump.next_tok)
  | VP_DEFINE => (s.statePush ps_DEFNAME_DEFINE, Jump.next_tok)
  | VP_IFDEF => (s.statePush ps_DEFNAME_IFDEF, Jump.next_tok)
  | VP_IFNDEF => (s.statePush ps_DEFNAME_IFNDEF, Jump.next_tok)
  | VP_ELSIF => (s.statePush ps_DEFNAME_ELSIF, Jump.next_tok)
  | VP_ELSE => (caseELSE h s, Jump.next_tok)
  | VP_ENDIF => (caseENDIF h s, Jump.next_tok)
  | VP_DEFREF => caseDEFREF h s
  | VP_ERROR => (s.statePush ps_ERRORNAME, Jump.next_tok)
  | VP_EOF =>
    let s :=
      if !s.m_ifdefStack.isEmpty then
        s.error (BACKTICK :: "ifdef not terminated at EOF\n".toList)
      else s
    (s, Jump.ret tok)
  | VP_UNDEFINEALL => ((if s.m_off == 0 then s.emit Event.undefineall else s), Jump.next_tok)
  | VP_SYMBOL | VP_STRING | VP_TEXT =>
    let s := { s with m_defDepth := 0 }
    if s.m_off == 0 then (s, Jump.ret tok) else (s, Jump.next_tok)
  | _ => (s.fatalSrc unexpectedMsg, Jump.ret tok)

/-- The handling of a `VP_COMMENT` token at the top of the `getToken` loop. -/
def caseCOMMENT (s : VPreProcImp) (tok : VPTok) : VPreProcImp × Jump :=
  if s.m_off == 0 && s.lexp.m_keepComments != KeepCmt.OFF
      && !(s.lexp.m_keepComments == KeepCmt.KEEPCMT_SUB
            || s.lexp.m_keepComments == KeepCmt.KEEPCMT_EXP) then
    (s, Jump.ret tok)
  else
    let s :=
      if s.m_off == 0 && s.lexp.m_keepComments != KeepCmt.OFF then
        s.emit (Event.comment s.yytext)
      else s
    ({ s with m_lineAdd := s.m_lineAdd + (owedNewlines s.yytext).length }, Jump.next_tok)

/-- The body of the `getToken` loop for the raw token `tok`; the result is never
`Jump.brk`. -/
def processToken (h : Host) (s : VPreProcImp) (tok : VPTok) : VPreProcImp × Jump :=
  if tok == VP_WHITE then (s, Jump.ret tok)
  else if tok == VP_COMMENT then caseCOMMENT s tok
  else if tok == VP_LINE then (addLineComment h s s.lexp.m_enterExit, Jump.next_tok)
  else
    match stateSwitch h s tok with
    | (s, Jump.brk) => tokSwitch h s tok
    | r => r

/-- Source `getToken()`, with a bound on the rounds of its loop (each round may use as many rounds
of `getRawToken`); `none` when the bound is reached. -/
def getToken (h : Host) : Nat → VPreProcImp → VPreProcImp × Option VPTok
  | 0, s => (s, none)
  | fuel + 1, s =>
    if s.isEof then (s, some VP_EOF)
    else
      match getRawToken h (fuel + 1) s with
      | (s, none) => (s, none)
      | (s, some tok) =>
        match processToken h s tok with
        | (s, Jump.ret t) => (s, some t)
        | (s, _) => getToken h fuel s

/-- The C function `strchr(s, c)` on the C string held in `text`, for a `c` other than NUL: the
offset of the first `c` that precedes every NUL, if there is one. -/
def strchr (c : Char) : List Char → Option Nat
  | [] => none
  | x :: rest =>
    if x == NUL then none
    else if x == c then some 0
    else (strchr c rest).map (fun i => i + 1)

/-- The left operand of the condition of the inner loop of `getparseline`: no newline in
the buffer yet, or the buffer shorter than the chunk asked for. -/
def needMore (stop_at_eol : Bool) (approx_chunk : Nat) (s : VPreProcImp) : Bool :=
  if stop_at_eol then (strchr NL s.m_lineChars).isNone
  else approx_chunk == 0 || s.m_lineChars.length < approx_chunk

/-- The body of the inner loop of `getparseline` after `getToken` has returned `tok`, and
the new value of `gotEof`.  The call `m_lineChars.append(yyourtext(),0,yyourleng())` makes a
string of the C string `yyourtext()` first, so the token text is appended up to its first
NUL. -/
def bufferToken (s : VPreProcImp) (tok : VPTok) : VPreProcImp × Bool :=
  if tok == VP_EOF then
    ((if s.m_lineChars != [] && s.m_lineChars.getLast? != some NL then
        { s with m_lineChars := s.m_lineChars ++ [NL] }
      else s), true)
  else ({ s with m_lineChars := s.m_lineChars ++ c_str s.yytext }, false)

/-- The inner loop of `getparseline`, with a bound on its rounds and on those of each
`getToken`: the state and `gotEof` when the loop ends, `none` when the bound is reached. -/
def fillLine (h : Host) (stop_at_eol : Bool) (approx_chunk : Nat) :
    Nat → VPreProcImp → VPreProcImp × Option Bool
  | 0, s => (s, none)
  | fuel + 1, s =>
    if needMore stop_at_eol approx_chunk s then
      match getToken h (fuel + 1) s with
      | (s, none) => (s, none)
      | (s, some tok) =>
        if (bufferToken s tok).2 then ((bufferToken s tok).1, some true)
        else fillLine h stop_at_eol approx_chunk fuel (bufferToken s tok).1
    else (s, some false)

/-- The length `len` of the text that `getparseline` cuts off the buffer.  Without a newline
in the buffer (`rtnp` is null, at end of input) the C++ computes a length from the null
pointer that is far beyond the buffer, and `string(m_lineChars,0,len)` and `erase(0,len)`
take the whole buffer. -/
def lineLen (stop_at_eol : Bool) (lineChars : List Char) : Nat :=
  if stop_at_eol then
    match strchr NL lineChars with
    | some i => i + 1
    | none => lineChars.length
  else lineChars.length

/-- The test of `getparseline` for a line to skip: white space is not kept, end of input
was not seen, and the C string of the line is white space only. -/
def skipLine (h : Host) (gotEof : Bool) (theLine : List Char) : Bool :=
  !h.keepWhitespace && !gotEof && (c_str theLine).all (fun c => isspace c || c == NL)

/-- The outer loop `while (1)` of `getparseline`, with a bound on its rounds. -/
def parseLoop (h : Host) (stop_at_eol : Bool) (approx_chunk : Nat) :
    Nat → VPreProcImp → VPreProcImp × Option (List Char)
  | 0, s => (s, none)
  | fuel + 1, s =>
    match fillLine h stop_at_eol approx_chunk (fuel + 1) s with
    | (s, none) => (s, none)
    | (s, some gotEof) =>
      if skipLine h gotEof (s.m_lineChars.take (lineLen stop_at_eol s.m_lineChars)) then
        parseLoop h stop_at_eol approx_chunk fuel
          { s with m_lineChars := s.m_lineChars.drop (lineLen stop_at_eol s.m_lineChars) }
      else
        ({ s with m_lineChars := s.m_lineChars.drop (lineLen stop_at_eol s.m_lineChars) },
          some (s.m_lineChars.take (lineLen stop_at_eol s.m_lineChars)))

/-- Source `getparseline(stop_at_eol, approx_chunk)`, with a bound on the rounds of its loops;
`none` when the bound is reached. -/
def getparseline (h : Host) (stop_at_eol : Bool) (approx_chunk : Nat) (fuel : Nat)
    (s : VPreProcImp) : VPreProcImp × Option (List Char) :=
  if s.isEof then (s, some []) else parseLoop h stop_at_eol approx_chunk fuel s

/-- One call of the interface. -/
def call (h : Host) (s : VPreProcImp) : ApiCall → VPreProcImp
  | ApiCall.getToken fuel => (getToken h fuel s).1
  | ApiCall.openFile filename filelinep => openFile h s filename filelinep
  | ApiCall.insertUnreadback text => s.insertUnreadback text
  | ApiCall.getparseline stop_at_eol approx_chunk fuel =>
    (getparseline h stop_at_eol approx_chunk fuel s).1

/-- The state after a sequence of calls on a freshly constructed preprocessor. -/
def run (h : Host) (filelinep : VFileLine) (yyin : List LexOut) (calls : List ApiCall) :
    VPreProcImp :=
  calls.foldl (call h) (VPreProcImp.new filelinep yyin)

end VPreProcImp


/-! ## A host with a symbol table, for concrete runs -/

namespace VPreProcImp

open VPTok VPreProcImp.ProcState

/-- The symbol table that the recorded `define`, `undef` and `undefineall` calls leave:
name, value and formals of every definition, newest first. -/
def symtab : List (Int × Event) → List (List Char × List Char × List Char)
  | [] => []
  | (_, Event.define n v f) :: rest => (n, v, f) :: (symtab rest).filter (fun d => d.1 != n)
  | (_, Event.undef n) :: rest => (symtab rest).filter (fun d => d.1 != n)
  | (_, Event.undefineall) :: _ => []
  | _ :: rest => symtab rest

/-- The definition of `name` after the recorded calls, if any. -/
def lookupDef (log : List (Int × Event)) (name : List Char) :
    Option (List Char × List Char × List Char) :=
  (symtab log.reverse).find? (fun d => d.1 == name)

/-- A host that keeps a symbol table (`params` is the formals, or `0` for no formals),
has the identity as substitution hook, opens no file on `include`, keeps comments and
whitespace out and in, and has line directives according to `lineDirectives`. -/
def tableHost (lineDirectives : Bool) : Host :=
  { keepComments := KeepCmt.OFF, keepWhitespace := true, pedantic := false,
    lineDirectives := lineDirectives,
    DEFINE_RECURSION_LEVEL_MAX := 1000, INCLUDE_DEPTH_MAX := 500,
    defExists := fun log n => (lookupDef log n).isSome,
    defParams := fun log n =>
      match lookupDef log n with
      | none => []
      | some d => if d.2.2 == [] then ['0'] else d.2.2,
    defValue := fun log n =>
      match lookupDef log n with
      | none => []
      | some d => d.2.1,
    defSubstitute := fun _ out => out,
    includeFile := fun _ _ => none,
    lineDirectiveStrg := fun fl level =>
      BACKTICK :: "line ".toList ++ (toString fl.lineno).toList ++ [' ', DQUOTE] ++ fl.filename
        ++ [DQUOTE, ' '] ++ (toString level).toList ++ [NL],
    openFd := fun _ => 3,
    readSlabs := fun _ => [[]] }

/-- A scanner result that carries a token and its text only. -/
def lexOut (tok : VPTok) (text : String) : LexOut :=
  { tok := tok, text := text.toList, defValue := [], parenLevel := 0, enterExit := 0, lineno := 1 }

/-- A scanner result that also leaves `defValue` in the scanner's `m_defValue`. -/
def lexOutDef (tok : VPTok) (text defValue : String) : LexOut :=
  { tok := tok, text := text.toList, defValue := defValue.toList, parenLevel := 0,
    enterExit := 0, lineno := 1 }

/-- A preprocessor on which `openFile` has been called once. -/
def opened (h : Host) (yyin : List LexOut) : VPreProcImp :=
  openFile h (VPreProcImp.new (VFileLine.create [] 0) yyin) "top.v".toList none

/-- The tokens and texts that successive `getToken` calls return, up to `n` calls. -/
def pump (h : Host) (fuel : Nat) : Nat → VPreProcImp → List (VPTok × List Char)
  | 0, _ => []
  | n + 1, s =>
    match getToken h fuel s with
    | (_, none) => []
    | (s1, some VP_EOF) => [(VP_EOF, s1.yytext)]
    | (s1, some t) => (t, s1.yytext) :: pump h fuel n s1

end VPreProcImp


/-! ## Conditional chains (specification side) -/

/-- A directive that continues a conditional chain: an elsif, with the answer of
`defExists` for its name, or an else. -/
inductive ChainStep
  | elsif (defined : Bool)
  | orElse
  deriving DecidableEq, Repr

namespace VPreProcImp

/-- The IfEntry that a directive of a chain puts in place of the entry `e`. -/
def chainNext (e : VPreIfEntry) : ChainStep → VPreIfEntry
  | ChainStep.elsif defined => VPreIfEntry.new (!e.m_everOn && defined) e.m_everOn
  | ChainStep.orElse => VPreIfEntry.new (!e.m_everOn) e.m_everOn

/-- The IfEntries of the branches of a chain, in order: the entry `e` of the first branch
and those that the directives put in its place one after the other. -/
def chainEntries (e : VPreIfEntry) : List ChainStep → List VPreIfEntry
  | [] => [e]
  | c :: cs => e :: chainEntries (chainNext e c) cs

end VPreProcImp


/-! ## Invariants and specification-side notions of the driver, and inputs for concrete runs -/

namespace VPreProcImp

open VPTok VPreProcImp.ProcState

/-- The number of entries of the IfEntry stack whose `on` flag is false. -/
def offCount : List VPreIfEntry → Int
  | [] => 0
  | e :: rest => (if e.m_on then 0 else 1) + offCount rest

/-- The part of the state that conditional compilation lives in. -/
def cond (s : VPreProcImp) : Int × List VPreIfEntry × Bool :=
  (s.m_off, s.m_ifdefStack, s.assertFailed)

/-- The off-depth is the number of off entries, and the assertion has not failed. -/
def CondOK (c : Int × List VPreIfEntry × Bool) : Prop :=
  c.1 = offCount c.2.1 ∧ c.2.2 = false

/-- What `getToken` may return: white space, end of input, or anything while the off-depth
is zero; or else the fatal error for an unexpected token has been reported. -/
def RetOK (s : VPreProcImp) (t : VPTok) : Prop :=
  t = VP_WHITE ∨ t = VP_EOF ∨ s.m_off = 0 ∨ (∃ p ∈ s.log, p.2 = Event.fatal unexpectedMsg)

/-- A step of the loop body that returns is allowed to return what it does. -/
def JumpOK (r : VPreProcImp × Jump) : Prop :=
  ∀ t, r.2 = Jump.ret t → RetOK r.1 t

/-- Every recorded side effect was issued at off-depth zero. -/
def LogOK (log : List (Int × Event)) : Prop :=
  ∀ p ∈ log, p.2.sideEffect = true → p.1 = 0

/-- The shape of the parser state stack: `ps_TOP` at the bottom and nowhere else, at most
one state other than `ps_DEFPAREN` and `ps_DEFARG`, and that one right above the bottom. -/
def wellStacked : List ProcState → Bool
  | [] => false
  | [x] => x == ps_TOP
  | x :: y :: rest =>
    if x == ps_DEFPAREN || x == ps_DEFARG then wellStacked (y :: rest)
    else x != ps_TOP && y == ps_TOP && rest.isEmpty

/-- The invariant that keeps side effects out of failed conditionals: the record holds no side effect
issued at a positive off-depth, the parser stack has its shape, and an include that waits
for its file name was started at off-depth zero. -/
def Guarded (s : VPreProcImp) : Prop :=
  LogOK s.log ∧ wellStacked s.m_states = true ∧ (ps_INCNAME ∈ s.m_states → s.m_off = 0)

/-- The recorded side effects, in order. -/
def sideEvents (log : List (Int × Event)) : List (Int × Event) :=
  log.filter (fun p => p.2.sideEffect)

/-- The states whose case of the state switch breaks to the token switch on a `VP_DEFREF`
token. -/
def passesDEFREF : ProcState → Bool
  | ps_TOP | ps_DEFNAME_UNDEF | ps_DEFNAME_DEFINE | ps_DEFNAME_IFDEF | ps_DEFNAME_IFNDEF
  | ps_DEFNAME_ELSIF | ps_DEFARG | ps_INCNAME => true
  | _ => false

/-- The scan buffers of the current scanner, if one is open. -/
def scanBuffers (s : VPreProcImp) : Option (List (List Char)) :=
  s.m_lexp.map (fun l => l.m_bufferStack)

/-- The reference at the moment its closing paren is seen: the scanner's pending argument text
has joined the current argument, which has become the last actual. -/
def closeRef (inner : VPreDefRef) (pending : List Char) : VPreDefRef :=
  { inner with m_nextarg := inner.m_nextarg ++ pending,
               m_args := inner.m_args ++ [inner.m_nextarg ++ pending] }

/-- The expansion text of the reference `inner` whose closing paren is seen in state `s`:
the substituted body, passed through the host's substitution hook, which sees the record
with the errors of the substitution added. -/
def closeExpansion (h : Host) (s : VPreProcImp) (inner : VPreDefRef) : List Char :=
  let res := defineSubst (closeRef inner s.lexp.m_defValue) (h.defValue s.log inner.m_name)
  h.defSubstitute (s.log ++ res.errors.map (fun m => (s.m_off, Event.error m))) res.out

/-- The scanner results for the definitions of `A` as `x,y`, of `F(a)` as `[a]` and of
`G(b)` as `b,b`, and then the reference to `F` whose argument is `p` and a further
reference. -/
def nestedInput (innerRef : List LexOut) : List LexOut :=
  [lexOut VP_DEFINE "", lexOut VP_SYMBOL "A", lexOutDef VP_DEFFORM "" "",
   lexOutDef VP_DEFVALUE "" "x,y",
   lexOut VP_DEFINE "", lexOut VP_SYMBOL "F", lexOutDef VP_DEFFORM "" "(a)",
   lexOutDef VP_DEFVALUE "" "[a]",
   lexOut VP_DEFINE "", lexOut VP_SYMBOL "G", lexOutDef VP_DEFFORM "" "(b)",
   lexOutDef VP_DEFVALUE "" "b,b",
   lexOut VP_DEFREF "\x60F", lexOut VP_TEXT "("] ++ innerRef

/-- The state in which the loop body of `getToken` is about to process the last of the
`rounds + 1` scanner results that follow the three definitions of `nestedInput`. -/
def nestedState (innerRef : List LexOut) (rounds : Nat) : VPreProcImp :=
  (getRawToken (tableHost false) 1
    (run (tableHost false) (VFileLine.create [] 0) (nestedInput innerRef)
      [ApiCall.openFile "top.v".toList none, ApiCall.getToken 9, ApiCall.getToken 9,
       ApiCall.getToken 9, ApiCall.getToken rounds])).1

/-- The state about to process the object-like reference to `A` inside the argument of `F`. -/
def objectRefState : VPreProcImp := nestedState [lexOutDef VP_DEFREF "\x60A" "p "] 2

/-- The state about to process the closing paren of the reference to `G` inside the argument
of `F`. -/
def closeState : VPreProcImp :=
  nestedState [lexOutDef VP_DEFREF "\x60G" "p ", lexOut VP_TEXT "(", lexOutDef VP_DEFARG ")" "1"] 4

/-- What the case `ps_DEFARG` does before it looks at the token: the argument text that the
scanner has accumulated joins the current argument of the top frame. -/
def flushArg (s : VPreProcImp) : VPreProcImp :=
  (s.onTopRef (fun r => { r with m_nextarg := r.m_nextarg ++ s.lexp.m_defValue })).onLex
    (fun l => { l with m_defValue := [] })

/-- The state that has read `F(` after the definitions of `nestedInput`, and whose scanner
delivers next a reference to the undefined name `U`, with the argument text `a ` before it. -/
def undefinedRefState : VPreProcImp :=
  run (tableHost false) (VFileLine.create [] 0) (nestedInput [lexOutDef VP_DEFREF "\x60U" "a "])
    [ApiCall.openFile "top.v".toList none, ApiCall.getToken 9, ApiCall.getToken 9,
     ApiCall.getToken 9, ApiCall.getToken 2]

/-- The message of the error that `statePop` reports when it finds the stack empty. -/
def underflowMsg : List Char :=
  "InternalError: Pop of parser state with nothing on stack".toList

/-- The record holds no report of a pop of the empty parser state stack. -/
def Quiet (log : List (Int × Event)) : Prop :=
  ∀ p ∈ log, p.2 ≠ Event.error underflowMsg

/-- The message of the error for a conditional that is still open at end of input. -/
def unterminatedMsg : List Char := BACKTICK :: "ifdef not terminated at EOF\n".toList

/-- The scanner results for a file that opens a conditional on the undefined name `A` and
ends after the newline, without closing it. -/
def unterminatedInput : List LexOut :=
  [lexOut VP_IFDEF "", lexOut VP_SYMBOL "A", lexOut VP_WHITE "\n"]

/-- The state after `openFile` on a file with the given scanner results and `n` calls of
`getToken`, for the host `tableHost lineDirectives`. -/
def afterTokens (lineDirectives : Bool) (yyin : List LexOut) (n : Nat) : VPreProcImp :=
  run (tableHost lineDirectives) (VFileLine.create [] 0) yyin
    (ApiCall.openFile "top.v".toList none :: List.replicate n (ApiCall.getToken 9))

/-- The message of the error for an else, elsif or endif directive outside a conditional. -/
def noMatchingIf (directive : String) : List Char :=
  BACKTICK :: directive.toList ++ " with no matching ".toList ++ BACKTICK :: "if\n".toList

/-- The line buffer of `getparseline` holds no NUL. -/
def LineBufOK (s : VPreProcImp) : Prop := NUL ∉ s.m_lineChars

/-- What `get_line` may return: nothing, or one line: a text without a newline and then a
newline. -/
def IsLine (line : List Char) : Prop :=
  line = [] ∨ ∃ body, line = body ++ [NL] ∧ NL ∉ body

/-- The state after `openFile` on a file whose scanner delivers the text `a`, newline, `b`
and then ends, and one call of `getline`, which has returned the first line. -/
def tailState : VPreProcImp :=
  run (tableHost false) (VFileLine.create [] 0) [lexOut VP_TEXT "a\nb"]
    [ApiCall.openFile "top.v".toList none, ApiCall.getparseline true 0 9]

/-- A text without its leading and its trailing white space. -/
def strip (text : List Char) : List Char :=
  ((text.dropWhile isspace).reverse.dropWhile isspace).reverse

/-- The state after `openFile` and the scanner results of the definition of `A` as `1`,
without formals. -/
def plainDefineState : VPreProcImp :=
  opened (tableHost false)
    [lexOut VP_DEFINE "", lexOut VP_SYMBOL "A", lexOutDef VP_DEFFORM "" "",
     lexOutDef VP_DEFVALUE "" "1"]

/-- The state that has read the name and the formals of the definition of `A(a,b)`, with a
newline in the formals, and whose scanner delivers the body next, with two newlines. -/
def formalsReadState : VPreProcImp :=
  (getToken (tableHost false) 3
    (opened (tableHost false)
      [lexOut VP_DEFINE "", lexOut VP_SYMBOL "A", lexOutDef VP_DEFFORM "" "(a,\nb)",
       lexOutDef VP_DEFVALUE "" "a\n+b \n"])).1

/-- The value that a completed definition passes to the host: the captured body with its
newlines rewritten to spaces and without leading and trailing white space. -/
def defineValue (body : List Char) : List Char := strip (unNewline body)

/-- Whether `getToken` elides a comment token read in state `s`: the off-depth is not zero,
comments are not kept, or comments go to the host's `comment` callback. -/
def elides (s : VPreProcImp) : Bool :=
  s.m_off != 0 || s.lexp.m_keepComments == KeepCmt.OFF
    || s.lexp.m_keepComments == KeepCmt.KEEPCMT_SUB
    || s.lexp.m_keepComments == KeepCmt.KEEPCMT_EXP

/-- The results of `n` successive calls of `getRawToken`: the state after them, and the
token and token text of each. -/
def rawTokens (h : Host) (fuel : Nat) :
    Nat → VPreProcImp → VPreProcImp × List (Option VPTok × List Char)
  | 0, s => (s, [])
  | n + 1, s =>
    ((rawTokens h fuel n (getRawToken h fuel s).1).1,
      ((getRawToken h fuel s).2, (getRawToken h fuel s).1.yytext)
        :: (rawTokens h fuel n (getRawToken h fuel s).1).2)

/-- The state in which a comment with two newlines has been read from a file whose scanner
delivers the symbol `x` after it; the host keeps no comments. -/
def commentReadState : VPreProcImp :=
  (getRawToken (tableHost false) 9
    (opened (tableHost false) [lexOut VP_COMMENT "/*a\nb\n*/", lexOut VP_SYMBOL "x"])).1

/-- The host `tableHost false` on a file system where `open` fails for every file: it
returns -1. -/
def noFileHost : Host := { tableHost false with openFd := fun _ => -1 }

/-- The message of the error for a file that cannot be read. -/
def notFoundMsg (filename : List Char) : List Char :=
  "File not found: ".toList ++ filename ++ [NL]

/-- The carriage return, which `openFile` strips. -/
def CR : Char := Char.ofNat 13

/-- A slab without its carriage returns and NULs. -/
def withoutCRNUL (slab : List Char) : List Char :=
  slab.filter (fun c => c != CR && c != NUL)

/-- The message of the error for an include that is nested too deep. -/
def recursiveInclusionMsg (filename : List Char) : List Char :=
  "Recursive inclusion of file: ".toList ++ filename

/-- The state of a fresh preprocessor after `n` calls of `openFile` for the file `f`. -/
def nestedOpens (h : Host) (f : List Char) (n : Nat) : VPreProcImp :=
  run h (VFileLine.create [] 0) [] (List.replicate n (ApiCall.openFile f none))

/-- The text between the quotes of a string literal: characters other than the double quote,
and backslash escapes, each of which takes the character after it along. -/
def literalText : List Char → Bool
  | [] => true
  | [c] => c != DQUOTE && c != BACKSLASH
  | c :: d :: rest =>
    if c == BACKSLASH then literalText rest else c != DQUOTE && literalText (d :: rest)

/-- A character that may start an identifier run of a macro body: `[A-Za-z_$]`. -/
def identStart (c : Char) : Bool := isalpha c || c == '_' || c == '$'

/-- A character that may continue an identifier run: `[A-Za-z_$0-9]`. -/
def identCont (c : Char) : Bool := identStart c || isdigit c

/-- An identifier run: a leading `[A-Za-z_$]` continued by `[A-Za-z_$0-9]`. -/
def isIdentRun : List Char → Bool
  | [] => false
  | c :: rest => identStart c && rest.all identCont

/-- The run is taken maximally: the text after it is empty or starts with a character that
cannot continue an identifier. -/
def endsRun : List Char → Bool
  | [] => true
  | d :: _ => !identCont d

/-- A preprocessor that has returned the text `a` of the opened file, so that the last
character returned is not a newline. -/
def midLineState : VPreProcImp :=
  (getToken (tableHost false) 3 (opened (tableHost false) [lexOut VP_TEXT "a"])).1

/-- The number of `ps_DEFPAREN` and `ps_DEFARG` entries on the parser state stack. -/
def defStates (s : VPreProcImp) : Nat :=
  s.m_states.countP (fun st => st == ps_DEFPAREN || st == ps_DEFARG)

/-- The scanner results for the definitions of `F(a)` as `[a]` and of `A` as `x,y`, then a
reference to `F` that is followed by a semicolon instead of an argument list, the symbol
`z`, a reference to `A` and the symbol `w`. -/
def abandonedInput : List LexOut :=
  [lexOut VP_DEFINE "", lexOut VP_SYMBOL "F", lexOutDef VP_DEFFORM "" "(a)",
   lexOutDef VP_DEFVALUE "" "[a]",
   lexOut VP_DEFINE "", lexOut VP_SYMBOL "A", lexOutDef VP_DEFFORM "" "",
   lexOutDef VP_DEFVALUE "" "x,y",
   lexOut VP_DEFREF "\x60F", lexOut VP_TEXT ";", lexOut VP_SYMBOL "z",
   lexOut VP_DEFREF "\x60A", lexOut VP_SYMBOL "w"]

/-- The message of the error for a reference to a macro with formals that is not followed
by an opening paren. -/
def expectingParenMsg (name : String) : List Char :=
  "Expecting ( to begin argument list for define reference ".toList
    ++ BACKTICK :: name.toList ++ [NL]

/-- The strings that successive `getline` calls return, up to `n` calls. -/
def pumpLines (h : Host) (fuel : Nat) : Nat → VPreProcImp → List (List Char)
  | 0, _ => []
  | n + 1, s =>
    match getparseline h true 0 fuel s with
    | (_, none) => []
    | (s1, some line) => line :: pumpLines h fuel n s1

/-- The state after `openFile` and `n` calls of `getline` on a file whose scanner delivers the
symbol `abc` and then ends, without a final newline; the host has line directives on. -/
def noFinalNewline (n : Nat) : VPreProcImp :=
  run (tableHost true) (VFileLine.create [] 0) [lexOut VP_SYMBOL "abc"]
    (ApiCall.openFile "top.v".toList none :: List.replicate n (ApiCall.getparseline true 0 9))

/-- Specification side: one formal while the formals string is read: the text left of its
`=`, and the text right of it once an `=` has been met. -/
structure Piece where
  left : List Char
  right : Option (List Char)
  deriving DecidableEq, Repr

/-- Specification side: text joins the default once there is one, the name before that. -/
def Piece.add (p : Piece) (cs : List Char) : Piece :=
  match p.right with
  | none => { p with left := p.left ++ cs }
  | some r => { p with right := some (r ++ cs) }

/-- Specification side: an `=` starts the default; a later `=` is part of the default. -/
def Piece.assign (p : Piece) : Piece :=
  match p.right with
  | none => { p with right := some [] }
  | some r => { p with right := some (r ++ ['=']) }

/-- Specification side: the formal of a piece: the name is the text left of the `=` without
the white space around it, the default is the text right of the `=`. -/
def Piece.toFormal (p : Piece) : Formal :=
  { lpad := p.left.takeWhile isspace, name := strip p.left,
    rpad := ((p.left.dropWhile isspace).reverse.takeWhile isspace).reverse, dflt := p.right }

/-- Specification side: the one counter for parens, braces and brackets. -/
def nestLevel (c : Char) (level : Int) : Int :=
  if c == '(' || c == LBRACE || c == '[' then level + 1
  else if c == ')' || c == RBRACE || c == ']' then level - 1
  else level

/-- Specification side: the formals of a formals string, read with the nesting level (1 is
the level of the list itself), the quote flag that a double quote toggles, and a backslash
taking the next character along: a comma or closing paren at level 1 outside a string ends
a formal, an `=` there separates name and default.  Text after the last such comma or paren
is no formal. -/
def scanPieces : List Char → Int → Bool → Piece → List Piece
  | [], _, _, _ => []
  | [c], level, quote, cur =>
    if !quote && level == 1 && (c == ')' || c == ',') then [cur] else []
  | c :: d :: rest, level, quote, cur =>
    if !quote && level == 1 && (c == ')' || c == ',') then
      cur :: scanPieces (d :: rest) level quote ⟨[], none⟩
    else if !quote && level == 1 && c == '=' then scanPieces (d :: rest) level quote cur.assign
    else if c == BACKSLASH then scanPieces rest level quote (cur.add [c, d])
    else
      scanPieces (d :: rest) (if quote then level else nestLevel c level)
        (if c == DQUOTE then !quote else quote) (cur.add [c])

/-- Specification side: no formal has a second `=` at level 1 outside a string: `seen` tells
whether the formal being read has had its `=`. -/
def assignedOnce : List Char → Int → Bool → Bool → Bool
  | [], _, _, _ => true
  | [c], level, quote, seen => !(!quote && level == 1 && c == '=' && seen)
  | c :: d :: rest, level, quote, seen =>
    if !quote && level == 1 && (c == ')' || c == ',') then
      assignedOnce (d :: rest) level quote false
    else if !quote && level == 1 && c == '=' then
      !seen && assignedOnce (d :: rest) level quote true
    else if c == BACKSLASH then assignedOnce rest level quote seen
    else
      assignedOnce (d :: rest) (if quote then level else nestLevel c level)
        (if c == DQUOTE then !quote else quote) seen

/-- Specification side: the formals among the pieces that have a name. -/
def namedOf (ps : List Piece) : List Formal :=
  (ps.map Piece.toFormal).filter (fun f => f.name != [])

/-- Specification side: the named formals that a formals string declares, in order. -/
def specFormals (params : List Char) : List Formal :=
  namedOf (scanPieces (formalsChars params) 1 false ⟨[], none⟩)

/-- Specification side: no default of the formals string holds an `=` outside brackets and
strings. -/
def defaultsPlain (params : List Char) : Bool :=
  assignedOnce (formalsChars params) 1 false false

/-- The loop state of `defineSubst` holds the piece that the specification side is reading. -/
def Tracks (st : FormalsState) (level : Int) (quote : Bool) (cur : Piece) : Prop :=
  st.paren = level ∧ st.quote = quote ∧ st.haveDefault = cur.right.isSome
    ∧ (if st.haveDefault then st.argName else st.token) = cur.left
    ∧ (if st.haveDefault then st.token else []) = cur.right.getD []

/-- Two maps that bind every non-empty name alike. -/
def SameNamed (m m2 : ArgMap) : Prop := ∀ a, a ≠ [] → m.find a = m2.find a

/-- The outcome of the formals loop agrees with the outcome on the specification side: the
same error, or the same count and the same bindings of names. -/
def Agrees (code spec : Except SubstResult FormalsState) : Prop :=
  match spec with
  | .error e => code = .error e
  | .ok s2 =>
    ∃ s1, code = .ok s1 ∧ s1.numArgs = s2.numArgs
      ∧ SameNamed s1.argValueByName s2.argValueByName

/-- The include stack holds at most `INCLUDE_DEPTH_MAX + 1` scanners. -/
def DepthOK (h : Host) (s : VPreProcImp) : Prop :=
  s.m_includeStack.length ≤ h.INCLUDE_DEPTH_MAX + 1

/-- The host `tableHost false` with the include depth bound 1. -/
def shallowHost : Host := { tableHost false with INCLUDE_DEPTH_MAX := 1 }

end VPreProcImp


/-! # Theorems -/

namespace VPreProcImp

/-! ## `trimWhitespace` and `defineSubst` -/

theorem drop_leadspace (s : List Char) : s.drop (leadspace s) = s.dropWhile isspace := by
  induction s with
  | nil => rfl
  | cons c cs ih =>
    by_cases h : isspace c = true
    · simp [leadspace, h, List.dropWhile, ih]
    · simp [leadspace, h, List.dropWhile]

theorem trimWhitespace_leading (s : List Char) :
    trimWhitespace s false = s.dropWhile isspace := by
  unfold trimWhitespace
  by_cases h : leadspace s = 0
  · simp [h]
    rw [← drop_leadspace, h]; rfl
  · simp [h, drop_leadspace]

theorem leadspace_append (l x : List Char) (hl : l.all isspace = true) :
    leadspace (l ++ x) = l.length + leadspace x := by
  induction l with
  | nil => simp
  | cons c cs ih =>
    simp only [List.all_cons, Bool.and_eq_true] at hl
    simp [leadspace, hl.1, ih hl.2]; omega

theorem leadspace_of_head (c : Char) (x : List Char) (hc : isspace c = false) :
    leadspace (c :: x) = 0 := by
  simp [leadspace, hc]

theorem trimWhitespace_padded (l n r : List Char) (hl : l.all isspace = true)
    (hr : r.all isspace = true) (hne : n ≠ [])
    (hn : n.all (fun c => plainChar c && !isspace c) = true) :
    trimWhitespace (l ++ n ++ r) true = n := by
  have hall : ∀ c ∈ n, isspace c = false := by
    intro c hc
    have := (List.all_eq_true.mp hn) c hc
    simp only [Bool.and_eq_true, Bool.not_eq_true'] at this
    exact this.2
  have hlead0 : leadspace (n ++ r) = 0 := by
    cases n with
    | nil => exact absurd rfl hne
    | cons c cs => exact leadspace_of_head c _ (hall c (List.mem_cons_self _ _))
  have hlead : leadspace (l ++ n ++ r) = l.length := by
    rw [List.append_assoc, leadspace_append l _ hl, hlead0]; rfl
  have hrev : r.reverse.all isspace = true := by
    simpa using hr
  have htrail : trailspace (n ++ r) = r.length := by
    unfold trailspace
    rw [List.reverse_append, leadspace_append _ _ hrev]
    have : leadspace n.reverse = 0 := by
      cases hrn : n.reverse with
      | nil => simp at hrn; exact absurd hrn hne
      | cons c cs =>
        apply leadspace_of_head
        apply hall
        have : c ∈ n.reverse := by rw [hrn]; exact List.mem_cons_self _ _
        simpa using this
    simp [this]
  have h1 : (if leadspace (l ++ n ++ r) != 0 then (l ++ n ++ r).drop (leadspace (l ++ n ++ r))
      else l ++ n ++ r) = n ++ r := by
    rw [hlead]
    by_cases h0 : l.length = 0
    · have : l = [] := List.length_eq_zero.mp h0
      subst this; simp
    · simp [h0, List.append_assoc]
  unfold trimWhitespace
  simp only [h1, if_true, htrail]
  by_cases h0 : r.length = 0
  · have : r = [] := List.length_eq_zero.mp h0
    subst this; simp
  · simp [h0]

theorem plainChar_of_isspace (c : Char) (h : isspace c = true) : plainChar c = true := by
  unfold plainChar
  simp only [Bool.and_eq_true, bne_iff_ne, ne_eq]
  refine ⟨⟨⟨⟨⟨⟨⟨⟨⟨⟨?_, ?_⟩, ?_⟩, ?_⟩, ?_⟩, ?_⟩, ?_⟩, ?_⟩, ?_⟩, ?_⟩, ?_⟩ <;>
    (rintro rfl; revert h; decide)

theorem parseFormals_plain_cons (refp : VPreDefRef) (x d : Char) (r : List Char)
    (st : FormalsState) (hq : st.quote = false) (hx : plainChar x = true) :
    parseFormals refp (x :: d :: r) st
      = parseFormals refp (d :: r) { st with token := st.token ++ [x] } := by
  unfold plainChar at hx
  simp only [Bool.and_eq_true, bne_iff_ne, ne_eq] at hx
  obtain ⟨⟨⟨⟨⟨⟨⟨⟨⟨⟨h1, h2⟩, h3⟩, h4⟩, h5⟩, h6⟩, h7⟩, h8⟩, h9⟩, h10⟩, h11⟩ := hx
  rw [parseFormals]
  simp [h1, h2, h3, h4, h5, h6, h7, h8, h9, h10, formalsChar, hq]

theorem parseFormals_plain (refp : VPreDefRef) (w : List Char) (c : Char) (r : List Char)
    (st : FormalsState) (hq : st.quote = false) (hw : w.all plainChar = true) :
    parseFormals refp (w ++ c :: r) st
      = parseFormals refp (c :: r) { st with token := st.token ++ w } := by
  induction w generalizing st with
  | nil => simp
  | cons x xs ih =>
    simp only [List.all_cons, Bool.and_eq_true] at hw
    cases xs with
    | nil =>
      simp only [List.cons_append, List.nil_append]
      rw [parseFormals_plain_cons refp x c r st hq hw.1]
    | cons y ys =>
      simp only [List.cons_append] at ih ⊢
      rw [parseFormals_plain_cons refp x y _ st hq hw.1]
      rw [ih { st with token := st.token ++ [x] } hq hw.2]
      simp

theorem Formal.wf_iff (f : Formal) : f.wf = true ↔
    f.lpad.all isspace = true ∧ f.rpad.all isspace = true ∧ f.name ≠ []
      ∧ f.name.all (fun c => plainChar c && !isspace c) = true
      ∧ (∀ d, f.dflt = some d → d.all plainChar = true) := by
  unfold Formal.wf
  cases f.dflt <;> simp [and_assoc]

theorem padded_plain (f : Formal) (h : f.wf = true) :
    (f.lpad ++ f.name ++ f.rpad).all plainChar = true := by
  obtain ⟨hl, hr, _, hn, _⟩ := (Formal.wf_iff f).mp h
  simp only [List.all_append, Bool.and_eq_true, List.all_eq_true] at hl hr hn ⊢
  exact ⟨⟨fun c hc => plainChar_of_isspace c (hl c hc), fun c hc => (hn c hc).1⟩,
    fun c hc => plainChar_of_isspace c (hr c hc)⟩

theorem parseFormals_run (refp : VPreDefRef) (w : List Char) (c : Char) (r : List Char)
    (n : Nat) (a : List Char) (p : Int) (t : List Char) (hd : Bool) (m : ArgMap)
    (hw : w.all plainChar = true) :
    parseFormals refp (w ++ c :: r) ⟨n, a, p, t, false, hd, m⟩
      = parseFormals refp (c :: r) ⟨n, a, p, t ++ w, false, hd, m⟩ :=
  parseFormals_plain refp w c r ⟨n, a, p, t, false, hd, m⟩ rfl hw

theorem parseFormals_assign (refp : VPreDefRef) (y : Char) (ys : List Char)
    (n : Nat) (a : List Char) (t : List Char) (hd : Bool) (m : ArgMap) :
    parseFormals refp ('=' :: y :: ys) ⟨n, a, 1, t, false, hd, m⟩
      = parseFormals refp (y :: ys) ⟨n, t, 1, [], false, true, m⟩ := by
  rw [parseFormals]
  simp [FormalsState.atBase]

theorem parseFormals_comma (refp : VPreDefRef) (y : Char) (ys : List Char) (st : FormalsState)
    (hb : st.atBase = true) :
    parseFormals refp (',' :: y :: ys) st
      = (match bindFormal refp st with
         | .error e => .error e
         | .ok st1 => parseFormals refp (y :: ys) st1) := by
  rw [parseFormals]
  simp [hb]

theorem parseFormals_close (refp : VPreDefRef) (st : FormalsState) (hb : st.atBase = true) :
    parseFormals refp [')'] st = bindFormal refp st := by
  rw [parseFormals]
  simp [hb]

theorem parseFormals_formal (refp : VPreDefRef) (f : Formal) (hf : f.wf = true) (c : Char)
    (r : List Char) (k : Nat) (m : ArgMap) :
    parseFormals refp (f.render ++ c :: r) (FormalsState.start k m)
      = parseFormals refp (c :: r) (FormalsState.atDelim f k m) := by
  have hp := padded_plain f hf
  obtain ⟨_, _, _, _, hd⟩ := (Formal.wf_iff f).mp hf
  unfold Formal.render FormalsState.atDelim FormalsState.start
  cases hdf : f.dflt with
  | none =>
    simp only [List.append_nil]
    rw [parseFormals_run refp _ c r _ _ _ _ _ _ hp]
    simp
  | some d =>
    have hdp := hd d hdf
    simp only [List.append_assoc, List.cons_append]
    rw [← List.append_assoc, ← List.append_assoc]
    rw [parseFormals_run refp ((f.lpad ++ f.name) ++ f.rpad) '=' _ _ _ _ _ _ _ hp]
    cases d with
    | nil =>
      simp only [List.nil_append]
      rw [parseFormals_assign refp c r]
      simp
    | cons y ys =>
      simp only [List.cons_append]
      rw [parseFormals_assign refp y, ← List.cons_append,
        parseFormals_run refp (y :: ys) c r _ _ _ _ _ _ hdp]
      simp

theorem bindFormal_atDelim (refp : VPreDefRef) (f : Formal) (hf : f.wf = true) (k : Nat)
    (m : ArgMap) (hc : (decide (k < refp.m_args.length) || f.dflt.isSome) = true) :
    bindFormal refp (FormalsState.atDelim f k m)
      = .ok (FormalsState.start (k + 1) (m.set f.name (effective refp.m_args k f))) := by
  obtain ⟨hl, hr, hne, hn, _⟩ := (Formal.wf_iff f).mp hf
  have ht := trimWhitespace_padded f.lpad f.name f.rpad hl hr hne hn
  rw [List.append_assoc] at ht
  unfold bindFormal FormalsState.atDelim effective
  cases hdf : f.dflt with
  | none =>
    have hk : k < refp.m_args.length := by simpa [hdf] using hc
    simp [FormalsState.start, ht, hne, hk]
  | some d =>
    simp [FormalsState.start, ht, hne]
    by_cases hk : k < refp.m_args.length
    · simp [hk]
    · simp [hk]

theorem atDelim_atBase (f : Formal) (k : Nat) (m : ArgMap) :
    (FormalsState.atDelim f k m).atBase = true := by
  unfold FormalsState.atDelim
  cases f.dflt <;> rfl

theorem renderFormals_ne_nil (fs : List Formal) : renderFormals fs ≠ [] := by
  match fs with
  | [] => simp [renderFormals]
  | [f] => simp [renderFormals]
  | f :: g :: hs => simp [renderFormals]

theorem bindFormal_atDelim_missing (refp : VPreDefRef) (f : Formal) (hf : f.wf = true) (k : Nat)
    (m : ArgMap) (hc : (decide (k < refp.m_args.length) || f.dflt.isSome) = false) :
    bindFormal refp (FormalsState.atDelim f k m)
      = .error { errors := [missingMsg f.name refp.m_name], out := errorStub refp.m_name } := by
  obtain ⟨hl, hr, hne, hn, _⟩ := (Formal.wf_iff f).mp hf
  have ht := trimWhitespace_padded f.lpad f.name f.rpad hl hr hne hn
  rw [List.append_assoc] at ht
  simp only [Bool.or_eq_false_iff, decide_eq_false_iff_not] at hc
  have hnone : f.dflt = none := by
    cases hd : f.dflt with
    | none => rfl
    | some d => rw [hd] at hc; exact absurd hc.2 (by simp)
  unfold bindFormal FormalsState.atDelim
  simp [hnone, FormalsState.start, ht, hne, hc.1]

theorem parseFormals_render (refp : VPreDefRef) (fs : List Formal) (hne : fs ≠ [])
    (hwf : fs.all Formal.wf = true) (k : Nat) (m : ArgMap) :
    parseFormals refp (renderFormals fs) (FormalsState.start k m) = bindList refp k fs m := by
  induction fs generalizing k m with
  | nil => exact absurd rfl hne
  | cons f gs ih =>
    simp only [List.all_cons, Bool.and_eq_true] at hwf
    cases hc : (decide (k < refp.m_args.length) || f.dflt.isSome) with
    | false =>
      have hb := bindFormal_atDelim_missing refp f hwf.1 k m hc
      cases gs with
      | nil =>
        simp only [renderFormals, bindList, hc]
        rw [parseFormals_formal refp f hwf.1, parseFormals_close refp _ (atDelim_atBase f k m), hb]
        rfl
      | cons g hs =>
        simp only [renderFormals, bindList, hc]
        rw [parseFormals_formal refp f hwf.1]
        obtain ⟨y, ys, hy⟩ := List.exists_cons_of_ne_nil (renderFormals_ne_nil (g :: hs))
        rw [hy, parseFormals_comma refp y ys _ (atDelim_atBase f k m), hb]
        rfl
    | true =>
      have hb := bindFormal_atDelim refp f hwf.1 k m hc
      cases gs with
      | nil =>
        simp only [renderFormals, bindList, hc]
        rw [parseFormals_formal refp f hwf.1, parseFormals_close refp _ (atDelim_atBase f k m), hb]
        rfl
      | cons g hs =>
        rw [bindList]
        simp only [renderFormals, hc, if_true]
        rw [parseFormals_formal refp f hwf.1]
        obtain ⟨y, ys, hy⟩ := List.exists_cons_of_ne_nil (renderFormals_ne_nil (g :: hs))
        rw [hy, parseFormals_comma refp y ys _ (atDelim_atBase f k m), hb]
        simp only
        rw [← hy, ih (by simp) hwf.2 (k + 1) _]

theorem renderFormals_noNUL (fs : List Formal) (hwf : fs.all Formal.wf = true) :
    (renderFormals fs).all (fun c => c != NUL) = true := by
  have hplain : ∀ w : List Char, w.all plainChar = true → w.all (fun c => c != NUL) = true := by
    intro w hw
    simp only [List.all_eq_true] at hw ⊢
    intro c hc
    have := hw c hc
    unfold plainChar at this
    simp only [Bool.and_eq_true] at this
    exact this.2
  have hrender : ∀ f : Formal, f.wf = true → f.render.all (fun c => c != NUL) = true := by
    intro f hf
    have hp := hplain _ (padded_plain f hf)
    obtain ⟨_, _, _, _, hd⟩ := (Formal.wf_iff f).mp hf
    unfold Formal.render
    cases hdf : f.dflt with
    | none => simpa using hp
    | some d =>
      have := hplain d (hd d hdf)
      simp only [List.all_append, List.all_cons, Bool.and_eq_true] at hp ⊢
      exact ⟨hp, by decide, this⟩
  induction fs with
  | nil => decide
  | cons f gs ih =>
    simp only [List.all_cons, Bool.and_eq_true] at hwf
    cases gs with
    | nil =>
      simp only [renderFormals, List.all_append, Bool.and_eq_true]
      exact ⟨hrender f hwf.1, by decide⟩
    | cons g hs =>
      simp only [renderFormals, List.all_append, List.all_cons, Bool.and_eq_true]
      exact ⟨hrender f hwf.1, by decide, ih hwf.2⟩

theorem c_str_of_noNUL (s : List Char) (h : s.all (fun c => c != NUL) = true) : c_str s = s := by
  unfold c_str
  rw [List.takeWhile_eq_self_iff]
  simpa using h

theorem bindList_numArgs (refp : VPreDefRef) (fs : List Formal) (k : Nat) (m : ArgMap)
    (st : FormalsState) (h : bindList refp k fs m = .ok st) : st.numArgs = k + fs.length := by
  induction fs generalizing k m with
  | nil => simp only [bindList, Except.ok.injEq] at h; subst h; rfl
  | cons f gs ih =>
    rw [bindList] at h
    split at h
    · have := ih (k + 1) _ h
      simp only [List.length_cons]; omega
    · cases h

theorem defineSubst_wellformed (refp : VPreDefRef) (value : List Char) (fs : List Formal)
    (hp : refp.m_params = formalsText fs) (hne : fs ≠ []) (hwf : fs.all Formal.wf = true) :
    defineSubst refp value =
      match bindList refp 0 fs [] with
      | .error e => e
      | .ok st =>
        if refp.m_args.length > fs.length then
          { errors := [tooManyMsg refp.m_name], out := errorStub refp.m_name }
        else { errors := [], out := substBody st.argValueByName (c_str value) [] false [] } := by
  have hc : c_str refp.m_params = '(' :: renderFormals fs := by
    rw [hp]
    apply c_str_of_noNUL
    simp only [formalsText, List.all_cons, Bool.and_eq_true]
    exact ⟨by decide, renderFormals_noNUL fs hwf⟩
  unfold defineSubst
  simp only [hc]
  have hparse := parseFormals_render refp fs hne hwf 0 []
  simp only [FormalsState.start] at hparse
  simp only [FormalsState.init, if_true, beq_self_eq_true]
  rw [hparse]
  cases hb : bindList refp 0 fs [] with
  | error e => rfl
  | ok st =>
    have hn := bindList_numArgs refp fs 0 [] st hb
    simp only [Nat.zero_add] at hn
    have hpos : 0 < fs.length := List.length_pos.mpr hne
    simp only [hn]
    by_cases hlen : refp.m_args.length > fs.length
    · have : (fs.length == 0) = false := by rw [beq_eq_false_iff_ne]; omega
      simp [hlen, this]
    · simp [hlen]

theorem countFormal_mono (st : FormalsState) : st.numArgs ≤ (countFormal st).numArgs := by
  unfold countFormal
  by_cases h : (trimWhitespace (if st.haveDefault = true then st.argName else st.token) true
      != []) = true
  · simp only [h, if_true]; omega
  · simp only [h, if_false]; exact Nat.le_refl _

theorem scanFormals_mono : ∀ (cs : List Char) (st : FormalsState),
    st.numArgs ≤ (scanFormals cs st).numArgs
  | [], st => by simp [scanFormals]
  | [c], st => by
    rw [scanFormals]
    split
    · exact countFormal_mono st
    · split
      · exact Nat.le_refl _
      · exact Nat.le_refl _
  | c :: d :: rest, st => by
    rw [scanFormals]
    split
    · exact Nat.le_trans (countFormal_mono st) (scanFormals_mono (d :: rest) _)
    · split
      · exact scanFormals_mono (d :: rest)
          { st with haveDefault := true, argName := st.token, token := [] }
      · split
        · exact scanFormals_mono rest { st with token := st.token ++ [c, d] }
        · exact scanFormals_mono (d :: rest) (formalsChar c st)

theorem sameScan_atBase {a b : FormalsState} (h : sameScan a b) : a.atBase = b.atBase := by
  obtain ⟨_, _, h3, _, h5, _⟩ := h
  simp [FormalsState.atBase, h3, h5]

theorem bindFormal_sim (refp : VPreDefRef) (st st0 : FormalsState) (h : sameScan st st0)
    (hi : onlyEmptyNames st) (hn : (countFormal st0).numArgs ≤ refp.m_args.length) :
    ∃ st1, bindFormal refp st = .ok st1 ∧ sameScan st1 (countFormal st0) ∧ onlyEmptyNames st1 := by
  obtain ⟨h1, h2, h3, h4, h5, h6⟩ := h
  unfold countFormal at hn ⊢
  unfold bindFormal
  simp only [← h1, ← h2, ← h4, ← h6] at hn ⊢
  by_cases hne : trimWhitespace (if st.haveDefault = true then st.argName else st.token) true = []
  · simp only [hne, bne_self_eq_false, Bool.false_eq_true, if_false]
    refine ⟨_, rfl, ⟨rfl, rfl, h3, rfl, h5, rfl⟩, ?_⟩
    intro h0 p hp
    simp only [ArgMap.set, List.mem_cons] at hp
    rcases hp with rfl | hp
    · rfl
    · exact hi h0 p hp
  · have hb : (trimWhitespace (if st.haveDefault = true then st.argName else st.token) true != [])
        = true := by simpa using hne
    simp only [hb, if_true] at hn ⊢
    have hlt : refp.m_args.length > st.numArgs := by omega
    simp only [hlt, if_true]
    refine ⟨_, rfl, ⟨rfl, rfl, h3, rfl, h5, rfl⟩, ?_⟩
    intro h0
    simp at h0

theorem parseFormals_sim (refp : VPreDefRef) : ∀ (cs : List Char) (st st0 : FormalsState),
    sameScan st st0 → onlyEmptyNames st →
    (scanFormals cs st0).numArgs ≤ refp.m_args.length →
    ∃ st1, parseFormals refp cs st = .ok st1 ∧ sameScan st1 (scanFormals cs st0)
      ∧ onlyEmptyNames st1
  | [], st, st0, h, hi, _ => ⟨st, rfl, h, hi⟩
  | [c], st, st0, h, hi, hn => by
    have hb := sameScan_atBase h
    obtain ⟨h1, h2, h3, h4, h5, h6⟩ := h
    rw [scanFormals] at hn ⊢
    rw [parseFormals]
    rw [hb]
    split
    · rename_i hc
      simp only [hc, if_true] at hn
      exact bindFormal_sim refp st st0 ⟨h1, h2, h3, h4, h5, h6⟩ hi hn
    · split
      · exact ⟨_, rfl, ⟨h1, h4, h3, rfl, h5, rfl⟩, hi⟩
      · refine ⟨_, rfl, ⟨h1, h2, ?_, ?_, ?_, h6⟩, hi⟩
        · simp [formalsChar, h3, h5]
        · simp [formalsChar, h4]
        · simp [formalsChar, h5]
  | c :: d :: rest, st, st0, h, hi, hn => by
    have hb := sameScan_atBase h
    obtain ⟨h1, h2, h3, h4, h5, h6⟩ := h
    rw [scanFormals] at hn ⊢
    rw [parseFormals]
    rw [hb]
    split
    · rename_i hc
      simp only [hc, if_true] at hn
      have hn1 : (countFormal st0).numArgs ≤ refp.m_args.length :=
        Nat.le_trans (scanFormals_mono (d :: rest) _) hn
      obtain ⟨st1, hst1, hs1, hi1⟩ := bindFormal_sim refp st st0 ⟨h1, h2, h3, h4, h5, h6⟩ hi hn1
      rw [hst1]
      exact parseFormals_sim refp (d :: rest) st1 _ hs1 hi1 hn
    · rename_i hc
      simp only [hc, if_false] at hn
      split
      · rename_i hc2
        simp only [hc2, if_true] at hn
        exact parseFormals_sim refp (d :: rest) _ _ ⟨h1, h4, h3, rfl, h5, rfl⟩ hi hn
      · rename_i hc2
        simp only [hc2, if_false] at hn
        split
        · rename_i hc3
          simp only [hc3, if_true] at hn
          exact parseFormals_sim refp rest _ _ ⟨h1, h2, h3, by simp [h4], h5, h6⟩ hi hn
        · rename_i hc3
          simp only [hc3, if_false] at hn
          refine parseFormals_sim refp (d :: rest) _ _ ⟨h1, h2, ?_, ?_, ?_, h6⟩ hi hn
          · simp [formalsChar, h3, h5]
          · simp [formalsChar, h4]
          · simp [formalsChar, h5]

theorem sameScan_refl (st : FormalsState) : sameScan st st := ⟨rfl, rfl, rfl, rfl, rfl, rfl⟩

theorem substArg_congr (m m2 : ArgMap) (h : ∀ a, a ≠ [] → m.find a = m2.find a)
    (a : List Char) : substArg m a = substArg m2 a := by
  unfold substArg
  by_cases ha : a = []
  · simp [ha]
  · simp [ha, h a ha]

theorem substBody_congr (m m2 : ArgMap) (h : ∀ a, a ≠ [] → m.find a = m2.find a) :
    ∀ (cs a : List Char) (q : Bool) (out : List Char),
      substBody m cs a q out = substBody m2 cs a q out
  | [], a, q, out => by simp [substBody, substArg_congr m m2 h]
  | [c], a, q, out => by
    simp only [substBody, substArg_congr m m2 h]
  | c :: d :: rest, a, q, out => by
    conv_lhs => rw [substBody]
    conv_rhs => rw [substBody]
    simp only [substArg_congr m m2 h]
    split
    · exact substBody_congr m m2 h _ _ _ _
    · split
      · exact substBody_congr m m2 h _ _ _ _
      · split
        · exact substBody_congr m m2 h _ _ _ _
        · split
          · exact substBody_congr m m2 h _ _ _ _
          · split
            · exact substBody_congr m m2 h _ _ _ _
            · exact substBody_congr m m2 h _ _ _ _

theorem find_of_onlyEmpty (m : ArgMap) (h : ∀ p ∈ m, p.1 = []) (a : List Char) (ha : a ≠ []) :
    m.find a = ArgMap.find [] a := by
  induction m with
  | nil => rfl
  | cons p ps ih =>
    have hp := h p (List.mem_cons_self _ _)
    obtain ⟨k, v⟩ := p
    simp only at hp
    subst hp
    have : (a == ([] : List Char)) = false := by simpa using ha
    simp only [ArgMap.find, List.lookup, this] at ih ⊢
    exact ih (fun p hp => h p (List.mem_cons_of_mem _ hp))

theorem defineSubst_too_many (refp : VPreDefRef) (value : List Char)
    (h : namedFormals refp.m_params < refp.m_args.length) :
    defineSubst refp value =
      if namedFormals refp.m_params = 0 ∧ refp.m_args.length = 1
          ∧ trimWhitespace (refp.m_args.getD 0 []) false = [] then
        { errors := [], out := substBody [] (c_str value) [] false [] }
      else { errors := [tooManyMsg refp.m_name], out := errorStub refp.m_name } := by
  have hinit : onlyEmptyNames FormalsState.init := by
    intro _ p hp
    simp [FormalsState.init] at hp
  obtain ⟨st1, hparse, hsame, hempty⟩ := parseFormals_sim refp (formalsChars refp.m_params)
    FormalsState.init FormalsState.init (sameScan_refl _) hinit (Nat.le_of_lt h)
  have hnum : st1.numArgs = namedFormals refp.m_params := hsame.1
  unfold defineSubst
  have hcp : (match c_str refp.m_params with
      | c :: rest => if (c == '(') = true then rest else c :: rest
      | [] => []) = formalsChars refp.m_params := rfl
  simp only [hcp, hparse, hnum]
  have hgt : decide (refp.m_args.length > namedFormals refp.m_params) = true := by
    simpa using h
  by_cases hex : namedFormals refp.m_params = 0 ∧ refp.m_args.length = 1
      ∧ trimWhitespace (refp.m_args.getD 0 []) false = []
  · rw [if_pos hex]
    obtain ⟨e1, e2, e3⟩ := hex
    simp only [e1, e2, e3, hgt]
    simp only [beq_self_eq_true, Bool.and_self, Bool.not_true, Bool.and_false,
      Bool.false_eq_true, if_false]
    have hkeys := hempty (hnum.trans e1)
    rw [substBody_congr st1.argValueByName [] (find_of_onlyEmpty _ hkeys)]
  · rw [if_neg hex]
    have : (refp.m_args.length == 1 && namedFormals refp.m_params == 0
        && trimWhitespace (refp.m_args.getD 0 []) false == []) = false := by
      rw [Bool.eq_false_iff]
      intro hc
      simp only [Bool.and_eq_true, beq_iff_eq] at hc
      exact hex ⟨hc.1.2, hc.1.1, hc.2⟩
    simp only [hgt, this, Bool.not_false, Bool.and_true, if_true]

theorem bindList_missing (refp : VPreDefRef) (f : Formal) (hnone : f.dflt = none) :
    ∀ (fs : List Formal) (k : Nat) (m : ArgMap), k ≤ refp.m_args.length →
      fs[refp.m_args.length - k]? = some f →
      bindList refp k fs m
        = .error { errors := [missingMsg f.name refp.m_name], out := errorStub refp.m_name }
  | [], _, _, _, h => by simp at h
  | g :: gs, k, m, hk, h => by
    rw [bindList]
    by_cases hlt : k < refp.m_args.length
    · have hidx : refp.m_args.length - k = (refp.m_args.length - (k + 1)) + 1 := by omega
      rw [hidx, List.getElem?_cons_succ] at h
      simp only [hlt, decide_True, Bool.true_or, if_true]
      exact bindList_missing refp f hnone gs (k + 1) _ (by omega) h
    · have hidx : refp.m_args.length - k = 0 := by omega
      rw [hidx, List.getElem?_cons_zero, Option.some.injEq] at h
      subst h
      simp [hlt, hnone]

theorem defineSubst_single (name actual value : List Char) :
    defineSubst { m_name := name, m_params := "(a)".toList, m_nextarg := [], m_parenLevel := 0,
                  m_args := [actual] } value
      = { errors := [],
          out := substBody [(['a'], actual.dropWhile isspace)] (c_str value) [] false [] } := by
  rw [defineSubst_wellformed _ value [⟨[], ['a'], [], none⟩] (by rfl) (by simp) (by decide)]
  simp only [bindList, effective, trimWhitespace_leading]
  by_cases h : actual.dropWhile isspace = [] <;>
    simp [h, FormalsState.start, ArgMap.set]

theorem substBody_tick_quote (m : ArgMap) (rest argName out : List Char) :
    substBody m (BACKTICK :: DQUOTE :: rest) argName false out
      = substBody m rest [] false (out ++ substArg m argName ++ [DQUOTE]) := by
  rw [substBody]
  have h1 : isArgChar argName BACKTICK = false := by
    have a1 : isalpha BACKTICK = false := by decide
    have a2 : (BACKTICK == '_') = false := by decide
    have a3 : (BACKTICK == '$') = false := by decide
    have a4 : isdigit BACKTICK = false := by decide
    simp [isArgChar, a1, a2, a3, a4]
  have h2 : (DQUOTE == BACKTICK) = false := by decide
  simp [h1, h2]

/-- C3: outside a string literal the pair backtick, double quote puts out one double quote
and leaves the quote flag off, so the formal between two such pairs is substituted: with
formals `(a)` the body made of that pair, `a`, and that pair again yields the actual (less
its leading whitespace) between double quotes, `hello` for the actual `hello`. -/
theorem C3_backtick_quote_emits_quote_without_toggle :
    (∀ (m : ArgMap) (rest argName out : List Char),
        substBody m (BACKTICK :: DQUOTE :: rest) argName false out
          = substBody m rest [] false (out ++ substArg m argName ++ [DQUOTE]))
      ∧ (∀ name actual : List Char,
          defineSubst { m_name := name, m_params := "(a)".toList, m_nextarg := [],
                        m_parenLevel := 0, m_args := [actual] }
              [BACKTICK, DQUOTE, 'a', BACKTICK, DQUOTE]
            = { errors := [], out := DQUOTE :: (actual.dropWhile isspace ++ [DQUOTE]) })
      ∧ (defineSubst (mkRef "STR" "(a)" ["hello"]) [BACKTICK, DQUOTE, 'a', BACKTICK, DQUOTE]).out
          = DQUOTE :: ("hello".toList ++ [DQUOTE]) := by
  refine ⟨substBody_tick_quote, ?_, by decide⟩
  intro name actual
  rw [defineSubst_single]
  have : c_str [BACKTICK, DQUOTE, 'a', BACKTICK, DQUOTE] = [BACKTICK, DQUOTE, 'a', BACKTICK, DQUOTE] := by
    decide
  rw [this, substBody_tick_quote]
  have h2 : substBody [(['a'], actual.dropWhile isspace)] ['a', BACKTICK, DQUOTE] [] false
      ([] ++ substArg [(['a'], actual.dropWhile isspace)] [] ++ [DQUOTE])
      = substBody [(['a'], actual.dropWhile isspace)] [BACKTICK, DQUOTE] ['a'] false [DQUOTE] := by
    rw [substBody]
    simp [isArgChar, isalpha, substArg]
  rw [h2, substBody_tick_quote]
  simp [substBody, substArg, ArgMap.find, List.lookup]

/-- C4, counterexample: the call with the single empty actual against formals `(a)` reports
no error and returns the substituted body, not the error stub. -/
theorem C4_counterexample :
    defineSubst (mkRef "X" "(a)" [""]) "[a]".toList = { errors := [], out := "[]".toList }
      ∧ (defineSubst (mkRef "X" "(a)" [""]) "[a]".toList).out ≠ errorStub "X".toList := by
  decide

/-- C4, amended: the call with the single empty actual against formals `(a)` is accepted:
no error is reported, `a` is bound to the empty text and the body is substituted. -/
theorem C4_empty_actual_accepted (name value : List Char) :
    defineSubst { m_name := name, m_params := "(a)".toList, m_nextarg := [], m_parenLevel := 0,
                  m_args := [[]] } value
      = { errors := [], out := substBody [(['a'], [])] (c_str value) [] false [] } := by
  rw [defineSubst_single]
  rfl

end VPreProcImp


/-! ## The driver -/

namespace VPreProcImp

open VPTok VPreProcImp.ProcState

@[simp]
theorem cond_emit (s : VPreProcImp) (e : Event) : cond (s.emit e) = cond s := rfl
@[simp]
theorem cond_error (s : VPreProcImp) (m : List Char) : cond (s.error m) = cond s := rfl
@[simp]
theorem cond_fatalSrc (s : VPreProcImp) (m : List Char) : cond (s.fatalSrc m) = cond s := rfl
@[simp]
theorem cond_insertUnreadback (s : VPreProcImp) (t : List Char) :
    cond (s.insertUnreadback t) = cond s := rfl
@[simp]
theorem cond_insertUnreadbackAtBol (s : VPreProcImp) (t : List Char) :
    cond (s.insertUnreadbackAtBol t) = cond s := by
  unfold insertUnreadbackAtBol
  split
  · rfl
  · split <;> rfl
@[simp]
theorem cond_addLineComment (h : Host) (s : VPreProcImp) (l : Int) :
    cond (addLineComment h s l) = cond s := by
  unfold addLineComment
  split
  · simp
  · rfl
@[simp]
theorem cond_statePush (s : VPreProcImp) (st : ProcState) :
    cond (s.statePush st) = cond s := rfl
@[simp]
theorem cond_statePop (s : VPreProcImp) : cond s.statePop = cond s := by
  unfold statePop
  dsimp only
  split <;> rfl
@[simp]
theorem cond_stateChange (s : VPreProcImp) (st : ProcState) :
    cond (s.stateChange st) = cond s := by
  simp [stateChange]
@[simp]
theorem cond_onLex (s : VPreProcImp) (f : VPreLex → VPreLex) :
    cond (s.onLex f) = cond s := rfl
@[simp]
theorem cond_onTopRef (s : VPreProcImp) (f : VPreDefRef → VPreDefRef) :
    cond (s.onTopRef f) = cond s := rfl
@[simp]
theorem cond_unputString (s : VPreProcImp) (t : List Char) :
    cond (s.unputString t) = cond s := by
  unfold unputString
  split <;> simp
@[simp]
theorem cond_noteBol (s : VPreProcImp) : cond s.noteBol = cond s := by
  unfold noteBol
  split <;> rfl
@[simp]
theorem cond_yylex (s : VPreProcImp) : cond s.yylex.1 = cond s := by
  unfold yylex
  split <;> rfl

theorem cond_foldl_error (msgs : List (List Char)) (s : VPreProcImp) :
    cond (msgs.foldl (fun s msg => s.error msg) s) = cond s := by
  induction msgs generalizing s with
  | nil => rfl
  | cons m ms ih => simp [List.foldl, ih]

theorem cond_foldl_scan (slabs : List (List Char)) (s : VPreProcImp) :
    cond (slabs.foldl (fun s slab => s.onLex (fun l => l.scanBytesBack (stripSlab slab))) s)
      = cond s := by
  induction slabs generalizing s with
  | nil => rfl
  | cons m ms ih => simp [List.foldl, ih]

@[simp]
theorem cond_openFile (h : Host) (s : VPreProcImp) (f : List Char)
    (fl : Option VFileLine) : cond (openFile h s f fl) = cond s := by
  have h0 : ∀ s0 : VPreProcImp, cond (match fl with
      | some x => { s0 with m_filelinep := x }
      | none => s0) = cond s0 := by
    intro s0; cases fl <;> rfl
  unfold openFile
  dsimp only
  split
  · rw [cond_error, h0]
  · split
    · rename_i hp
      rw [cond_error, h0]
    · rename_i s1 hp
      rw [cond_foldl_scan, cond_addLineComment]
      split at hp
      · split at hp
        · cases hp
        · simp only [Option.some.injEq] at hp
          subst hp
          show cond (addLineComment h _ 0) = _
          rw [cond_addLineComment]
          exact h0 s
      · simp only [Option.some.injEq] at hp
        subst hp
        exact h0 s

@[simp]
theorem cond_hostInclude (h : Host) (s : VPreProcImp) (n : List Char) :
    cond (hostInclude h s n) = cond s := by
  unfold hostInclude
  dsimp only
  split <;> simp

@[simp]
theorem cond_eof (h : Host) (s : VPreProcImp) : cond (eof h s) = cond s := by
  unfold eof
  dsimp only
  split
  · rfl
  · split
    · show cond (addLineComment h s 2) = _
      simp
    · split
      · rw [cond_fatalSrc, cond_addLineComment]
        show cond (addLineComment h s 2) = _
        simp
      · rw [cond_addLineComment]
        show cond (addLineComment h s 2) = _
        simp

@[simp]
theorem cond_takeLineAdd (s : VPreProcImp) : cond s.takeLineAdd = cond s := rfl

@[simp]
theorem cond_takeLineCmt (s : VPreProcImp) : cond s.takeLineCmt = cond s := by
  unfold takeLineCmt
  dsimp only
  rw [cond_noteBol]
  rfl

@[simp]
theorem cond_lexToken (s : VPreProcImp) : cond s.lexToken.1 = cond s := by
  unfold lexToken
  rw [cond_yylex]
  rfl

theorem cond_getRawToken (h : Host) : ∀ (fuel : Nat) (s : VPreProcImp),
    cond (getRawToken h fuel s).1 = cond s
  | 0, s => rfl
  | fuel + 1, s => by
    rw [getRawToken]
    split
    · simp
    · split
      · split
        · rw [cond_getRawToken h fuel]; simp
        · simp
      · split
        · rfl
        · split
          · rw [cond_getRawToken h fuel]; simp
          · simp

theorem cond_parsingOn (h : Host) (s : VPreProcImp) :
    cond (parsingOn h s) = (s.m_off - 1, s.m_ifdefStack, s.assertFailed || decide (s.m_off - 1 < 0)) := by
  unfold parsingOn
  dsimp only
  by_cases hneg : s.m_off - 1 < 0
  · simp only [hneg, if_true, decide_True, Bool.or_true]
    split
    · rw [cond_addLineComment]; rfl
    · rfl
  · simp only [hneg, if_false, decide_False, Bool.or_false]
    split
    · rw [cond_addLineComment]; rfl
    · rfl

theorem cond_parsingOff (s : VPreProcImp) :
    cond s.parsingOff = (s.m_off + 1, s.m_ifdefStack, s.assertFailed) := rfl

theorem offCount_nonneg : ∀ l : List VPreIfEntry, 0 ≤ offCount l
  | [] => by simp [offCount]
  | e :: rest => by
    have := offCount_nonneg rest
    simp only [offCount]
    split <;> omega

@[simp]
theorem emit_m_off (s : VPreProcImp) (e : Event) :
    (s.emit e).m_off = s.m_off :=
  congrArg (fun c => c.1) (cond_emit s e)

@[simp]
theorem emit_m_ifdefStack (s : VPreProcImp) (e : Event) :
    (s.emit e).m_ifdefStack = s.m_ifdefStack :=
  congrArg (fun c => c.2.1) (cond_emit s e)

@[simp]
theorem emit_assertFailed (s : VPreProcImp) (e : Event) :
    (s.emit e).assertFailed = s.assertFailed :=
  congrArg (fun c => c.2.2) (cond_emit s e)

@[simp]
theorem error_m_off (s : VPreProcImp) (m : List Char) :
    (s.error m).m_off = s.m_off :=
  congrArg (fun c => c.1) (cond_error s m)

@[simp]
theorem error_m_ifdefStack (s : VPreProcImp) (m : List Char) :
    (s.error m).m_ifdefStack = s.m_ifdefStack :=
  congrArg (fun c => c.2.1) (cond_error s m)

@[simp]
theorem error_assertFailed (s : VPreProcImp) (m : List Char) :
    (s.error m).assertFailed = s.assertFailed :=
  congrArg (fun c => c.2.2) (cond_error s m)

@[simp]
theorem fatalSrc_m_off (s : VPreProcImp) (m : List Char) :
    (s.fatalSrc m).m_off = s.m_off :=
  congrArg (fun c => c.1) (cond_fatalSrc s m)

@[simp]
theorem fatalSrc_m_ifdefStack (s : VPreProcImp) (m : List Char) :
    (s.fatalSrc m).m_ifdefStack = s.m_ifdefStack :=
  congrArg (fun c => c.2.1) (cond_fatalSrc s m)

@[simp]
theorem fatalSrc_assertFailed (s : VPreProcImp) (m : List Char) :
    (s.fatalSrc m).assertFailed = s.assertFailed :=
  congrArg (fun c => c.2.2) (cond_fatalSrc s m)

@[simp]
theorem insertUnreadback_m_off (s : VPreProcImp) (t : List Char) :
    (s.insertUnreadback t).m_off = s.m_off :=
  congrArg (fun c => c.1) (cond_insertUnreadback s t)

@[simp]
theorem insertUnreadback_m_ifdefStack (s : VPreProcImp) (t : List Char) :
    (s.insertUnreadback t).m_ifdefStack = s.m_ifdefStack :=
  congrArg (fun c => c.2.1) (cond_insertUnreadback s t)

@[simp]
theorem insertUnreadback_assertFailed (s : VPreProcImp) (t : List Char) :
    (s.insertUnreadback t).assertFailed = s.assertFailed :=
  congrArg (fun c => c.2.2) (cond_insertUnreadback s t)

@[simp]
theorem insertUnreadbackAtBol_m_off (s : VPreProcImp) (t : List Char) :
    (s.insertUnreadbackAtBol t).m_off = s.m_off :=
  congrArg (fun c => c.1) (cond_insertUnreadbackAtBol s t)

@[simp]
theorem insertUnreadbackAtBol_m_ifdefStack (s : VPreProcImp) (t : List Char) :
    (s.insertUnreadbackAtBol t).m_ifdefStack = s.m_ifdefStack :=
  congrArg (fun c => c.2.1) (cond_insertUnreadbackAtBol s t)

@[simp]
theorem insertUnreadbackAtBol_assertFailed (s : VPreProcImp) (t : List Char) :
    (s.insertUnreadbackAtBol t).assertFailed = s.assertFailed :=
  congrArg (fun c => c.2.2) (cond_insertUnreadbackAtBol s t)

@[simp]
theorem addLineComment_m_off (h : Host) (s : VPreProcImp) (l : Int) :
    (addLineComment h s l).m_off = s.m_off :=
  congrArg (fun c => c.1) (cond_addLineComment h s l)

@[simp]
theorem addLineComment_m_ifdefStack (h : Host) (s : VPreProcImp) (l : Int) :
    (addLineComment h s l).m_ifdefStack = s.m_ifdefStack :=
  congrArg (fun c => c.2.1) (cond_addLineComment h s l)

@[simp]
theorem addLineComment_assertFailed (h : Host) (s : VPreProcImp) (l : Int) :
    (addLineComment h s l).assertFailed = s.assertFailed :=
  congrArg (fun c => c.2.2) (cond_addLineComment h s l)

@[simp]
theorem statePush_m_off (s : VPreProcImp) (st : ProcState) :
    (s.statePush st).m_off = s.m_off :=
  congrArg (fun c => c.1) (cond_statePush s st)

@[simp]
theorem statePush_m_ifdefStack (s : VPreProcImp) (st : ProcState) :
    (s.statePush st).m_ifdefStack = s.m_ifdefStack :=
  congrArg (fun c => c.2.1) (cond_statePush s st)

@[simp]
theorem statePush_assertFailed (s : VPreProcImp) (st : ProcState) :
    (s.statePush st).assertFailed = s.assertFailed :=
  congrArg (fun c => c.2.2) (cond_statePush s st)

@[simp]
theorem statePop_m_off (s : VPreProcImp) :
    (s.statePop).m_off = s.m_off :=
  congrArg (fun c => c.1) (cond_statePop s)

@[simp]
theorem statePop_m_ifdefStack (s : VPreProcImp) :
    (s.statePop).m_ifdefStack = s.m_ifdefStack :=
  congrArg (fun c => c.2.1) (cond_statePop s)

@[simp]
theorem statePop_assertFailed (s : VPreProcImp) :
    (s.statePop).assertFailed = s.assertFailed :=
  congrArg (fun c => c.2.2) (cond_statePop s)

@[simp]
theorem stateChange_m_off (s : VPreProcImp) (st : ProcState) :
    (s.stateChange st).m_off = s.m_off :=
  congrArg (fun c => c.1) (cond_stateChange s st)

@[simp]
theorem stateChange_m_ifdefStack (s : VPreProcImp) (st : ProcState) :
    (s.stateChange st).m_ifdefStack = s.m_ifdefStack :=
  congrArg (fun c => c.2.1) (cond_stateChange s st)

@[simp]
theorem stateChange_assertFailed (s : VPreProcImp) (st : ProcState) :
    (s.stateChange st).assertFailed = s.assertFailed :=
  congrArg (fun c => c.2.2) (cond_stateChange s st)

@[simp]
theorem onLex_m_off (s : VPreProcImp) (f : VPreLex → VPreLex) :
    (s.onLex f).m_off = s.m_off :=
  congrArg (fun c => c.1) (cond_onLex s f)

@[simp]
theorem onLex_m_ifdefStack (s : VPreProcImp) (f : VPreLex → VPreLex) :
    (s.onLex f).m_ifdefStack = s.m_ifdefStack :=
  congrArg (fun c => c.2.1) (cond_onLex s f)

@[simp]
theorem onLex_assertFailed (s : VPreProcImp) (f : VPreLex → VPreLex) :
    (s.onLex f).assertFailed = s.assertFailed :=
  congrArg (fun c => c.2.2) (cond_onLex s f)

@[simp]
theorem onTopRef_m_off (s : VPreProcImp) (f : VPreDefRef → VPreDefRef) :
    (s.onTopRef f).m_off = s.m_off :=
  congrArg (fun c => c.1) (cond_onTopRef s f)

@[simp]
theorem onTopRef_m_ifdefStack (s : VPreProcImp) (f : VPreDefRef → VPreDefRef) :
    (s.onTopRef f).m_ifdefStack = s.m_ifdefStack :=
  congrArg (fun c => c.2.1) (cond_onTopRef s f)

@[simp]
theorem onTopRef_assertFailed (s : VPreProcImp) (f : VPreDefRef → VPreDefRef) :
    (s.onTopRef f).assertFailed = s.assertFailed :=
  congrArg (fun c => c.2.2) (cond_onTopRef s f)

@[simp]
theorem unputString_m_off (s : VPreProcImp) (t : List Char) :
    (s.unputString t).m_off = s.m_off :=
  congrArg (fun c => c.1) (cond_unputString s t)

@[simp]
theorem unputString_m_ifdefStack (s : VPreProcImp) (t : List Char) :
    (s.unputString t).m_ifdefStack = s.m_ifdefStack :=
  congrArg (fun c => c.2.1) (cond_unputString s t)

@[simp]
theorem unputString_assertFailed (s : VPreProcImp) (t : List Char) :
    (s.unputString t).assertFailed = s.assertFailed :=
  congrArg (fun c => c.2.2) (cond_unputString s t)

@[simp]
theorem noteBol_m_off (s : VPreProcImp) :
    (s.noteBol).m_off = s.m_off :=
  congrArg (fun c => c.1) (cond_noteBol s)

@[simp]
theorem noteBol_m_ifdefStack (s : VPreProcImp) :
    (s.noteBol).m_ifdefStack = s.m_ifdefStack :=
  congrArg (fun c => c.2.1) (cond_noteBol s)

@[simp]
theorem noteBol_assertFailed (s : VPreProcImp) :
    (s.noteBol).assertFailed = s.assertFailed :=
  congrArg (fun c => c.2.2) (cond_noteBol s)

@[simp]
theorem openFile_m_off (h : Host) (s : VPreProcImp) (f : List Char) (fl : Option VFileLine) :
    (openFile h s f fl).m_off = s.m_off :=
  congrArg (fun c => c.1) (cond_openFile h s f fl)

@[simp]
theorem openFile_m_ifdefStack (h : Host) (s : VPreProcImp) (f : List Char) (fl : Option VFileLine) :
    (openFile h s f fl).m_ifdefStack = s.m_ifdefStack :=
  congrArg (fun c => c.2.1) (cond_openFile h s f fl)

@[simp]
theorem openFile_assertFailed (h : Host) (s : VPreProcImp) (f : List Char) (fl : Option VFileLine) :
    (openFile h s f fl).assertFailed = s.assertFailed :=
  congrArg (fun c => c.2.2) (cond_openFile h s f fl)

@[simp]
theorem hostInclude_m_off (h : Host) (s : VPreProcImp) (n : List Char) :
    (hostInclude h s n).m_off = s.m_off :=
  congrArg (fun c => c.1) (cond_hostInclude h s n)

@[simp]
theorem hostInclude_m_ifdefStack (h : Host) (s : VPreProcImp) (n : List Char) :
    (hostInclude h s n).m_ifdefStack = s.m_ifdefStack :=
  congrArg (fun c => c.2.1) (cond_hostInclude h s n)

@[simp]
theorem hostInclude_assertFailed (h : Host) (s : VPreProcImp) (n : List Char) :
    (hostInclude h s n).assertFailed = s.assertFailed :=
  congrArg (fun c => c.2.2) (cond_hostInclude h s n)

@[simp]
theorem eof_m_off (h : Host) (s : VPreProcImp) :
    (eof h s).m_off = s.m_off :=
  congrArg (fun c => c.1) (cond_eof h s)

@[simp]
theorem eof_m_ifdefStack (h : Host) (s : VPreProcImp) :
    (eof h s).m_ifdefStack = s.m_ifdefStack :=
  congrArg (fun c => c.2.1) (cond_eof h s)

@[simp]
theorem eof_assertFailed (h : Host) (s : VPreProcImp) :
    (eof h s).assertFailed = s.assertFailed :=
  congrArg (fun c => c.2.2) (cond_eof h s)

@[simp]
theorem foldl_error_m_off (msgs : List (List Char)) (s : VPreProcImp) :
    (msgs.foldl (fun s msg => s.error msg) s).m_off = s.m_off :=
  congrArg (fun c => c.1) (cond_foldl_error msgs s)

@[simp]
theorem foldl_error_m_ifdefStack (msgs : List (List Char)) (s : VPreProcImp) :
    (msgs.foldl (fun s msg => s.error msg) s).m_ifdefStack = s.m_ifdefStack :=
  congrArg (fun c => c.2.1) (cond_foldl_error msgs s)

@[simp]
theorem foldl_error_assertFailed (msgs : List (List Char)) (s : VPreProcImp) :
    (msgs.foldl (fun s msg => s.error msg) s).assertFailed = s.assertFailed :=
  congrArg (fun c => c.2.2) (cond_foldl_error msgs s)

theorem cond_caseDEFFORM (s : VPreProcImp) (tok : VPTok) :
    cond (caseDEFFORM s tok).1 = cond s := by
  unfold caseDEFFORM cond
  dsimp only
  split_ifs <;> simp

theorem cond_caseDEFVALUE (s : VPreProcImp) (tok : VPTok) :
    cond (caseDEFVALUE s tok).1 = cond s := by
  unfold caseDEFVALUE cond
  dsimp only
  split_ifs <;> simp

theorem cond_caseDEFPAREN (s : VPreProcImp) (tok : VPTok) :
    cond (caseDEFPAREN s tok).1 = cond s := by
  unfold caseDEFPAREN cond
  dsimp only
  split_ifs <;> simp

theorem cond_caseDEFARG (h : Host) (s : VPreProcImp) (tok : VPTok) :
    cond (caseDEFARG h s tok).1 = cond s := by
  unfold caseDEFARG cond
  dsimp only
  split_ifs <;> simp

theorem cond_caseINCNAME (h : Host) (s : VPreProcImp) (tok : VPTok) :
    cond (caseINCNAME h s tok).1 = cond s := by
  unfold caseINCNAME cond
  dsimp only
  split_ifs <;> simp

theorem cond_caseERRORNAME (s : VPreProcImp) (tok : VPTok) :
    cond (caseERRORNAME s tok).1 = cond s := by
  unfold caseERRORNAME cond
  dsimp only
  split_ifs <;> simp

theorem cond_caseDEFREF (h : Host) (s : VPreProcImp) :
    cond (caseDEFREF h s).1 = cond s := by
  unfold caseDEFREF cond
  dsimp only
  split_ifs <;> simp

@[simp]
theorem parsingOn_m_off (h : Host) (s : VPreProcImp) :
    (parsingOn h s).m_off = s.m_off - 1 := congrArg (fun c => c.1) (cond_parsingOn h s)
@[simp]
theorem parsingOn_m_ifdefStack (h : Host) (s : VPreProcImp) :
    (parsingOn h s).m_ifdefStack = s.m_ifdefStack := congrArg (fun c => c.2.1) (cond_parsingOn h s)
@[simp]
theorem parsingOn_assertFailed (h : Host) (s : VPreProcImp) :
    (parsingOn h s).assertFailed = (s.assertFailed || decide (s.m_off - 1 < 0)) :=
  congrArg (fun c => c.2.2) (cond_parsingOn h s)
@[simp]
theorem parsingOff_m_off (s : VPreProcImp) : s.parsingOff.m_off = s.m_off + 1 := rfl
@[simp]
theorem parsingOff_m_ifdefStack (s : VPreProcImp) :
    s.parsingOff.m_ifdefStack = s.m_ifdefStack := rfl
@[simp]
theorem parsingOff_assertFailed (s : VPreProcImp) :
    s.parsingOff.assertFailed = s.assertFailed := rfl

theorem condOK_ifdefBlock (s : VPreProcImp) (enable : Bool) (hs : CondOK (cond s)) :
    CondOK (cond (s.ifdefBlock enable)) := by
  obtain ⟨h1, h2⟩ := hs
  simp only [cond] at h1 h2
  unfold ifdefBlock CondOK cond
  cases enable <;> simp [offCount, VPreIfEntry.new, h1, h2] <;> omega

theorem condOK_elsifBlock (h : Host) (s : VPreProcImp) (lastIf : VPreIfEntry)
    (rest : List VPreIfEntry) (hst : s.m_ifdefStack = lastIf :: rest) (hs : CondOK (cond s)) :
    CondOK (cond (elsifBlock h s lastIf rest)) := by
  obtain ⟨h1, h2⟩ := hs
  simp only [cond, hst, offCount] at h1 h2
  have hn := offCount_nonneg rest
  unfold elsifBlock CondOK cond
  dsimp only
  cases hon : lastIf.m_on <;> simp only [hon, Bool.not_true, Bool.not_false, if_true,
      Bool.false_eq_true, if_false] at h1 ⊢ <;>
    (generalize (!lastIf.m_everOn && h.defExists _ _) = enable
     cases enable <;> simp [offCount, VPreIfEntry.new, h1, h2] <;> omega)

theorem condOK_elseBlock (h : Host) (s : VPreProcImp) (lastIf : VPreIfEntry)
    (rest : List VPreIfEntry) (hst : s.m_ifdefStack = lastIf :: rest) (hs : CondOK (cond s)) :
    CondOK (cond (elseBlock h s lastIf rest)) := by
  obtain ⟨h1, h2⟩ := hs
  simp only [cond, hst, offCount] at h1 h2
  have hn := offCount_nonneg rest
  unfold elseBlock CondOK cond
  dsimp only
  cases hon : lastIf.m_on <;> simp only [hon, Bool.not_true, Bool.not_false, if_true,
      Bool.false_eq_true, if_false] at h1 ⊢ <;>
    (cases lastIf.m_everOn <;> simp [offCount, VPreIfEntry.new, h1, h2] <;> omega)

theorem condOK_endifBlock (h : Host) (s : VPreProcImp) (lastIf : VPreIfEntry)
    (rest : List VPreIfEntry) (hst : s.m_ifdefStack = lastIf :: rest) (hs : CondOK (cond s)) :
    CondOK (cond (endifBlock h s lastIf rest)) := by
  obtain ⟨h1, h2⟩ := hs
  simp only [cond, hst, offCount] at h1 h2
  have hn := offCount_nonneg rest
  unfold endifBlock CondOK cond
  dsimp only
  cases hon : lastIf.m_on <;> simp only [hon, Bool.not_true, Bool.not_false, if_true,
      Bool.false_eq_true, if_false] at h1 ⊢ <;>
    simp [h1, h2] <;> omega

theorem condOK_caseELSIF (h : Host) (s : VPreProcImp) (hs : CondOK (cond s)) :
    CondOK (cond (caseELSIF h s)) := by
  unfold caseELSIF
  split
  · rw [cond_error]; exact hs
  · rename_i lastIf rest hst
    exact condOK_elsifBlock h s lastIf rest hst hs

theorem condOK_caseELSE (h : Host) (s : VPreProcImp) (hs : CondOK (cond s)) :
    CondOK (cond (caseELSE h s)) := by
  unfold caseELSE
  split
  · rw [cond_error]; exact hs
  · rename_i lastIf rest hst
    exact condOK_elseBlock h s lastIf rest hst hs

theorem condOK_caseENDIF (h : Host) (s : VPreProcImp) (hs : CondOK (cond s)) :
    CondOK (cond (caseENDIF h s)) := by
  unfold caseENDIF
  split
  · rw [cond_error]; exact hs
  · rename_i lastIf rest hst
    exact condOK_endifBlock h s lastIf rest hst hs

theorem condOK_caseDEFNAME (h : Host) (s : VPreProcImp) (st : ProcState) (tok : VPTok)
    (hs : CondOK (cond s)) : CondOK (cond (caseDEFNAME h s st tok).1) := by
  unfold caseDEFNAME
  dsimp only
  split_ifs
  all_goals (try simp only [cond_statePop, cond_error, cond_emit, cond_onLex, cond_stateChange,
    cond_fatalSrc])
  all_goals first
    | exact hs
    | exact condOK_ifdefBlock _ _ hs
    | exact condOK_caseELSIF h _ hs

theorem condOK_stateSwitch (h : Host) (s : VPreProcImp) (tok : VPTok)
    (hs : CondOK (cond s)) : CondOK (cond (stateSwitch h s tok).1) := by
  unfold stateSwitch
  split
  · exact hs
  · exact condOK_caseDEFNAME h s _ tok hs
  · exact condOK_caseDEFNAME h s _ tok hs
  · exact condOK_caseDEFNAME h s _ tok hs
  · exact condOK_caseDEFNAME h s _ tok hs
  · exact condOK_caseDEFNAME h s _ tok hs
  · rw [cond_caseDEFFORM]; exact hs
  · rw [cond_caseDEFVALUE]; exact hs
  · rw [cond_caseDEFPAREN]; exact hs
  · rw [cond_caseDEFARG]; exact hs
  · rw [cond_caseINCNAME]; exact hs
  · rw [cond_caseERRORNAME]; exact hs

theorem condOK_tokSwitch (h : Host) (s : VPreProcImp) (tok : VPTok)
    (hs : CondOK (cond s)) : CondOK (cond (tokSwitch h s tok).1) := by
  unfold tokSwitch
  split
  · dsimp only; split_ifs
    · rw [cond_statePush]; exact hs
    · exact hs
  · exact hs
  · exact hs
  · exact hs
  · exact hs
  · exact hs
  · exact condOK_caseELSE h s hs
  · exact condOK_caseENDIF h s hs
  · rw [cond_caseDEFREF]; exact hs
  · exact hs
  · dsimp only; split_ifs
    · rw [cond_error]; exact hs
    · exact hs
  · dsimp only; split_ifs
    · rw [cond_emit]; exact hs
    · exact hs
  · dsimp only; split_ifs <;> exact hs
  · dsimp only; split_ifs <;> exact hs
  · dsimp only; split_ifs <;> exact hs
  · rw [cond_fatalSrc]; exact hs

theorem cond_caseCOMMENT (s : VPreProcImp) (tok : VPTok) :
    cond (caseCOMMENT s tok).1 = cond s := by
  unfold caseCOMMENT cond
  dsimp only
  split_ifs <;> simp

theorem condOK_processToken (h : Host) (s : VPreProcImp) (tok : VPTok)
    (hs : CondOK (cond s)) : CondOK (cond (processToken h s tok).1) := by
  unfold processToken
  split_ifs
  · exact hs
  · rw [cond_caseCOMMENT]; exact hs
  · rw [cond_addLineComment]; exact hs
  · have h1 := condOK_stateSwitch h s tok hs
    split
    · rename_i s1 heq
      rw [heq] at h1
      exact condOK_tokSwitch h s1 tok h1
    · exact h1

theorem condOK_getToken (h : Host) : ∀ (fuel : Nat) (s : VPreProcImp),
    CondOK (cond s) → CondOK (cond (getToken h fuel s).1)
  | 0, s, hs => hs
  | fuel + 1, s, hs => by
    rw [getToken]
    split_ifs
    · exact hs
    · have h1 : CondOK (cond (getRawToken h (fuel + 1) s).1) := by
        rw [cond_getRawToken]; exact hs
      split
      · rename_i s1 heq
        rw [heq] at h1; exact h1
      · rename_i s1 tok heq
        rw [heq] at h1
        have h2 := condOK_processToken h s1 tok h1
        split
        · rename_i s2 t heq2
          rw [heq2] at h2; exact h2
        · rename_i s2 j hne heq2
          rw [heq2] at h2
          exact condOK_getToken h fuel s2 h2

@[simp]
theorem cond_bufferToken (s : VPreProcImp) (tok : VPTok) :
    cond (bufferToken s tok).1 = cond s := by
  unfold bufferToken; split_ifs <;> rfl

theorem condOK_fillLine (h : Host) (st : Bool) (n : Nat) : ∀ (fuel : Nat) (s : VPreProcImp),
    CondOK (cond s) → CondOK (cond (fillLine h st n fuel s).1)
  | 0, s, hs => hs
  | fuel + 1, s, hs => by
    rw [fillLine]
    split_ifs
    · have h1 := condOK_getToken h (fuel + 1) s hs
      split
      · rename_i s1 heq
        rw [heq] at h1; exact h1
      · rename_i s1 tok heq
        rw [heq] at h1
        split_ifs
        · rw [cond_bufferToken]; exact h1
        · exact condOK_fillLine h st n fuel _ (by rw [cond_bufferToken]; exact h1)
    · exact hs

theorem condOK_parseLoop (h : Host) (st : Bool) (n : Nat) : ∀ (fuel : Nat) (s : VPreProcImp),
    CondOK (cond s) → CondOK (cond (parseLoop h st n fuel s).1)
  | 0, s, hs => hs
  | fuel + 1, s, hs => by
    rw [parseLoop]
    have h1 := condOK_fillLine h st n (fuel + 1) s hs
    split
    · rename_i s1 heq
      rw [heq] at h1; exact h1
    · rename_i s1 g heq
      rw [heq] at h1
      split_ifs
      · exact condOK_parseLoop h st n fuel _ h1
      · exact h1

theorem condOK_getparseline (h : Host) (st : Bool) (n fuel : Nat) (s : VPreProcImp)
    (hs : CondOK (cond s)) : CondOK (cond (getparseline h st n fuel s).1) := by
  unfold getparseline
  split_ifs
  · exact hs
  · exact condOK_parseLoop h st n fuel s hs

theorem condOK_call (h : Host) (s : VPreProcImp) (c : ApiCall) (hs : CondOK (cond s)) :
    CondOK (cond (call h s c)) := by
  cases c with
  | getToken fuel => exact condOK_getToken h fuel s hs
  | openFile f fl => simp only [call, cond_openFile]; exact hs
  | insertUnreadback t => simp only [call, cond_insertUnreadback]; exact hs
  | getparseline st n fuel => exact condOK_getparseline h st n fuel s hs

theorem condOK_foldl_call (h : Host) (calls : List ApiCall) (s : VPreProcImp)
    (hs : CondOK (cond s)) : CondOK (cond (calls.foldl (call h) s)) := by
  induction calls generalizing s with
  | nil => exact hs
  | cons c cs ih => exact ih _ (condOK_call h s c hs)

/-- C7: in every state that a freshly constructed preprocessor reaches by any sequence of
`getToken`, `getparseline`, `openFile` and `insertUnreadback` calls, whatever the scanner
delivers and the host answers, the off-depth equals the number of IfEntry stack entries
whose `on` flag is false; so the off-depth is never negative and `assert(m_off>=0)` has
never failed. -/
theorem C7_off_depth_counts_off_entries (h : Host) (filelinep : VFileLine)
    (yyin : List LexOut) (calls : List ApiCall) :
    (run h filelinep yyin calls).m_off = offCount (run h filelinep yyin calls).m_ifdefStack
      ∧ 0 ≤ (run h filelinep yyin calls).m_off
      ∧ (run h filelinep yyin calls).assertFailed = false := by
  have hinit : CondOK (cond (VPreProcImp.new filelinep yyin)) := ⟨rfl, rfl⟩
  have := condOK_foldl_call h calls _ hinit
  obtain ⟨h1, h2⟩ := this
  refine ⟨h1, ?_, h2⟩
  have hn := offCount_nonneg (run h filelinep yyin calls).m_ifdefStack
  have h1' : (run h filelinep yyin calls).m_off
      = offCount (run h filelinep yyin calls).m_ifdefStack := h1
  omega

theorem elsifBlock_m_ifdefStack (h : Host) (s : VPreProcImp) (lastIf : VPreIfEntry)
    (rest : List VPreIfEntry) :
    (elsifBlock h s lastIf rest).m_ifdefStack
      = chainNext lastIf (ChainStep.elsif (h.defExists s.log s.m_lastSym)) :: rest := by
  have hlog : ∀ x : VPreProcImp, (parsingOn h x).log = x.log := by
    intro x
    unfold parsingOn addLineComment insertUnreadbackAtBol insertUnreadback
    dsimp only
    split_ifs <;> rfl
  have hsym : ∀ x : VPreProcImp, (parsingOn h x).m_lastSym = x.m_lastSym := by
    intro x
    unfold parsingOn addLineComment insertUnreadbackAtBol insertUnreadback
    dsimp only
    split_ifs <;> rfl
  unfold elsifBlock chainNext
  dsimp only
  cases lastIf.m_on <;> simp only [Bool.not_true, Bool.not_false, if_true, Bool.false_eq_true,
    if_false, hlog, hsym] <;> split_ifs <;> simp

theorem elseBlock_m_ifdefStack (h : Host) (s : VPreProcImp) (lastIf : VPreIfEntry)
    (rest : List VPreIfEntry) :
    (elseBlock h s lastIf rest).m_ifdefStack = chainNext lastIf ChainStep.orElse :: rest := by
  unfold elseBlock chainNext
  dsimp only
  split_ifs <;> simp

theorem chainNext_of_everOn (e : VPreIfEntry) (c : ChainStep) (he : e.m_everOn = true) :
    (chainNext e c).m_on = false ∧ (chainNext e c).m_everOn = true := by
  cases c <;> simp [chainNext, VPreIfEntry.new, he]

theorem chainNext_everOn (e : VPreIfEntry) (c : ChainStep) :
    (chainNext e c).m_everOn = (e.m_everOn || (chainNext e c).m_on) := by
  cases c <;> simp [chainNext, VPreIfEntry.new]

theorem chain_tail_off (cs : List ChainStep) :
    ∀ e : VPreIfEntry, e.m_everOn = true →
      ∀ x ∈ (chainEntries e cs).tail, x.m_on = false := by
  induction cs with
  | nil => intro e _ x hx; simp [chainEntries] at hx
  | cons c cs ih =>
    intro e he x hx
    have hn := chainNext_of_everOn e c he
    simp only [chainEntries, List.tail_cons] at hx
    cases cs with
    | nil =>
      simp only [chainEntries, List.mem_singleton] at hx
      rw [hx]; exact hn.1
    | cons d ds =>
      simp only [chainEntries, List.mem_cons] at hx
      rcases hx with rfl | hx
      · exact hn.1
      · exact ih (chainNext e c) hn.2 x (by simpa [chainEntries] using hx)

theorem filter_eq_nil_of_off (l : List VPreIfEntry) (h : ∀ x ∈ l, x.m_on = false) :
    l.filter (fun x => x.m_on) = [] := by
  rw [List.filter_eq_nil_iff]
  intro x hx
  simp [h x hx]

theorem chainEntries_cons (e : VPreIfEntry) (cs : List ChainStep) :
    chainEntries e cs = e :: (chainEntries e cs).tail := by
  cases cs <;> rfl

theorem chain_on_count (cs : List ChainStep) :
    ∀ e : VPreIfEntry, (e.m_on = true → e.m_everOn = true) →
      ((chainEntries e cs).filter (fun x => x.m_on)).length ≤ 1 := by
  induction cs with
  | nil =>
    intro e _
    simp only [chainEntries]
    exact Nat.le_trans (List.length_filter_le _ _) (Nat.le_refl _)
  | cons c cs ih =>
    intro e he
    simp only [chainEntries]
    cases hon : e.m_on with
    | true =>
      have htail := chain_tail_off (c :: cs) e (he hon)
      simp only [chainEntries, List.tail_cons] at htail
      rw [List.filter_cons_of_pos (by simpa using hon), filter_eq_nil_of_off _ htail]
      rfl
    | false =>
      rw [List.filter_cons_of_neg (by simp [hon])]
      apply ih
      intro h1
      rw [chainNext_everOn, h1]
      simp

theorem chainEntries_append (cs : List ChainStep) (c : ChainStep) :
    ∀ e : VPreIfEntry, ∃ last : VPreIfEntry,
      (chainEntries e cs).getLast? = some last
        ∧ chainEntries e (cs ++ [c]) = chainEntries e cs ++ [chainNext last c]
        ∧ last.m_everOn = (e.m_everOn || (chainEntries e cs).tail.any (fun x => x.m_on)) := by
  induction cs with
  | nil => intro e; exact ⟨e, rfl, rfl, by simp [chainEntries]⟩
  | cons d ds ih =>
    intro e
    obtain ⟨last, h1, h2, h3⟩ := ih (chainNext e d)
    refine ⟨last, ?_, ?_, ?_⟩
    · simp only [chainEntries]
      rw [List.getLast?_cons, h1]
      rfl
    · show e :: chainEntries (chainNext e d) (ds ++ [c]) = _
      rw [h2]
      rfl
    · simp only [chainEntries, List.tail_cons]
      rw [h3, chainEntries_cons (chainNext e d) ds, List.any_cons, chainNext_everOn e d]
      simp [Bool.or_assoc]

/-- C8: an elsif or an else puts in place of the top IfEntry the entry of the next branch
of the chain: an entry that is off and has ever-on set whenever the replaced entry had
ever-on set.  Along a chain that an ifdef or ifndef starts, at most one branch is on, and a
branch opened by an else is on exactly when no earlier branch of the chain was on. -/
theorem C8_at_most_one_branch_on :
    (∀ (h : Host) (s : VPreProcImp) (lastIf : VPreIfEntry) (rest : List VPreIfEntry),
        s.m_states = [ps_DEFNAME_ELSIF, ps_TOP] → s.m_ifdefStack = lastIf :: rest →
        (processToken h s VP_SYMBOL).1.m_ifdefStack
          = chainNext lastIf (ChainStep.elsif (h.defExists s.log s.yytext)) :: rest)
      ∧ (∀ (h : Host) (s : VPreProcImp) (lastIf : VPreIfEntry) (rest : List VPreIfEntry),
        s.m_states = [ps_TOP] → s.m_ifdefStack = lastIf :: rest →
        (processToken h s VP_ELSE).1.m_ifdefStack = chainNext lastIf ChainStep.orElse :: rest)
      ∧ (∀ (e : VPreIfEntry) (c : ChainStep), e.m_everOn = true →
          (chainNext e c).m_on = false ∧ (chainNext e c).m_everOn = true)
      ∧ (∀ (enable : Bool) (cs : List ChainStep),
          ((chainEntries (VPreIfEntry.new enable false) cs).filter (fun x => x.m_on)).length ≤ 1)
      ∧ (∀ (enable : Bool) (cs : List ChainStep),
          ∃ last : VPreIfEntry,
            chainEntries (VPreIfEntry.new enable false) (cs ++ [ChainStep.orElse])
                = chainEntries (VPreIfEntry.new enable false) cs
                    ++ [chainNext last ChainStep.orElse]
              ∧ ((chainNext last ChainStep.orElse).m_on = true
                  ↔ ∀ x ∈ chainEntries (VPreIfEntry.new enable false) cs, x.m_on = false)) := by
  refine ⟨?_, ?_, chainNext_of_everOn, ?_, ?_⟩
  · intro h s lastIf rest hst hif
    simp only [processToken, stateSwitch, state, hst, List.headD_cons, caseDEFNAME, caseELSIF,
      hif]
    simp [elsifBlock_m_ifdefStack]
  · intro h s lastIf rest hst hif
    simp only [processToken, stateSwitch, state, hst, List.headD_cons, tokSwitch, caseELSE, hif]
    simp [elseBlock_m_ifdefStack]
  · intro enable cs
    apply chain_on_count
    intro h1
    simpa [VPreIfEntry.new] using h1
  · intro enable cs
    obtain ⟨last, _, h2, h3⟩ := chainEntries_append cs ChainStep.orElse (VPreIfEntry.new enable false)
    refine ⟨last, h2, ?_⟩
    have hon : (chainNext last ChainStep.orElse).m_on = !last.m_everOn := by
      simp [chainNext, VPreIfEntry.new]
    rw [hon, h3, chainEntries_cons (VPreIfEntry.new enable false) cs]
    simp only [List.tail_cons, List.mem_cons, forall_eq_or_imp]
    simp [VPreIfEntry.new]

theorem C8_witness :
    (run (tableHost false) (VFileLine.create [] 0)
        [lexOut VP_IFDEF "", lexOut VP_SYMBOL "A", lexOut VP_WHITE "\n"]
        [ApiCall.openFile "top.v".toList none, ApiCall.getToken 9]).m_states = [ps_TOP]
      ∧ (run (tableHost false) (VFileLine.create [] 0)
        [lexOut VP_IFDEF "", lexOut VP_SYMBOL "A", lexOut VP_WHITE "\n"]
        [ApiCall.openFile "top.v".toList none, ApiCall.getToken 9]).m_ifdefStack
          = [VPreIfEntry.new false false]
      ∧ (processToken (tableHost false)
          (run (tableHost false) (VFileLine.create [] 0)
            [lexOut VP_IFDEF "", lexOut VP_SYMBOL "A", lexOut VP_WHITE "\n"]
            [ApiCall.openFile "top.v".toList none, ApiCall.getToken 9]) VP_ELSE).1.m_ifdefStack
          = [{ m_on := true, m_everOn := true }] :=
  ⟨by decide, by decide,
   (C8_at_most_one_branch_on.2.1 (tableHost false) _ (VPreIfEntry.new false false) []
      (by decide) (by decide)).trans (by decide)⟩

theorem jumpOK_next (s : VPreProcImp) : JumpOK (s, Jump.next_tok) := by
  intro t ht; cases ht

theorem jumpOK_brk (s : VPreProcImp) : JumpOK (s, Jump.brk) := by
  intro t ht; cases ht

theorem jumpOK_on (s : VPreProcImp) (t : VPTok) (h : s.m_off = 0) : JumpOK (s, Jump.ret t) := by
  intro t' _; exact Or.inr (Or.inr (Or.inl h))

theorem jumpOK_white (s : VPreProcImp) : JumpOK (s, Jump.ret VP_WHITE) := by
  intro t ht
  simp only [Jump.ret.injEq] at ht
  exact Or.inl ht.symm

theorem jumpOK_caseDEFNAME (h : Host) (s : VPreProcImp) (st : ProcState) (tok : VPTok) :
    JumpOK (caseDEFNAME h s st tok) := by
  unfold caseDEFNAME
  dsimp only
  split_ifs
  all_goals first
    | exact jumpOK_next _
    | exact jumpOK_brk _
    | (rename_i hoff; exact jumpOK_on _ _ (by simpa using hoff))

theorem jumpOK_caseDEFFORM (s : VPreProcImp) (tok : VPTok) : JumpOK (caseDEFFORM s tok) := by
  unfold caseDEFFORM
  dsimp only
  split_ifs
  all_goals first
    | exact jumpOK_next _
    | exact jumpOK_brk _
    | (rename_i hoff; exact jumpOK_on _ _ (by simpa using hoff))

theorem jumpOK_caseDEFVALUE (s : VPreProcImp) (tok : VPTok) : JumpOK (caseDEFVALUE s tok) := by
  unfold caseDEFVALUE
  dsimp only
  exact jumpOK_white _

theorem jumpOK_caseDEFPAREN (s : VPreProcImp) (tok : VPTok) : JumpOK (caseDEFPAREN s tok) := by
  unfold caseDEFPAREN
  dsimp only
  split_ifs <;> exact jumpOK_next _

theorem jumpOK_caseDEFARG (h : Host) (s : VPreProcImp) (tok : VPTok) :
    JumpOK (caseDEFARG h s tok) := by
  unfold caseDEFARG
  dsimp only
  split_ifs
  all_goals first
    | exact jumpOK_next _
    | exact jumpOK_brk _

theorem jumpOK_caseINCNAME (h : Host) (s : VPreProcImp) (tok : VPTok) :
    JumpOK (caseINCNAME h s tok) := by
  unfold caseINCNAME
  dsimp only
  split_ifs
  all_goals first
    | exact jumpOK_next _
    | exact jumpOK_brk _

theorem jumpOK_caseERRORNAME (s : VPreProcImp) (tok : VPTok) :
    JumpOK (caseERRORNAME s tok) := by
  unfold caseERRORNAME
  dsimp only
  split_ifs <;> exact jumpOK_next _

theorem jumpOK_stateSwitch (h : Host) (s : VPreProcImp) (tok : VPTok) :
    JumpOK (stateSwitch h s tok) := by
  unfold stateSwitch
  split
  · exact jumpOK_brk _
  · exact jumpOK_caseDEFNAME h s _ tok
  · exact jumpOK_caseDEFNAME h s _ tok
  · exact jumpOK_caseDEFNAME h s _ tok
  · exact jumpOK_caseDEFNAME h s _ tok
  · exact jumpOK_caseDEFNAME h s _ tok
  · exact jumpOK_caseDEFFORM s tok
  · exact jumpOK_caseDEFVALUE s tok
  · exact jumpOK_caseDEFPAREN s tok
  · exact jumpOK_caseDEFARG h s tok
  · exact jumpOK_caseINCNAME h s tok
  · exact jumpOK_caseERRORNAME s tok

theorem jumpOK_caseDEFREF (h : Host) (s : VPreProcImp) : JumpOK (caseDEFREF h s) := by
  unfold caseDEFREF
  dsimp only
  split_ifs
  all_goals first
    | exact jumpOK_next _
    | (rename_i hoff _ _; exact jumpOK_on _ _ (by simpa using hoff))

theorem jumpOK_tokSwitch (h : Host) (s : VPreProcImp) (tok : VPTok) :
    JumpOK (tokSwitch h s tok) := by
  unfold tokSwitch
  split
  any_goals exact jumpOK_next _
  any_goals exact jumpOK_caseDEFREF h s
  · intro t ht
    simp only [Jump.ret.injEq] at ht
    exact Or.inr (Or.inl ht.symm)
  · dsimp only
    split_ifs
    · rename_i hoff; exact jumpOK_on _ _ (by simpa using hoff)
    · exact jumpOK_next _
  · dsimp only
    split_ifs
    · rename_i hoff; exact jumpOK_on _ _ (by simpa using hoff)
    · exact jumpOK_next _
  · dsimp only
    split_ifs
    · rename_i hoff; exact jumpOK_on _ _ (by simpa using hoff)
    · exact jumpOK_next _
  · intro t _
    refine Or.inr (Or.inr (Or.inr ⟨(s.m_off, Event.fatal unexpectedMsg), ?_, rfl⟩))
    simp [fatalSrc, emit]

theorem jumpOK_caseCOMMENT (s : VPreProcImp) (tok : VPTok) : JumpOK (caseCOMMENT s tok) := by
  unfold caseCOMMENT
  dsimp only
  split_ifs
  · rename_i hc
    simp only [Bool.and_eq_true, beq_iff_eq] at hc
    exact jumpOK_on _ _ hc.1.1
  · exact jumpOK_next _
  · exact jumpOK_next _

theorem jumpOK_processToken (h : Host) (s : VPreProcImp) (tok : VPTok) :
    JumpOK (processToken h s tok) := by
  unfold processToken
  split_ifs
  · rename_i hw
    simp only [beq_iff_eq] at hw
    subst hw
    exact jumpOK_white _
  · exact jumpOK_caseCOMMENT s tok
  · exact jumpOK_next _
  · split
    · exact jumpOK_tokSwitch h _ tok
    · exact jumpOK_stateSwitch h s tok

theorem retOK_getToken_eq (h : Host) : ∀ (fuel : Nat) (s s1 : VPreProcImp) (t : VPTok),
    getToken h fuel s = (s1, some t) → RetOK s1 t
  | 0, s, s1, t, ht => by simp [getToken] at ht
  | fuel + 1, s, s1, t, ht => by
    rw [getToken] at ht
    split_ifs at ht
    · simp only [Prod.mk.injEq, Option.some.injEq] at ht
      exact Or.inr (Or.inl ht.2.symm)
    · split at ht
      · cases ht
      · rename_i s2 tok heq
        have hj := jumpOK_processToken h s2 tok
        split at ht
        · rename_i s3 t3 heq3
          simp only [Prod.mk.injEq, Option.some.injEq] at ht
          obtain ⟨e1, e2⟩ := ht
          subst e1 e2
          rw [heq3] at hj
          exact hj t3 rfl
        · rename_i s3 j hne heq3
          exact retOK_getToken_eq h fuel s3 s1 t ht

theorem retOK_getToken (h : Host) (fuel : Nat) (s : VPreProcImp) (t : VPTok)
    (ht : (getToken h fuel s).2 = some t) : RetOK (getToken h fuel s).1 t :=
  retOK_getToken_eq h fuel s _ t (by rw [← ht])

/-- C9: when `getToken` returns a token that is neither white space nor end of input, and
the fatal error for an unexpected token has not been reported, the off-depth is zero at
that moment: nothing but white space leaves a failed conditional. -/
theorem C9_content_only_when_on (h : Host) (fuel : Nat) (s : VPreProcImp) (tok : VPTok)
    (hret : (getToken h fuel s).2 = some tok) (hw : tok ≠ VP_WHITE) (he : tok ≠ VP_EOF)
    (hfatal : ∀ p ∈ (getToken h fuel s).1.log, p.2 ≠ Event.fatal unexpectedMsg) :
    (getToken h fuel s).1.m_off = 0 := by
  rcases retOK_getToken h fuel s tok hret with h1 | h1 | h1 | ⟨p, hp, hp2⟩
  · exact absurd h1 hw
  · exact absurd h1 he
  · exact h1
  · exact absurd hp2 (hfatal p hp)

theorem C9_witness :
    (getToken (tableHost false) 9
        (opened (tableHost false) [lexOut VP_IFNDEF "", lexOut VP_SYMBOL "A", lexOut VP_SYMBOL "x"])).2
        = some VP_SYMBOL
      ∧ (∀ p ∈ (getToken (tableHost false) 9
          (opened (tableHost false)
            [lexOut VP_IFNDEF "", lexOut VP_SYMBOL "A", lexOut VP_SYMBOL "x"])).1.log,
          p.2 ≠ Event.fatal unexpectedMsg)
      ∧ (getToken (tableHost false) 9
          (opened (tableHost false)
            [lexOut VP_IFNDEF "", lexOut VP_SYMBOL "A", lexOut VP_SYMBOL "x"])).1.m_off = 0 :=
  ⟨by decide, by decide,
   C9_content_only_when_on (tableHost false) 9 _ VP_SYMBOL (by decide) (by decide) (by decide)
     (by decide)⟩

theorem logOK_append (l : List (Int × Event)) (off : Int) (e : Event) :
    LogOK (l ++ [(off, e)]) ↔ LogOK l ∧ (e.sideEffect = true → off = 0) := by
  unfold LogOK
  constructor
  · intro h
    exact ⟨fun p hp => h p (List.mem_append_left _ hp),
      fun he => h (off, e) (List.mem_append_right _ (List.mem_singleton_self _)) he⟩
  · rintro ⟨h1, h2⟩ p hp
    rcases List.mem_append.mp hp with hp | hp
    · exact h1 p hp
    · rw [List.mem_singleton.mp hp]; exact h2

@[simp]
theorem insertUnreadback_m_states (s : VPreProcImp) (t : List Char) :
    (s.insertUnreadback t).m_states = s.m_states := rfl

@[simp]
theorem insertUnreadback_log (s : VPreProcImp) (t : List Char) :
    (s.insertUnreadback t).log = s.log := rfl

@[simp]
theorem insertUnreadbackAtBol_m_states (s : VPreProcImp) (t : List Char) :
    (s.insertUnreadbackAtBol t).m_states = s.m_states := by
  unfold insertUnreadbackAtBol
  (try dsimp only)
  split_ifs <;> simp

@[simp]
theorem insertUnreadbackAtBol_log (s : VPreProcImp) (t : List Char) :
    (s.insertUnreadbackAtBol t).log = s.log := by
  unfold insertUnreadbackAtBol
  (try dsimp only)
  split_ifs <;> simp

@[simp]
theorem addLineComment_m_states (h : Host) (s : VPreProcImp) (l : Int) :
    (addLineComment h s l).m_states = s.m_states := by
  unfold addLineComment
  (try dsimp only)
  split_ifs <;> simp

@[simp]
theorem addLineComment_log (h : Host) (s : VPreProcImp) (l : Int) :
    (addLineComment h s l).log = s.log := by
  unfold addLineComment
  (try dsimp only)
  split_ifs <;> simp

@[simp]
theorem onLex_m_states (s : VPreProcImp) (f : VPreLex → VPreLex) :
    (s.onLex f).m_states = s.m_states := rfl

@[simp]
theorem onLex_log (s : VPreProcImp) (f : VPreLex → VPreLex) :
    (s.onLex f).log = s.log := rfl

@[simp]
theorem onTopRef_m_states (s : VPreProcImp) (f : VPreDefRef → VPreDefRef) :
    (s.onTopRef f).m_states = s.m_states := rfl

@[simp]
theorem onTopRef_log (s : VPreProcImp) (f : VPreDefRef → VPreDefRef) :
    (s.onTopRef f).log = s.log := rfl

@[simp]
theorem noteBol_m_states (s : VPreProcImp) :
    (s.noteBol).m_states = s.m_states := by
  unfold noteBol
  split_ifs <;> rfl

@[simp]
theorem noteBol_log (s : VPreProcImp) :
    (s.noteBol).log = s.log := by
  unfold noteBol
  split_ifs <;> rfl

@[simp]
theorem takeLineAdd_m_states (s : VPreProcImp) :
    (s.takeLineAdd).m_states = s.m_states := rfl

@[simp]
theorem takeLineAdd_log (s : VPreProcImp) :
    (s.takeLineAdd).log = s.log := rfl

@[simp]
theorem takeLineAdd_m_off (s : VPreProcImp) :
    (s.takeLineAdd).m_off = s.m_off := rfl

@[simp]
theorem takeLineCmt_m_states (s : VPreProcImp) :
    (s.takeLineCmt).m_states = s.m_states := by
  unfold takeLineCmt
  simp

@[simp]
theorem takeLineCmt_log (s : VPreProcImp) :
    (s.takeLineCmt).log = s.log := by
  unfold takeLineCmt
  simp

@[simp]
theorem takeLineCmt_m_off (s : VPreProcImp) :
    (s.takeLineCmt).m_off = s.m_off := by
  unfold takeLineCmt
  simp

@[simp]
theorem yylex_m_states (s : VPreProcImp) :
    (s.yylex.1).m_states = s.m_states := by
  unfold yylex
  split <;> rfl

@[simp]
theorem yylex_log (s : VPreProcImp) :
    (s.yylex.1).log = s.log := by
  unfold yylex
  split <;> rfl

@[simp]
theorem yylex_m_off (s : VPreProcImp) :
    (s.yylex.1).m_off = s.m_off := by
  unfold yylex
  split <;> rfl

@[simp]
theorem lexToken_m_states (s : VPreProcImp) :
    (s.lexToken.1).m_states = s.m_states := by
  unfold lexToken
  simp

@[simp]
theorem lexToken_log (s : VPreProcImp) :
    (s.lexToken.1).log = s.log := by
  unfold lexToken
  simp

@[simp]
theorem lexToken_m_off (s : VPreProcImp) :
    (s.lexToken.1).m_off = s.m_off := by
  unfold lexToken
  simp

@[simp]
theorem parsingOn_m_states (h : Host) (s : VPreProcImp) :
    (parsingOn h s).m_states = s.m_states := by
  unfold parsingOn
  (try dsimp only)
  split_ifs <;> simp

@[simp]
theorem parsingOn_log (h : Host) (s : VPreProcImp) :
    (parsingOn h s).log = s.log := by
  unfold parsingOn
  (try dsimp only)
  split_ifs <;> simp

@[simp]
theorem parsingOff_m_states (s : VPreProcImp) :
    (s.parsingOff).m_states = s.m_states := rfl

@[simp]
theorem parsingOff_log (s : VPreProcImp) :
    (s.parsingOff).log = s.log := rfl

@[simp]
theorem ifdefBlock_m_states (s : VPreProcImp) (e : Bool) :
    (s.ifdefBlock e).m_states = s.m_states := by
  unfold ifdefBlock
  (try dsimp only)
  split_ifs <;> simp

@[simp]
theorem ifdefBlock_log (s : VPreProcImp) (e : Bool) :
    (s.ifdefBlock e).log = s.log := by
  unfold ifdefBlock
  (try dsimp only)
  split_ifs <;> simp

@[simp]
theorem elsifBlock_m_states (h : Host) (s : VPreProcImp) (l : VPreIfEntry) (r : List VPreIfEntry) :
    (elsifBlock h s l r).m_states = s.m_states := by
  unfold elsifBlock
  (try dsimp only)
  split_ifs <;> simp

@[simp]
theorem elsifBlock_log (h : Host) (s : VPreProcImp) (l : VPreIfEntry) (r : List VPreIfEntry) :
    (elsifBlock h s l r).log = s.log := by
  unfold elsifBlock
  (try dsimp only)
  split_ifs <;> simp

@[simp]
theorem elseBlock_m_states (h : Host) (s : VPreProcImp) (l : VPreIfEntry) (r : List VPreIfEntry) :
    (elseBlock h s l r).m_states = s.m_states := by
  unfold elseBlock
  (try dsimp only)
  split_ifs <;> simp

@[simp]
theorem elseBlock_log (h : Host) (s : VPreProcImp) (l : VPreIfEntry) (r : List VPreIfEntry) :
    (elseBlock h s l r).log = s.log := by
  unfold elseBlock
  (try dsimp only)
  split_ifs <;> simp

@[simp]
theorem endifBlock_m_states (h : Host) (s : VPreProcImp) (l : VPreIfEntry) (r : List VPreIfEntry) :
    (endifBlock h s l r).m_states = s.m_states := by
  unfold endifBlock
  (try dsimp only)
  split_ifs <;> simp

@[simp]
theorem endifBlock_log (h : Host) (s : VPreProcImp) (l : VPreIfEntry) (r : List VPreIfEntry) :
    (endifBlock h s l r).log = s.log := by
  unfold endifBlock
  (try dsimp only)
  split_ifs <;> simp

@[simp]
theorem emit_m_states (s : VPreProcImp) (e : Event) :
    (s.emit e).m_states = s.m_states := rfl

@[simp]
theorem error_m_states (s : VPreProcImp) (m : List Char) :
    (s.error m).m_states = s.m_states := rfl

@[simp]
theorem fatalSrc_m_states (s : VPreProcImp) (m : List Char) :
    (s.fatalSrc m).m_states = s.m_states := rfl

@[simp]
theorem statePush_log (s : VPreProcImp) (st : ProcState) :
    (s.statePush st).log = s.log := rfl

@[simp]
theorem unputString_m_states (s : VPreProcImp) (t : List Char) :
    (s.unputString t).m_states = s.m_states := by
  unfold unputString
  (try dsimp only)
  split_ifs <;> simp

@[simp]
theorem caseELSIF_m_states (h : Host) (s : VPreProcImp) :
    (caseELSIF h s).m_states = s.m_states := by
  unfold caseELSIF
  split <;> simp

@[simp]
theorem caseELSE_m_states (h : Host) (s : VPreProcImp) :
    (caseELSE h s).m_states = s.m_states := by
  unfold caseELSE
  split <;> simp

@[simp]
theorem caseENDIF_m_states (h : Host) (s : VPreProcImp) :
    (caseENDIF h s).m_states = s.m_states := by
  unfold caseENDIF
  split <;> simp

@[simp]
theorem logOK_emit (s : VPreProcImp) (e : Event) :
    LogOK (s.emit e).log ↔ LogOK s.log ∧ (e.sideEffect = true → s.m_off = 0) :=
  logOK_append s.log s.m_off e

@[simp]
theorem logOK_error (s : VPreProcImp) (m : List Char) :
    LogOK (s.error m).log ↔ LogOK s.log := by
  simp [error, Event.sideEffect]

@[simp]
theorem logOK_fatalSrc (s : VPreProcImp) (m : List Char) :
    LogOK (s.fatalSrc m).log ↔ LogOK s.log := by
  simp [fatalSrc, Event.sideEffect]

@[simp]
theorem statePush_m_states (s : VPreProcImp) (st : ProcState) :
    (s.statePush st).m_states = st :: s.m_states := rfl

theorem statePop_m_states (s : VPreProcImp) :
    s.statePop.m_states = if s.m_states.tail.isEmpty then [ps_TOP] else s.m_states.tail := by
  unfold statePop
  dsimp only
  split_ifs with hemp
  · rw [List.isEmpty_iff] at hemp
    rw [statePush_m_states, error_m_states]
    show ps_TOP :: s.m_states.tail = _
    rw [hemp]
  · rfl

theorem stateChange_m_states (s : VPreProcImp) (st : ProcState) :
    (s.stateChange st).m_states
      = st :: (if s.m_states.tail.isEmpty then [ps_TOP] else s.m_states.tail) := by
  unfold stateChange
  rw [← statePop_m_states]
  rfl

@[simp]
theorem logOK_statePop (s : VPreProcImp) : LogOK s.statePop.log ↔ LogOK s.log := by
  unfold statePop
  dsimp only
  split_ifs
  · simp only [statePush_log, logOK_error]
  · rfl

@[simp]
theorem logOK_stateChange (s : VPreProcImp) (st : ProcState) :
    LogOK (s.stateChange st).log ↔ LogOK s.log := by
  simp [stateChange]

@[simp]
theorem logOK_unputString (s : VPreProcImp) (t : List Char) :
    LogOK (s.unputString t).log ↔ LogOK s.log := by
  unfold unputString
  dsimp only
  split_ifs <;> simp

theorem foldl_error_m_states (msgs : List (List Char)) (s : VPreProcImp) :
    (msgs.foldl (fun s msg => s.error msg) s).m_states = s.m_states := by
  induction msgs generalizing s with
  | nil => rfl
  | cons m ms ih => simp [List.foldl, ih]

theorem logOK_foldl_error (msgs : List (List Char)) (s : VPreProcImp) :
    LogOK (msgs.foldl (fun s msg => s.error msg) s).log ↔ LogOK s.log := by
  induction msgs generalizing s with
  | nil => rfl
  | cons m ms ih => simp [List.foldl, ih]

theorem foldl_scan_m_states (slabs : List (List Char)) (s : VPreProcImp) :
    (slabs.foldl (fun s slab => s.onLex (fun l => l.scanBytesBack (stripSlab slab))) s).m_states
      = s.m_states := by
  induction slabs generalizing s with
  | nil => rfl
  | cons m ms ih => simp [List.foldl, ih]

theorem foldl_scan_log (slabs : List (List Char)) (s : VPreProcImp) :
    (slabs.foldl (fun s slab => s.onLex (fun l => l.scanBytesBack (stripSlab slab))) s).log
      = s.log := by
  induction slabs generalizing s with
  | nil => rfl
  | cons m ms ih => simp [List.foldl, ih]

@[simp]
theorem openFile_m_states (h : Host) (s : VPreProcImp) (f : List Char)
    (fl : Option VFileLine) : (openFile h s f fl).m_states = s.m_states := by
  have h0 : ∀ s0 : VPreProcImp, (match fl with
      | some x => { s0 with m_filelinep := x }
      | none => s0).m_states = s0.m_states := by
    intro s0; cases fl <;> rfl
  unfold openFile
  dsimp only
  split
  · rw [error_m_states, h0]
  · split
    · rw [error_m_states, h0]
    · rename_i s1 hp
      rw [foldl_scan_m_states, addLineComment_m_states]
      split at hp
      · split at hp
        · cases hp
        · simp only [Option.some.injEq] at hp
          subst hp
          show (addLineComment h _ 0).m_states = _
          rw [addLineComment_m_states]
          exact h0 s
      · simp only [Option.some.injEq] at hp
        subst hp
        exact h0 s

@[simp]
theorem logOK_openFile (h : Host) (s : VPreProcImp) (f : List Char)
    (fl : Option VFileLine) : LogOK (openFile h s f fl).log ↔ LogOK s.log := by
  have h0 : ∀ s0 : VPreProcImp, (match fl with
      | some x => { s0 with m_filelinep := x }
      | none => s0).log = s0.log := by
    intro s0; cases fl <;> rfl
  unfold openFile
  dsimp only
  split
  · rw [logOK_error, h0]
  · split
    · rw [logOK_error, h0]
    · rename_i s1 hp
      rw [foldl_scan_log, addLineComment_log]
      split at hp
      · split at hp
        · cases hp
        · simp only [Option.some.injEq] at hp
          subst hp
          show LogOK (addLineComment h _ 0).log ↔ _
          rw [addLineComment_log]
          show LogOK (match fl with
            | some x => { s with m_filelinep := x }
            | none => s).log ↔ _
          rw [h0]
      · simp only [Option.some.injEq] at hp
        subst hp
        rw [h0]

@[simp]
theorem hostInclude_m_states (h : Host) (s : VPreProcImp) (n : List Char) :
    (hostInclude h s n).m_states = s.m_states := by
  unfold hostInclude
  dsimp only
  split <;> simp

theorem logOK_hostInclude (h : Host) (s : VPreProcImp) (n : List Char) :
    LogOK (hostInclude h s n).log ↔ LogOK s.log ∧ s.m_off = 0 := by
  unfold hostInclude
  dsimp only
  split <;> simp [Event.sideEffect]

@[simp]
theorem eof_m_states (h : Host) (s : VPreProcImp) : (eof h s).m_states = s.m_states := by
  unfold eof
  dsimp only
  split
  · rfl
  · split
    · show (addLineComment h s 2).m_states = _
      simp
    · split
      · rw [fatalSrc_m_states, addLineComment_m_states]
        show (addLineComment h s 2).m_states = _
        simp
      · rw [addLineComment_m_states]
        show (addLineComment h s 2).m_states = _
        simp

@[simp]
theorem logOK_eof (h : Host) (s : VPreProcImp) : LogOK (eof h s).log ↔ LogOK s.log := by
  unfold eof
  dsimp only
  split
  · rfl
  · split
    · show LogOK (addLineComment h s 2).log ↔ _
      simp
    · split
      · rw [logOK_fatalSrc, addLineComment_log]
        show LogOK (addLineComment h s 2).log ↔ _
        simp
      · rw [addLineComment_log]
        show LogOK (addLineComment h s 2).log ↔ _
        simp

theorem guarded_congr {s s1 : VPreProcImp} (hl : LogOK s1.log ↔ LogOK s.log)
    (hm : s1.m_states = s.m_states) (ho : s1.m_off = s.m_off) (hs : Guarded s) : Guarded s1 := by
  obtain ⟨h1, h2, h3⟩ := hs
  exact ⟨hl.mpr h1, by rw [hm]; exact h2, by rw [hm, ho]; exact h3⟩

theorem guarded_getRawToken (h : Host) : ∀ (fuel : Nat) (s : VPreProcImp),
    Guarded s → Guarded (getRawToken h fuel s).1
  | 0, s, hs => hs
  | fuel + 1, s, hs => by
    rw [getRawToken]
    split_ifs
    · exact hs
    · apply guarded_getRawToken h fuel
      exact guarded_congr (by simp) (by simp) (by simp) hs
    · exact guarded_congr (by simp) (by simp) (by simp) hs
    · exact hs
    · apply guarded_getRawToken h fuel
      exact guarded_congr (by simp) (by simp) (by simp) hs
    · exact guarded_congr (by simp) (by simp) (by simp) hs

@[simp]
theorem logOK_caseELSIF (h : Host) (s : VPreProcImp) :
    LogOK (caseELSIF h s).log ↔ LogOK s.log := by
  unfold caseELSIF
  split <;> simp

@[simp]
theorem logOK_caseELSE (h : Host) (s : VPreProcImp) :
    LogOK (caseELSE h s).log ↔ LogOK s.log := by
  unfold caseELSE
  split <;> simp

@[simp]
theorem logOK_caseENDIF (h : Host) (s : VPreProcImp) :
    LogOK (caseENDIF h s).log ↔ LogOK s.log := by
  unfold caseENDIF
  split <;> simp

theorem guarded_caseDEFNAME (h : Host) (s : VPreProcImp) (st : ProcState) (tok : VPTok)
    (hst : s.m_states = [st, ps_TOP]) (hne : st ≠ ps_INCNAME) (hs : Guarded s) :
    Guarded (caseDEFNAME h s st tok).1 := by
  obtain ⟨h1, h2, h3⟩ := hs
  have hmem : ps_INCNAME ∉ s.m_states := by
    rw [hst]; simp [hne.symm]
  unfold caseDEFNAME
  dsimp only
  split_ifs
  all_goals first
    | exact ⟨h1, h2, h3⟩
    | (refine ⟨?_, ?_, ?_⟩
       · first
           | (simp; exact h1)
           | (simp_all; done)
       · first
           | (simp [hst, statePop_m_states, stateChange_m_states, wellStacked]; done)
           | simpa using h2
       · first
           | (simp [hst, statePop_m_states, stateChange_m_states]; done)
           | (intro hin; exfalso; apply hmem; simpa using hin))

theorem ws_top (rest : List ProcState) (h : wellStacked (ps_TOP :: rest) = true) : rest = [] := by
  cases rest with
  | nil => rfl
  | cons y ys => simp [wellStacked] at h

theorem ws_mid (x : ProcState) (rest : List ProcState) (h : wellStacked (x :: rest) = true)
    (h1 : x ≠ ps_DEFPAREN) (h2 : x ≠ ps_DEFARG) (h3 : x ≠ ps_TOP) : rest = [ps_TOP] := by
  cases rest with
  | nil => simp [wellStacked, h3] at h
  | cons y ys =>
    simp [wellStacked, h1, h2, h3] at h
    rw [h.1, h.2]

theorem ws_def (x : ProcState) (rest : List ProcState) (h : wellStacked (x :: rest) = true)
    (hx : x = ps_DEFPAREN ∨ x = ps_DEFARG) : rest ≠ [] ∧ wellStacked rest = true := by
  cases rest with
  | nil => rcases hx with rfl | rfl <;> simp [wellStacked] at h
  | cons y ys =>
    refine ⟨by simp, ?_⟩
    rcases hx with rfl | rfl <;> simpa [wellStacked] using h

theorem ws_push_def (x : ProcState) (st : List ProcState) (h : wellStacked st = true)
    (hx : x = ps_DEFPAREN ∨ x = ps_DEFARG) : wellStacked (x :: st) = true := by
  cases st with
  | nil => simp [wellStacked] at h
  | cons y ys => rcases hx with rfl | rfl <;> simpa [wellStacked] using h

theorem guarded_caseDEFFORM (s : VPreProcImp) (tok : VPTok)
    (hst : s.m_states = [ps_DEFFORM, ps_TOP]) (hs : Guarded s) : Guarded (caseDEFFORM s tok).1 := by
  obtain ⟨h1, h2, h3⟩ := hs
  unfold caseDEFFORM
  dsimp only
  split_ifs
  all_goals first
    | exact ⟨h1, h2, h3⟩
    | (refine ⟨?_, ?_, ?_⟩
       · simp; exact h1
       · simp [hst, statePop_m_states, stateChange_m_states, wellStacked]
       · simp [hst, statePop_m_states, stateChange_m_states])

theorem guarded_caseDEFVALUE (s : VPreProcImp) (tok : VPTok)
    (hst : s.m_states = [ps_DEFVALUE, ps_TOP]) (hs : Guarded s) : Guarded (caseDEFVALUE s tok).1 := by
  obtain ⟨h1, h2, h3⟩ := hs
  unfold caseDEFVALUE
  dsimp only
  split_ifs
  all_goals
    (refine ⟨?_, ?_, ?_⟩
     · simp_all [Event.sideEffect]
     · simp [hst, statePop_m_states, stateChange_m_states, wellStacked]
     · simp [hst, statePop_m_states, stateChange_m_states])

theorem guarded_caseERRORNAME (s : VPreProcImp) (tok : VPTok)
    (hst : s.m_states = [ps_ERRORNAME, ps_TOP]) (hs : Guarded s) :
    Guarded (caseERRORNAME s tok).1 := by
  obtain ⟨h1, h2, h3⟩ := hs
  unfold caseERRORNAME
  dsimp only
  split_ifs
  all_goals
    (refine ⟨?_, ?_, ?_⟩
     · simp_all [Event.sideEffect]
     · simp [hst, statePop_m_states, stateChange_m_states, wellStacked]
     · simp [hst, statePop_m_states, stateChange_m_states])

theorem guarded_caseINCNAME (h : Host) (s : VPreProcImp) (tok : VPTok)
    (hst : s.m_states = [ps_INCNAME, ps_TOP]) (hs : Guarded s) :
    Guarded (caseINCNAME h s tok).1 := by
  obtain ⟨h1, h2, h3⟩ := hs
  have hoff : s.m_off = 0 := h3 (by rw [hst]; simp)
  unfold caseINCNAME
  dsimp only
  split_ifs
  all_goals first
    | exact ⟨h1, h2, h3⟩
    | (refine ⟨?_, ?_, ?_⟩
       · first
           | (simp; exact h1)
           | (rw [logOK_hostInclude]; simp; exact ⟨h1, hoff⟩)
       · simp [hst, statePop_m_states, stateChange_m_states, wellStacked]
       · first
           | (simp [hst, statePop_m_states, stateChange_m_states]; done)
           | (intro _; simpa using hoff))

theorem guarded_caseDEFPAREN (s : VPreProcImp) (tok : VPTok) (rest : List ProcState)
    (hst : s.m_states = ps_DEFPAREN :: rest) (hs : Guarded s) : Guarded (caseDEFPAREN s tok).1 := by
  obtain ⟨h1, h2, h3⟩ := hs
  rw [hst] at h2 h3
  obtain ⟨hne, hws⟩ := ws_def _ _ h2 (Or.inl rfl)
  have hemp : rest.isEmpty = false := by
    cases rest with
    | nil => exact absurd rfl hne
    | cons y ys => rfl
  have h3r : ps_INCNAME ∈ rest → s.m_off = 0 := fun hin => h3 (List.mem_cons_of_mem _ hin)
  unfold caseDEFPAREN
  dsimp only
  split_ifs
  all_goals
    (refine ⟨?_, ?_, ?_⟩
     · simp; exact h1
     · simp [hst, statePop_m_states, stateChange_m_states, hemp]
       first
         | exact hws
         | exact ws_push_def _ _ hws (Or.inr rfl)
     · simp [hst, statePop_m_states, stateChange_m_states, hemp]
       exact h3r)

theorem guarded_caseDEFARG (h : Host) (s : VPreProcImp) (tok : VPTok) (rest : List ProcState)
    (hst : s.m_states = ps_DEFARG :: rest) (hs : Guarded s) : Guarded (caseDEFARG h s tok).1 := by
  obtain ⟨h1, h2, h3⟩ := hs
  have h2' := h2
  have h3' := h3
  rw [hst] at h2 h3
  obtain ⟨hne, hws⟩ := ws_def _ _ h2 (Or.inr rfl)
  have hemp : rest.isEmpty = false := by
    cases rest with
    | nil => exact absurd rfl hne
    | cons y ys => rfl
  have h3r : ps_INCNAME ∈ rest → s.m_off = 0 := fun hin => h3 (List.mem_cons_of_mem _ hin)
  unfold caseDEFARG
  dsimp only
  split_ifs
  all_goals
    (refine ⟨?_, ?_, ?_⟩
     · simp [logOK_foldl_error]; exact h1
     · simp [hst, statePop_m_states, stateChange_m_states, hemp, foldl_error_m_states]
       first
         | exact hws
         | exact h2
         | exact ws_push_def _ _ hws (Or.inr rfl)
     · simp [hst, statePop_m_states, stateChange_m_states, hemp, foldl_error_m_states,
         cond_foldl_error]
       first
         | exact h3r
         | exact h3)

theorem brk_caseDEFNAME (h : Host) (s : VPreProcImp) (st : ProcState) (tok : VPTok)
    (hb : (caseDEFNAME h s st tok).2 = Jump.brk) : tok = VP_DEFREF := by
  unfold caseDEFNAME at hb
  dsimp only at hb
  split_ifs at hb <;> simp_all

theorem brk_caseDEFARG (h : Host) (s : VPreProcImp) (tok : VPTok)
    (hb : (caseDEFARG h s tok).2 = Jump.brk) : tok = VP_DEFREF := by
  unfold caseDEFARG at hb
  dsimp only at hb
  split_ifs at hb <;> simp_all

theorem brk_caseINCNAME (h : Host) (s : VPreProcImp) (tok : VPTok)
    (hb : (caseINCNAME h s tok).2 = Jump.brk) : tok = VP_DEFREF := by
  unfold caseINCNAME at hb
  dsimp only at hb
  split_ifs at hb <;> simp_all

theorem brk_caseDEFFORM (s : VPreProcImp) (tok : VPTok) :
    (caseDEFFORM s tok).2 ≠ Jump.brk := by
  unfold caseDEFFORM
  dsimp only
  split_ifs <;> simp

theorem brk_caseDEFVALUE (s : VPreProcImp) (tok : VPTok) :
    (caseDEFVALUE s tok).2 ≠ Jump.brk := by
  unfold caseDEFVALUE
  dsimp only
  simp

theorem brk_caseDEFPAREN (s : VPreProcImp) (tok : VPTok) :
    (caseDEFPAREN s tok).2 ≠ Jump.brk := by
  unfold caseDEFPAREN
  dsimp only
  split_ifs <;> simp

theorem brk_caseERRORNAME (s : VPreProcImp) (tok : VPTok) :
    (caseERRORNAME s tok).2 ≠ Jump.brk := by
  unfold caseERRORNAME
  dsimp only
  split_ifs <;> simp

theorem guarded_stateSwitch (h : Host) (s : VPreProcImp) (tok : VPTok) (hs : Guarded s) :
    Guarded (stateSwitch h s tok).1
      ∧ ((stateSwitch h s tok).2 = Jump.brk →
          (stateSwitch h s tok).1.m_states = [ps_TOP] ∨ tok = VP_DEFREF) := by
  have hws := hs.2.1
  cases hx : s.m_states with
  | nil => rw [hx] at hws; simp [wellStacked] at hws
  | cons x rest =>
    rw [hx] at hws
    have hstate : s.state = x := by simp [state, hx]
    unfold stateSwitch
    rw [hstate]
    cases x with
    | ps_TOP =>
      have := ws_top rest hws
      subst this
      exact ⟨hs, fun _ => Or.inl hx⟩
    | ps_DEFNAME_UNDEF =>
      have hr := ws_mid _ rest hws (by decide) (by decide) (by decide)
      subst hr
      exact ⟨guarded_caseDEFNAME h s _ tok hx (by decide) hs,
        fun hb => Or.inr (brk_caseDEFNAME h s _ tok hb)⟩
    | ps_DEFNAME_DEFINE =>
      have hr := ws_mid _ rest hws (by decide) (by decide) (by decide)
      subst hr
      exact ⟨guarded_caseDEFNAME h s _ tok hx (by decide) hs,
        fun hb => Or.inr (brk_caseDEFNAME h s _ tok hb)⟩
    | ps_DEFNAME_IFDEF =>
      have hr := ws_mid _ rest hws (by decide) (by decide) (by decide)
      subst hr
      exact ⟨guarded_caseDEFNAME h s _ tok hx (by decide) hs,
        fun hb => Or.inr (brk_caseDEFNAME h s _ tok hb)⟩
    | ps_DEFNAME_IFNDEF =>
      have hr := ws_mid _ rest hws (by decide) (by decide) (by decide)
      subst hr
      exact ⟨guarded_caseDEFNAME h s _ tok hx (by decide) hs,
        fun hb => Or.inr (brk_caseDEFNAME h s _ tok hb)⟩
    | ps_DEFNAME_ELSIF =>
      have hr := ws_mid _ rest hws (by decide) (by decide) (by decide)
      subst hr
      exact ⟨guarded_caseDEFNAME h s _ tok hx (by decide) hs,
        fun hb => Or.inr (brk_caseDEFNAME h s _ tok hb)⟩
    | ps_DEFFORM =>
      have hr := ws_mid _ rest hws (by decide) (by decide) (by decide)
      subst hr
      exact ⟨guarded_caseDEFFORM s tok hx hs, fun hb => absurd hb (brk_caseDEFFORM s tok)⟩
    | ps_DEFVALUE =>
      have hr := ws_mid _ rest hws (by decide) (by decide) (by decide)
      subst hr
      exact ⟨guarded_caseDEFVALUE s tok hx hs, fun hb => absurd hb (brk_caseDEFVALUE s tok)⟩
    | ps_DEFPAREN =>
      exact ⟨guarded_caseDEFPAREN s tok rest hx hs, fun hb => absurd hb (brk_caseDEFPAREN s tok)⟩
    | ps_DEFARG =>
      exact ⟨guarded_caseDEFARG h s tok rest hx hs, fun hb => Or.inr (brk_caseDEFARG h s tok hb)⟩
    | ps_INCNAME =>
      have hr := ws_mid _ rest hws (by decide) (by decide) (by decide)
      subst hr
      exact ⟨guarded_caseINCNAME h s tok hx hs, fun hb => Or.inr (brk_caseINCNAME h s tok hb)⟩
    | ps_ERRORNAME =>
      have hr := ws_mid _ rest hws (by decide) (by decide) (by decide)
      subst hr
      exact ⟨guarded_caseERRORNAME s tok hx hs, fun hb => absurd hb (brk_caseERRORNAME s tok)⟩

theorem guarded_caseDEFREF (h : Host) (s : VPreProcImp) (hs : Guarded s) :
    Guarded (caseDEFREF h s).1 := by
  obtain ⟨h1, h2, h3⟩ := hs
  unfold caseDEFREF
  dsimp only
  split_ifs
  all_goals first
    | exact ⟨h1, h2, h3⟩
    | (refine ⟨?_, ?_, ?_⟩
       · simp; exact h1
       · first
           | (simp; exact h2)
           | (simp; exact ws_push_def _ _ h2 (Or.inl rfl))
       · first
           | (simp; exact h3)
           | (simp; intro hin; exact h3 hin))

theorem guarded_tokSwitch (h : Host) (s : VPreProcImp) (tok : VPTok) (hs : Guarded s)
    (hc : s.m_states = [ps_TOP] ∨ tok = VP_DEFREF) : Guarded (tokSwitch h s tok).1 := by
  rcases hc with hst | rfl
  · obtain ⟨h1, h2, h3⟩ := hs
    unfold tokSwitch
    split
    all_goals (try dsimp only)
    all_goals (try split_ifs)
    all_goals first
      | exact guarded_caseDEFREF h s ⟨h1, h2, h3⟩
      | exact ⟨h1, h2, h3⟩
      | (refine ⟨?_, ?_, ?_⟩
         · first
             | (simp; exact h1)
             | (simp_all [Event.sideEffect]; done)
         · simp [hst, wellStacked]
         · simp_all)
  · unfold tokSwitch
    exact guarded_caseDEFREF h s hs

theorem stateSwitch_top (h : Host) (s : VPreProcImp) (tok : VPTok) (hst : s.m_states = [ps_TOP]) :
    stateSwitch h s tok = (s, Jump.brk) := by
  simp [stateSwitch, state, hst]

theorem guarded_processToken (h : Host) (s : VPreProcImp) (tok : VPTok) (hs : Guarded s) :
    Guarded (processToken h s tok).1 := by
  unfold processToken
  split_ifs
  · exact hs
  · unfold caseCOMMENT
    dsimp only
    obtain ⟨h1, h2, h3⟩ := hs
    split_ifs
    all_goals first
      | exact ⟨h1, h2, h3⟩
      | (refine ⟨?_, ?_, ?_⟩
         · simp_all [Event.sideEffect]
         · simpa using h2
         · simpa using h3)
  · exact guarded_congr (by simp) (by simp) (by simp) hs
  · obtain ⟨hg, hb⟩ := guarded_stateSwitch h s tok hs
    split
    · rename_i s1 heq
      rw [heq] at hg hb
      exact guarded_tokSwitch h s1 tok hg (hb rfl)
    · exact hg

theorem guarded_getToken (h : Host) : ∀ (fuel : Nat) (s : VPreProcImp),
    Guarded s → Guarded (getToken h fuel s).1
  | 0, s, hs => hs
  | fuel + 1, s, hs => by
    rw [getToken]
    split_ifs
    · exact hs
    · have h1 := guarded_getRawToken h (fuel + 1) s hs
      split
      · rename_i s1 heq
        rw [heq] at h1; exact h1
      · rename_i s1 tok heq
        rw [heq] at h1
        have h2 := guarded_processToken h s1 tok h1
        split
        · rename_i s2 t heq2
          rw [heq2] at h2; exact h2
        · rename_i s2 j hne heq2
          rw [heq2] at h2
          exact guarded_getToken h fuel s2 h2

theorem guarded_bufferToken (s : VPreProcImp) (tok : VPTok) (hs : Guarded s) :
    Guarded (bufferToken s tok).1 := by
  unfold bufferToken; split_ifs <;> exact hs

theorem guarded_fillLine (h : Host) (st : Bool) (n : Nat) : ∀ (fuel : Nat) (s : VPreProcImp),
    Guarded s → Guarded (fillLine h st n fuel s).1
  | 0, s, hs => hs
  | fuel + 1, s, hs => by
    rw [fillLine]
    split_ifs
    · have h1 := guarded_getToken h (fuel + 1) s hs
      split
      · rename_i s1 heq
        rw [heq] at h1; exact h1
      · rename_i s1 tok heq
        rw [heq] at h1
        split_ifs
        · exact guarded_bufferToken _ _ h1
        · exact guarded_fillLine h st n fuel _ (guarded_bufferToken _ _ h1)
    · exact hs

theorem guarded_parseLoop (h : Host) (st : Bool) (n : Nat) : ∀ (fuel : Nat) (s : VPreProcImp),
    Guarded s → Guarded (parseLoop h st n fuel s).1
  | 0, s, hs => hs
  | fuel + 1, s, hs => by
    rw [parseLoop]
    have h1 := guarded_fillLine h st n (fuel + 1) s hs
    split
    · rename_i s1 heq
      rw [heq] at h1; exact h1
    · rename_i s1 g heq
      rw [heq] at h1
      split_ifs
      · exact guarded_parseLoop h st n fuel _ h1
      · exact h1

theorem guarded_getparseline (h : Host) (st : Bool) (n fuel : Nat) (s : VPreProcImp)
    (hs : Guarded s) : Guarded (getparseline h st n fuel s).1 := by
  unfold getparseline
  split_ifs
  · exact hs
  · exact guarded_parseLoop h st n fuel s hs

theorem guarded_call (h : Host) (s : VPreProcImp) (c : ApiCall) (hs : Guarded s) :
    Guarded (call h s c) := by
  cases c with
  | getToken fuel => exact guarded_getToken h fuel s hs
  | openFile f fl => exact guarded_congr (by simp [call]) (by simp [call]) (by simp [call]) hs
  | insertUnreadback t => exact guarded_congr (by simp [call]) (by simp [call]) (by simp [call]) hs
  | getparseline st n fuel => exact guarded_getparseline h st n fuel s hs

theorem guarded_foldl_call (h : Host) (calls : List ApiCall) (s : VPreProcImp) (hs : Guarded s) :
    Guarded (calls.foldl (call h) s) := by
  induction calls generalizing s with
  | nil => exact hs
  | cons c cs ih => exact ih _ (guarded_call h s c hs)

theorem guarded_run (h : Host) (filelinep : VFileLine) (yyin : List LexOut)
    (calls : List ApiCall) : Guarded (run h filelinep yyin calls) := by
  apply guarded_foldl_call
  refine ⟨?_, rfl, ?_⟩
  · intro p hp; simp [VPreProcImp.new] at hp
  · intro hin; simp [VPreProcImp.new] at hin

@[simp]
theorem side_emit (s : VPreProcImp) (e : Event) :
    sideEvents (s.emit e).log
      = sideEvents s.log ++ (if e.sideEffect then [(s.m_off, e)] else []) := by
  unfold sideEvents emit
  rw [List.filter_append]
  cases he : e.sideEffect <;> simp [he]

@[simp]
theorem side_error (s : VPreProcImp) (m : List Char) :
    sideEvents (s.error m).log = sideEvents s.log := by
  simp [error, Event.sideEffect]

@[simp]
theorem side_fatalSrc (s : VPreProcImp) (m : List Char) :
    sideEvents (s.fatalSrc m).log = sideEvents s.log := by
  simp [fatalSrc, Event.sideEffect]

@[simp]
theorem side_statePop (s : VPreProcImp) :
    sideEvents s.statePop.log = sideEvents s.log := by
  unfold statePop
  dsimp only
  split_ifs
  · simp only [statePush_log, side_error]
  · rfl

@[simp]
theorem side_stateChange (s : VPreProcImp) (st : ProcState) :
    sideEvents (s.stateChange st).log = sideEvents s.log := by
  simp [stateChange]

@[simp]
theorem side_unputString (s : VPreProcImp) (t : List Char) :
    sideEvents (s.unputString t).log = sideEvents s.log := by
  unfold unputString
  dsimp only
  split_ifs <;> simp

theorem side_foldl_error (msgs : List (List Char)) (s : VPreProcImp) :
    sideEvents (msgs.foldl (fun s msg => s.error msg) s).log = sideEvents s.log := by
  induction msgs generalizing s with
  | nil => rfl
  | cons m ms ih => simp [List.foldl, ih]

@[simp]
theorem side_caseELSIF (h : Host) (s : VPreProcImp) :
    sideEvents (caseELSIF h s).log = sideEvents s.log := by
  unfold caseELSIF
  split <;> simp

@[simp]
theorem side_caseELSE (h : Host) (s : VPreProcImp) :
    sideEvents (caseELSE h s).log = sideEvents s.log := by
  unfold caseELSE
  split <;> simp

@[simp]
theorem side_caseENDIF (h : Host) (s : VPreProcImp) :
    sideEvents (caseENDIF h s).log = sideEvents s.log := by
  unfold caseENDIF
  split <;> simp

theorem side_caseDEFNAME (h : Host) (s : VPreProcImp) (st : ProcState) (tok : VPTok)
    (hoff : s.m_off ≠ 0) :
    sideEvents (caseDEFNAME h s st tok).1.log = sideEvents s.log := by
  unfold caseDEFNAME
  dsimp only
  split_ifs <;> simp_all

theorem side_caseDEFFORM (s : VPreProcImp) (tok : VPTok) :
    sideEvents (caseDEFFORM s tok).1.log = sideEvents s.log := by
  unfold caseDEFFORM
  dsimp only
  split_ifs <;> simp

theorem side_caseDEFVALUE (s : VPreProcImp) (tok : VPTok) (hoff : s.m_off ≠ 0) :
    sideEvents (caseDEFVALUE s tok).1.log = sideEvents s.log := by
  unfold caseDEFVALUE
  dsimp only
  split_ifs <;> simp_all

theorem side_caseDEFPAREN (s : VPreProcImp) (tok : VPTok) :
    sideEvents (caseDEFPAREN s tok).1.log = sideEvents s.log := by
  unfold caseDEFPAREN
  dsimp only
  split_ifs <;> simp

theorem side_caseDEFARG (h : Host) (s : VPreProcImp) (tok : VPTok) :
    sideEvents (caseDEFARG h s tok).1.log = sideEvents s.log := by
  unfold caseDEFARG
  dsimp only
  split_ifs <;> simp [side_foldl_error]

theorem side_caseERRORNAME (s : VPreProcImp) (tok : VPTok) (hoff : s.m_off ≠ 0) :
    sideEvents (caseERRORNAME s tok).1.log = sideEvents s.log := by
  unfold caseERRORNAME
  dsimp only
  split_ifs <;> simp_all

theorem side_caseDEFREF (h : Host) (s : VPreProcImp) (hoff : s.m_off ≠ 0) :
    sideEvents (caseDEFREF h s).1.log = sideEvents s.log := by
  unfold caseDEFREF
  dsimp only
  split_ifs <;> simp_all

theorem side_caseCOMMENT (s : VPreProcImp) (tok : VPTok) :
    sideEvents (caseCOMMENT s tok).1.log = sideEvents s.log := by
  unfold caseCOMMENT
  dsimp only
  split_ifs <;> simp [Event.sideEffect]

theorem stateSwitch_m_off (h : Host) (s : VPreProcImp) (tok : VPTok)
    (hb : (stateSwitch h s tok).2 = Jump.brk) :
    (stateSwitch h s tok).1.m_off = s.m_off := by
  have hc : ∀ st, (caseDEFNAME h s st tok).2 = Jump.brk →
      (caseDEFNAME h s st tok).1.m_off = s.m_off := by
    intro st
    unfold caseDEFNAME
    dsimp only
    split_ifs <;> simp
  unfold stateSwitch at hb ⊢
  cases hst : s.state <;> simp only [hst] at hb ⊢
  all_goals first
    | rfl
    | exact hc _ hb
    | exact congrArg (fun c => c.1) (cond_caseDEFFORM s tok)
    | exact congrArg (fun c => c.1) (cond_caseDEFVALUE s tok)
    | exact congrArg (fun c => c.1) (cond_caseDEFPAREN s tok)
    | exact congrArg (fun c => c.1) (cond_caseDEFARG h s tok)
    | exact congrArg (fun c => c.1) (cond_caseINCNAME h s tok)
    | exact congrArg (fun c => c.1) (cond_caseERRORNAME s tok)

theorem side_stateSwitch (h : Host) (s : VPreProcImp) (tok : VPTok) (hoff : s.m_off ≠ 0)
    (hinc : s.state ≠ ps_INCNAME) :
    sideEvents (stateSwitch h s tok).1.log = sideEvents s.log := by
  unfold stateSwitch
  split
  · rfl
  · exact side_caseDEFNAME h s _ tok hoff
  · exact side_caseDEFNAME h s _ tok hoff
  · exact side_caseDEFNAME h s _ tok hoff
  · exact side_caseDEFNAME h s _ tok hoff
  · exact side_caseDEFNAME h s _ tok hoff
  · exact side_caseDEFFORM s tok
  · exact side_caseDEFVALUE s tok hoff
  · exact side_caseDEFPAREN s tok
  · exact side_caseDEFARG h s tok
  · rename_i hst
    exact absurd hst hinc
  · exact side_caseERRORNAME s tok hoff

theorem side_tokSwitch (h : Host) (s : VPreProcImp) (tok : VPTok) (hoff : s.m_off ≠ 0) :
    sideEvents (tokSwitch h s tok).1.log = sideEvents s.log := by
  unfold tokSwitch
  split
  all_goals (try dsimp only)
  all_goals (try split_ifs)
  all_goals first
    | exact side_caseDEFREF h s hoff
    | rfl
    | (simp_all; done)

theorem side_processToken (h : Host) (s : VPreProcImp) (tok : VPTok) (hoff : s.m_off ≠ 0)
    (hinc : s.state ≠ ps_INCNAME) :
    sideEvents (processToken h s tok).1.log = sideEvents s.log := by
  unfold processToken
  split_ifs
  · rfl
  · exact side_caseCOMMENT s tok
  · simp
  · have h1 := side_stateSwitch h s tok hoff hinc
    split
    · rename_i s1 heq
      have hm := stateSwitch_m_off h s tok (by rw [heq])
      rw [heq] at h1 hm
      rw [side_tokSwitch h s1 tok (by rw [hm]; exact hoff)]
      exact h1
    · exact h1

theorem state_ne_INCNAME (s : VPreProcImp) (hs : Guarded s) (hoff : s.m_off ≠ 0) :
    s.state ≠ ps_INCNAME := by
  intro hst
  apply hoff
  apply hs.2.2
  cases hx : s.m_states with
  | nil =>
    have := hs.2.1
    rw [hx] at this
    simp [wellStacked] at this
  | cons x rest =>
    simp only [state, hx, List.headD_cons] at hst
    rw [hst]
    exact List.mem_cons_self _ _

/-- C10: in every state that a freshly constructed preprocessor reaches by any sequence of
calls, whatever the scanner delivers and the host answers, each recorded call of `define`,
`undef`, `undefineall`, `include` and each report of a user error string was made at
off-depth zero; and from a reached state with a positive off-depth the loop body of
`getToken` adds no such call to the record, whatever the token. -/
theorem C10_side_effects_only_when_on (h : Host) (filelinep : VFileLine)
    (yyin : List LexOut) (calls : List ApiCall) :
    (∀ p ∈ (run h filelinep yyin calls).log, p.2.sideEffect = true → p.1 = 0)
      ∧ ((run h filelinep yyin calls).m_off ≠ 0 → ∀ tok : VPTok,
          sideEvents (processToken h (run h filelinep yyin calls) tok).1.log
            = sideEvents (run h filelinep yyin calls).log) := by
  have hg := guarded_run h filelinep yyin calls
  exact ⟨hg.1, fun hoff tok =>
    side_processToken h _ tok hoff (state_ne_INCNAME _ hg hoff)⟩

theorem C10_witness :
    (run (tableHost false) (VFileLine.create [] 0)
        [lexOut VP_IFDEF "", lexOut VP_SYMBOL "A", lexOut VP_WHITE "\n"]
        [ApiCall.openFile "top.v".toList none, ApiCall.getToken 9]).m_off ≠ 0
      ∧ sideEvents (processToken (tableHost false)
          (run (tableHost false) (VFileLine.create [] 0)
            [lexOut VP_IFDEF "", lexOut VP_SYMBOL "A", lexOut VP_WHITE "\n"]
            [ApiCall.openFile "top.v".toList none, ApiCall.getToken 9]) VP_UNDEFINEALL).1.log
          = [] :=
  ⟨by decide,
   ((C10_side_effects_only_when_on (tableHost false) (VFileLine.create [] 0)
      [lexOut VP_IFDEF "", lexOut VP_SYMBOL "A", lexOut VP_WHITE "\n"]
      [ApiCall.openFile "top.v".toList none, ApiCall.getToken 9]).2 (by decide)
        VP_UNDEFINEALL).trans (by decide)⟩

theorem isEmpty_false_of_ne {α : Type} {l : List α} (hne : l ≠ []) : l.isEmpty = false := by
  cases l with
  | nil => exact absurd rfl hne
  | cons => rfl

theorem caseDEFARG_DEFREF (h : Host) (s : VPreProcImp) (hne : s.m_defRefs ≠ []) :
    caseDEFARG h s VP_DEFREF
      = (((s.onTopRef (fun r => { r with m_nextarg := r.m_nextarg ++ s.lexp.m_defValue })).onLex
          (fun l => { l with m_defValue := [] })), Jump.brk) := by
  unfold caseDEFARG
  simp [isEmpty_false_of_ne hne]

theorem stateSwitch_DEFREF (h : Host) (s : VPreProcImp) (hne : s.m_defRefs ≠ [])
    (hst : passesDEFREF s.state = true) :
    stateSwitch h s VP_DEFREF
      = ((if s.state = ps_DEFARG then
            (s.onTopRef (fun r => { r with m_nextarg := r.m_nextarg ++ s.lexp.m_defValue })).onLex
              (fun l => { l with m_defValue := [] })
          else s), Jump.brk) := by
  unfold stateSwitch
  cases hs : s.state <;> simp [hs, passesDEFREF] at hst ⊢
  all_goals first
    | rfl
    | exact caseDEFARG_DEFREF h s hne

theorem processToken_DEFREF (h : Host) (s : VPreProcImp) (hne : s.m_defRefs ≠ [])
    (hst : passesDEFREF s.state = true) :
    processToken h s VP_DEFREF
      = caseDEFREF h (if s.state = ps_DEFARG then
            (s.onTopRef (fun r => { r with m_nextarg := r.m_nextarg ++ s.lexp.m_defValue })).onLex
              (fun l => { l with m_defValue := [] })
          else s) := by
  unfold processToken
  simp only [stateSwitch_DEFREF h s hne hst]
  simp [tokSwitch]

theorem objectLike_in_frame (h : Host) (s : VPreProcImp) (outer : VPreDefRef)
    (rest : List VPreDefRef) (hrefs : s.m_defRefs = outer :: rest)
    (hst : passesDEFREF s.state = true) (hoff : s.m_off = 0)
    (hdepth : s.m_defDepth ≤ h.DEFINE_RECURSION_LEVEL_MAX)
    (hpar : h.defParams s.log (s.yytext.drop 1) = ['0']) :
    (processToken h s VP_DEFREF).2 = Jump.next_tok
      ∧ (processToken h s VP_DEFREF).1.m_defRefs
          = { outer with m_nextarg := outer.m_nextarg ++ s.lexp.m_defValue
                ++ h.defSubstitute s.log (h.defValue s.log (s.yytext.drop 1)) } :: rest
      ∧ scanBuffers (processToken h s VP_DEFREF).1 = scanBuffers s
      ∧ (processToken h s VP_DEFREF).1.m_states = s.m_states := by
  have hne : s.m_defRefs ≠ [] := by rw [hrefs]; simp
  rw [processToken_DEFREF h s hne hst]
  have hd : ¬ (s.m_defDepth > h.DEFINE_RECURSION_LEVEL_MAX) := by omega
  have hpar' : h.defParams s.log s.yytext.tail = ['0'] := by simpa using hpar
  by_cases hq : s.state = ps_DEFARG
  · simp only [hq, if_true]
    unfold caseDEFREF
    cases hl : s.m_lexp <;>
      simp [onTopRef, onLex, lexp, hrefs, hoff, hd, hpar', scanBuffers, hl, VPreLex.new]
  · simp only [hq, if_false]
    unfold caseDEFREF
    cases hl : s.m_lexp <;>
      simp [onTopRef, onLex, lexp, hrefs, hoff, hd, hpar', scanBuffers, hl, VPreLex.new]

theorem foldl_error_eq (msgs : List (List Char)) (s : VPreProcImp) :
    msgs.foldl (fun s msg => s.error msg) s
      = { s with log := s.log ++ msgs.map (fun m => (s.m_off, Event.error m)) } := by
  induction msgs generalizing s with
  | nil => simp
  | cons m ms ih => rw [List.foldl_cons, ih]; simp [error, emit]

@[simp]
theorem statePop_m_defRefs (s : VPreProcImp) : s.statePop.m_defRefs = s.m_defRefs := by
  unfold statePop; dsimp only; split_ifs <;> rfl

@[simp]
theorem statePop_m_lexp (s : VPreProcImp) : s.statePop.m_lexp = s.m_lexp := by
  unfold statePop; dsimp only; split_ifs <;> rfl

theorem nested_close_in_frame (h : Host) (s : VPreProcImp) (inner outer : VPreDefRef)
    (rest : List VPreDefRef) (hrefs : s.m_defRefs = inner :: outer :: rest)
    (hst : s.state = ps_DEFARG) (htxt : s.yytext = [')']) :
    (processToken h s VP_DEFARG).2 = Jump.next_tok
      ∧ (processToken h s VP_DEFARG).1.m_defRefs
          = { outer with m_nextarg := outer.m_nextarg ++ closeExpansion h s inner } :: rest
      ∧ scanBuffers (processToken h s VP_DEFARG).1 = scanBuffers s := by
  unfold processToken stateSwitch
  simp only [hst]
  unfold caseDEFARG
  cases hl : s.m_lexp <;>
    simp [onTopRef, onLex, lexp, hrefs, htxt, scanBuffers, hl, VPreLex.new, foldl_error_eq,
      topRef, closeRef, closeExpansion]

/-- C11: a macro reference that completes while a DefRef frame `outer` is the one above
which it was seen: (1) an object-like macro (`params` is `0`) at off-depth zero, within the
recursion bound, in a state that lets the reference through to the token switch, and (2) the
closing paren of a parameterized reference `inner` nested in `outer`.  In both cases the
loop body goes on to the next token, the frame `outer` keeps its collected actuals and its
current-argument buffer grows at its end by the expansion text (in case 1 preceded by the
argument text that the scanner has accumulated so far), whatever the expansion text is; the
frames below are unchanged and the scanner has the same scan buffers as before. -/
theorem C11_inner_expansion_joins_outer_argument (h : Host) (s : VPreProcImp)
    (outer : VPreDefRef) (rest : List VPreDefRef) :
    (s.m_defRefs = outer :: rest → passesDEFREF s.state = true → s.m_off = 0 →
      s.m_defDepth ≤ h.DEFINE_RECURSION_LEVEL_MAX →
      h.defParams s.log (s.yytext.drop 1) = ['0'] →
        (processToken h s VP_DEFREF).2 = Jump.next_tok
        ∧ (processToken h s VP_DEFREF).1.m_defRefs
            = { outer with m_nextarg := outer.m_nextarg ++ s.lexp.m_defValue
                  ++ h.defSubstitute s.log (h.defValue s.log (s.yytext.drop 1)) } :: rest
        ∧ scanBuffers (processToken h s VP_DEFREF).1 = scanBuffers s
        ∧ (processToken h s VP_DEFREF).1.m_states = s.m_states)
    ∧ (∀ inner : VPreDefRef, s.m_defRefs = inner :: outer :: rest → s.state = ps_DEFARG →
        s.yytext = [')'] →
          (processToken h s VP_DEFARG).2 = Jump.next_tok
          ∧ (processToken h s VP_DEFARG).1.m_defRefs
              = { outer with m_nextarg := outer.m_nextarg ++ closeExpansion h s inner } :: rest
          ∧ scanBuffers (processToken h s VP_DEFARG).1 = scanBuffers s) :=
  ⟨fun hrefs hst hoff hdepth hpar => objectLike_in_frame h s outer rest hrefs hst hoff hdepth hpar,
   fun inner hrefs hst htxt => nested_close_in_frame h s inner outer rest hrefs hst htxt⟩

theorem C11_witness :
    (objectRefState.m_defRefs = [VPreDefRef.new "F".toList "(a)".toList]
      ∧ passesDEFREF objectRefState.state = true ∧ objectRefState.m_off = 0
      ∧ objectRefState.m_defDepth ≤ (tableHost false).DEFINE_RECURSION_LEVEL_MAX
      ∧ (tableHost false).defParams objectRefState.log (objectRefState.yytext.drop 1) = ['0']
      ∧ (processToken (tableHost false) objectRefState VP_DEFREF).1.m_defRefs
          = [{ VPreDefRef.new "F".toList "(a)".toList with m_nextarg := "p x,y".toList }])
    ∧ (closeState.m_defRefs
          = [VPreDefRef.new "G".toList "(b)".toList,
             { VPreDefRef.new "F".toList "(a)".toList with m_nextarg := "p ".toList }]
      ∧ closeState.state = ps_DEFARG ∧ closeState.yytext = [')']
      ∧ (processToken (tableHost false) closeState VP_DEFARG).1.m_defRefs
          = [{ VPreDefRef.new "F".toList "(a)".toList with m_nextarg := "p 1,1".toList }]) :=
  ⟨⟨by decide, by decide, by decide, by decide, by decide,
    ((C11_inner_expansion_joins_outer_argument (tableHost false) objectRefState
        (VPreDefRef.new "F".toList "(a)".toList) []).1
      (by decide) (by decide) (by decide) (by decide) (by decide)).2.1.trans (by decide)⟩,
   ⟨by decide, by decide, by decide,
    ((C11_inner_expansion_joins_outer_argument (tableHost false) closeState
        { VPreDefRef.new "F".toList "(a)".toList with m_nextarg := "p ".toList } []).2
      (VPreDefRef.new "G".toList "(b)".toList)
      (by decide) (by decide) (by decide)).2.1.trans (by decide)⟩⟩

theorem getToken_of_ret (h : Host) (fuel : Nat) (s s1 s2 : VPreProcImp) (tok t : VPTok)
    (heof : s.isEof = false) (hraw : getRawToken h (fuel + 1) s = (s1, some tok))
    (hproc : processToken h s1 tok = (s2, Jump.ret t)) :
    getToken h (fuel + 1) s = (s2, some t) := by
  rw [getToken]
  simp [heof, hraw, hproc]

theorem onLex_isEof (s : VPreProcImp) (f : VPreLex → VPreLex) : (s.onLex f).isEof = s.isEof := by
  cases hl : s.m_lexp <;> simp [onLex, isEof, hl]

theorem takeLineCmt_isEof (s : VPreProcImp) : s.takeLineCmt.isEof = s.isEof := by
  unfold takeLineCmt noteBol
  dsimp only
  split_ifs <;> rfl

theorem getRawToken_lexed (h : Host) : ∀ (fuel : Nat) (s s1 : VPreProcImp) (tok : VPTok),
    getRawToken h fuel s = (s1, some tok) → tok ≠ VP_WHITE → tok ≠ VP_TEXT → tok ≠ VP_EOF →
      s.isEof = false
  | 0, s, s1, tok, hraw, _, _, _ => by simp [getRawToken] at hraw
  | fuel + 1, s, s1, tok, hraw, hw, ht, he => by
    rw [getRawToken] at hraw
    split_ifs at hraw with h1 h2 h3 h4 h5
    · simp only [Prod.mk.injEq, Option.some.injEq] at hraw
      exact absurd hraw.2.symm hw
    · have := getRawToken_lexed h fuel _ s1 tok hraw hw ht he
      rw [onLex_isEof, takeLineCmt_isEof] at this
      exact this
    · simp only [Prod.mk.injEq, Option.some.injEq] at hraw
      exact absurd hraw.2.symm ht
    · simp only [Prod.mk.injEq, Option.some.injEq] at hraw
      exact absurd hraw.2.symm he
    · simpa using h4
    · simpa using h4

theorem caseDEFREF_undefined (h : Host) (s : VPreProcImp) (hoff : s.m_off = 0)
    (hdepth : s.m_defDepth ≤ h.DEFINE_RECURSION_LEVEL_MAX)
    (hpar : h.defParams s.log (s.yytext.drop 1) = []) :
    caseDEFREF h s = ({ s with m_defDepth := 0 }, Jump.ret VP_TEXT) := by
  have hd : ¬ (s.m_defDepth > h.DEFINE_RECURSION_LEVEL_MAX) := by omega
  have hpar' : h.defParams s.log s.yytext.tail = [] := by simpa using hpar
  unfold caseDEFREF
  simp [hoff, hd, hpar']

theorem processToken_undefined (h : Host) (s : VPreProcImp)
    (hst : passesDEFREF s.state = true) (hrefs : s.state = ps_DEFARG → s.m_defRefs ≠ [])
    (hoff : s.m_off = 0) (hdepth : s.m_defDepth ≤ h.DEFINE_RECURSION_LEVEL_MAX)
    (hpar : h.defParams s.log (s.yytext.drop 1) = []) :
    processToken h s VP_DEFREF
      = ({ (if s.state = ps_DEFARG then flushArg s else s) with m_defDepth := 0 },
          Jump.ret VP_TEXT) := by
  by_cases hq : s.state = ps_DEFARG
  · have hne := hrefs hq
    rw [processToken_DEFREF h s hne hst]
    simp only [hq, if_true]
    rw [caseDEFREF_undefined h _ (by simpa using hoff) (by simpa using hdepth)
      (by simpa using hpar)]
    rfl
  · unfold processToken stateSwitch
    simp only [hq, if_false]
    cases hs : s.state <;> simp [hs, passesDEFREF] at hst hq ⊢ <;>
      simp [caseDEFNAME, caseINCNAME, tokSwitch, caseDEFREF_undefined h s hoff hdepth hpar]

/-- C12 as stated fails: a reference to an undefined name inside the argument list of `F`,
at off-depth zero and def-depth 1, is returned as TEXT, but the DefRef stack is not what it
was: the argument text before the reference has joined the current argument of `F`. -/
theorem C12_counterexample :
    (getRawToken (tableHost false) 5 undefinedRefState).2 = some VP_DEFREF
      ∧ (tableHost false).defParams undefinedRefState.log "U".toList = []
      ∧ undefinedRefState.m_off = 0
      ∧ undefinedRefState.m_defDepth ≤ (tableHost false).DEFINE_RECURSION_LEVEL_MAX
      ∧ (getToken (tableHost false) 5 undefinedRefState).2 = some VP_TEXT
      ∧ (getToken (tableHost false) 5 undefinedRefState).1.m_states = undefinedRefState.m_states
      ∧ undefinedRefState.m_defRefs = [VPreDefRef.new "F".toList "(a)".toList]
      ∧ (getToken (tableHost false) 5 undefinedRefState).1.m_defRefs
          = [{ VPreDefRef.new "F".toList "(a)".toList with m_nextarg := "a ".toList }]
      ∧ (getToken (tableHost false) 5 undefinedRefState).1.m_defRefs
          ≠ undefinedRefState.m_defRefs := by
  decide

/-- C12, amended: `getToken` reads a DEFREF token (state `s1` is the one in which the token
has been read) in a state that lets a reference through to the token switch (`ps_TOP`, a
`ps_DEFNAME_*` state, `ps_DEFARG` with its frame present, or `ps_INCNAME`), at off-depth
zero, within the recursion bound, and the host reports the name as undefined.  Then
`getToken` returns TEXT with the token text as it was read, the def-depth is zero, nothing
is added to the record, the parser state stack is unchanged, and the DefRef stack has the
same frames, unchanged but for this: in state `ps_DEFARG` the argument text that the
scanner has accumulated is appended to the current-argument buffer of the top frame. -/
theorem C12_undefined_reference_returned_as_text (h : Host) (fuel : Nat) (s s1 : VPreProcImp)
    (hraw : getRawToken h (fuel + 1) s = (s1, some VP_DEFREF))
    (hst : passesDEFREF s1.state = true) (hrefs : s1.state = ps_DEFARG → s1.m_defRefs ≠ [])
    (hoff : s1.m_off = 0) (hdepth : s1.m_defDepth ≤ h.DEFINE_RECURSION_LEVEL_MAX)
    (hpar : h.defParams s1.log (s1.yytext.drop 1) = []) :
    getToken h (fuel + 1) s
        = ({ (if s1.state = ps_DEFARG then flushArg s1 else s1) with m_defDepth := 0 },
            some VP_TEXT)
      ∧ (getToken h (fuel + 1) s).1.yytext = s1.yytext
      ∧ (getToken h (fuel + 1) s).1.m_defDepth = 0
      ∧ (getToken h (fuel + 1) s).1.log = s1.log
      ∧ (getToken h (fuel + 1) s).1.m_states = s1.m_states
      ∧ (getToken h (fuel + 1) s).1.m_defRefs.length = s1.m_defRefs.length
      ∧ (s1.state ≠ ps_DEFARG → (getToken h (fuel + 1) s).1.m_defRefs = s1.m_defRefs)
      ∧ (∀ top rest, s1.state = ps_DEFARG → s1.m_defRefs = top :: rest →
          (getToken h (fuel + 1) s).1.m_defRefs
            = { top with m_nextarg := top.m_nextarg ++ s1.lexp.m_defValue } :: rest) := by
  have heof := getRawToken_lexed h (fuel + 1) s s1 VP_DEFREF hraw (by decide) (by decide)
    (by decide)
  have hg := getToken_of_ret h fuel s s1 _ VP_DEFREF VP_TEXT heof hraw
    (processToken_undefined h s1 hst hrefs hoff hdepth hpar)
  rw [hg]
  refine ⟨rfl, ?_, rfl, ?_, ?_, ?_, ?_, ?_⟩
  · split_ifs <;> simp [flushArg, onLex, onTopRef]
  · split_ifs <;> simp [flushArg, onLex, onTopRef]
  · split_ifs <;> simp [flushArg, onLex, onTopRef]
  · split_ifs
    · cases hd : s1.m_defRefs <;> simp [flushArg, onLex, onTopRef, hd]
    · rfl
  · intro hq; simp [hq]
  · intro top rest hq hd
    simp [hq, flushArg, onLex, onTopRef, hd]

theorem C12_witness :
    getRawToken (tableHost false) 5 undefinedRefState
        = ((getRawToken (tableHost false) 5 undefinedRefState).1, some VP_DEFREF)
      ∧ passesDEFREF (getRawToken (tableHost false) 5 undefinedRefState).1.state = true
      ∧ (getRawToken (tableHost false) 5 undefinedRefState).1.m_defRefs ≠ []
      ∧ (getRawToken (tableHost false) 5 undefinedRefState).1.m_off = 0
      ∧ (getRawToken (tableHost false) 5 undefinedRefState).1.m_defDepth
          ≤ (tableHost false).DEFINE_RECURSION_LEVEL_MAX
      ∧ (tableHost false).defParams (getRawToken (tableHost false) 5 undefinedRefState).1.log
          ((getRawToken (tableHost false) 5 undefinedRefState).1.yytext.drop 1) = []
      ∧ (getToken (tableHost false) 5 undefinedRefState).1.yytext = "\x60U".toList
      ∧ (getToken (tableHost false) 5 undefinedRefState).1.m_defDepth = 0 :=
  ⟨by decide, by decide, by decide, by decide, by decide, by decide,
   ((C12_undefined_reference_returned_as_text (tableHost false) 4 undefinedRefState
      (getRawToken (tableHost false) 5 undefinedRefState).1
      (by decide) (by decide) (fun _ => by decide) (by decide) (by decide)
      (by decide)).2.1).trans (by decide),
   (C12_undefined_reference_returned_as_text (tableHost false) 4 undefinedRefState
      (getRawToken (tableHost false) 5 undefinedRefState).1
      (by decide) (by decide) (fun _ => by decide) (by decide) (by decide)
      (by decide)).2.2.1⟩

theorem ne_underflow (c : Char) (t : List Char) (hc : c ≠ 'I') : c :: t ≠ underflowMsg := by
  intro heq
  have h1 : (c :: t).head? = underflowMsg.head? := congrArg List.head? heq
  have h2 : underflowMsg.head? = some 'I' := by decide
  rw [h2] at h1
  simp at h1
  exact hc h1

theorem quiet_append (l : List (Int × Event)) (off : Int) (e : Event) :
    Quiet (l ++ [(off, e)]) ↔ Quiet l ∧ e ≠ Event.error underflowMsg := by
  unfold Quiet
  constructor
  · intro h
    exact ⟨fun p hp => h p (List.mem_append_left _ hp),
      h (off, e) (List.mem_append_right _ (List.mem_singleton_self _))⟩
  · rintro ⟨h1, h2⟩ p hp
    rcases List.mem_append.mp hp with hp | hp
    · exact h1 p hp
    · rw [List.mem_singleton.mp hp]; exact h2

@[simp]
theorem quiet_emit (s : VPreProcImp) (e : Event) :
    Quiet (s.emit e).log ↔ Quiet s.log ∧ e ≠ Event.error underflowMsg :=
  quiet_append s.log s.m_off e

@[simp]
theorem quiet_error (s : VPreProcImp) (m : List Char) :
    Quiet (s.error m).log ↔ Quiet s.log ∧ m ≠ underflowMsg := by
  simp [error]

@[simp]
theorem quiet_fatalSrc (s : VPreProcImp) (m : List Char) :
    Quiet (s.fatalSrc m).log ↔ Quiet s.log := by
  simp [fatalSrc]

theorem quiet_statePop (s : VPreProcImp) (hne : s.m_states.tail.isEmpty = false) :
    Quiet s.statePop.log ↔ Quiet s.log := by
  unfold statePop
  dsimp only
  rw [if_neg (by simp [hne])]

theorem quiet_stateChange (s : VPreProcImp) (st : ProcState)
    (hne : s.m_states.tail.isEmpty = false) :
    Quiet (s.stateChange st).log ↔ Quiet s.log := by
  unfold stateChange
  rw [statePush_log, quiet_statePop s hne]

@[simp]
theorem quiet_unputString (s : VPreProcImp) (t : List Char) :
    Quiet (s.unputString t).log ↔ Quiet s.log := by
  unfold unputString
  dsimp only
  split_ifs <;> simp

theorem quiet_foldl_error (msgs : List (List Char)) (s : VPreProcImp)
    (hm : ∀ m ∈ msgs, m ≠ underflowMsg) :
    Quiet (msgs.foldl (fun s msg => s.error msg) s).log ↔ Quiet s.log := by
  induction msgs generalizing s with
  | nil => rfl
  | cons m ms ih =>
    rw [List.foldl_cons, ih _ (fun x hx => hm x (List.mem_cons_of_mem _ hx))]
    simp [hm m (List.mem_cons_self _ _)]

theorem bindFormal_error_quiet (refp : VPreDefRef) (st : FormalsState) (e : SubstResult)
    (he : bindFormal refp st = .error e) : ∀ m ∈ e.errors, m ≠ underflowMsg := by
  unfold bindFormal at he
  dsimp only at he
  split_ifs at he
  all_goals (try cases he)
  all_goals
    (intro m hm
     simp only [List.mem_singleton] at hm
     subst hm
     exact ne_underflow 'D' _ (by decide))

theorem parseFormals_error_quiet (refp : VPreDefRef) : ∀ (cp : List Char) (st : FormalsState)
    (e : SubstResult), parseFormals refp cp st = .error e → ∀ m ∈ e.errors, m ≠ underflowMsg
  | [], st, e, he => by simp [parseFormals] at he
  | [c], st, e, he => by
    rw [parseFormals] at he
    split_ifs at he
    · exact bindFormal_error_quiet refp st e he
  | c :: d :: rest, st, e, he => by
    rw [parseFormals] at he
    split_ifs at he
    · split at he
      · rename_i e1 hb
        cases he
        exact bindFormal_error_quiet refp st _ hb
      · exact parseFormals_error_quiet refp _ _ e he
    · exact parseFormals_error_quiet refp _ _ e he
    · exact parseFormals_error_quiet refp _ _ e he
    · exact parseFormals_error_quiet refp _ _ e he

theorem defineSubst_errors_quiet (refp : VPreDefRef) (value : List Char) :
    ∀ m ∈ (defineSubst refp value).errors, m ≠ underflowMsg := by
  unfold defineSubst
  dsimp only
  split
  · rename_i e he
    exact parseFormals_error_quiet refp _ _ e he
  · split_ifs
    · intro m hm
      simp only [List.mem_singleton] at hm
      subst hm
      exact ne_underflow 'D' _ (by decide)
    · intro m hm
      simp at hm

@[simp]
theorem quiet_openFile (h : Host) (s : VPreProcImp) (f : List Char)
    (fl : Option VFileLine) : Quiet (openFile h s f fl).log ↔ Quiet s.log := by
  have hF : "File not found: ".toList ++ f ++ [NL] ≠ underflowMsg :=
    ne_underflow 'F' _ (by decide)
  have hR : "Recursive inclusion of file: ".toList ++ f ≠ underflowMsg :=
    ne_underflow 'R' _ (by decide)
  cases fl <;>
  · unfold openFile
    dsimp only
    split
    · rw [quiet_error]; exact and_iff_left hF
    · split
      · rw [quiet_error]; exact and_iff_left hR
      · rename_i s1 hp
        rw [foldl_scan_log, addLineComment_log]
        split at hp
        · split at hp
          · cases hp
          · simp only [Option.some.injEq] at hp
            subst hp
            simp
        · simp only [Option.some.injEq] at hp
          subst hp
          rfl

@[simp]
theorem quiet_hostInclude (h : Host) (s : VPreProcImp) (n : List Char) :
    Quiet (hostInclude h s n).log ↔ Quiet s.log := by
  unfold hostInclude
  dsimp only
  split <;> simp

@[simp]
theorem quiet_eof (h : Host) (s : VPreProcImp) : Quiet (eof h s).log ↔ Quiet s.log := by
  unfold eof
  dsimp only
  split
  · rfl
  · split
    · show Quiet (addLineComment h s 2).log ↔ _
      simp
    · split
      · rw [quiet_fatalSrc, addLineComment_log]
        show Quiet (addLineComment h s 2).log ↔ _
        simp
      · rw [addLineComment_log]
        show Quiet (addLineComment h s 2).log ↔ _
        simp

theorem quiet_getRawToken (h : Host) : ∀ (fuel : Nat) (s : VPreProcImp),
    Quiet s.log → Quiet (getRawToken h fuel s).1.log
  | 0, s, hs => hs
  | fuel + 1, s, hs => by
    rw [getRawToken]
    split_ifs
    · exact hs
    · apply quiet_getRawToken h fuel
      simpa using hs
    · simpa using hs
    · exact hs
    · apply quiet_getRawToken h fuel
      simpa using hs
    · simpa using hs

@[simp]
theorem quiet_caseELSIF (h : Host) (s : VPreProcImp) :
    Quiet (caseELSIF h s).log ↔ Quiet s.log := by
  unfold caseELSIF
  split
  · rw [quiet_error]; exact and_iff_left (ne_underflow BACKTICK _ (by decide))
  · simp

@[simp]
theorem quiet_caseELSE (h : Host) (s : VPreProcImp) :
    Quiet (caseELSE h s).log ↔ Quiet s.log := by
  unfold caseELSE
  split
  · rw [quiet_error]; exact and_iff_left (ne_underflow BACKTICK _ (by decide))
  · simp

@[simp]
theorem quiet_caseENDIF (h : Host) (s : VPreProcImp) :
    Quiet (caseENDIF h s).log ↔ Quiet s.log := by
  unfold caseENDIF
  split
  · rw [quiet_error]; exact and_iff_left (ne_underflow BACKTICK _ (by decide))
  · simp

theorem expecting_ne_underflow (what : String) (tok : VPTok) (nl : Bool) (c : Char)
    (t : List Char) (hw : what.toList = c :: t) (hc : c ≠ 'I') :
    expecting what tok nl ≠ underflowMsg := by
  unfold expecting
  rw [hw]
  exact ne_underflow c _ hc

theorem quiet_caseDEFNAME (h : Host) (s : VPreProcImp) (st : ProcState) (tok : VPTok)
    (hst : s.m_states = [st, ps_TOP]) (hq : Quiet s.log) :
    Quiet (caseDEFNAME h s st tok).1.log := by
  have hE := expecting_ne_underflow "Expecting define name. Found: " tok true 'E' _ rfl
    (by decide)
  unfold caseDEFNAME
  dsimp only
  split_ifs
  all_goals first
    | exact hq
    | (rw [quiet_statePop _ (by simp [hst])]; simp; exact hq)
    | (simp only [onLex_log]; rw [quiet_stateChange _ _ (by simp [hst])]; exact hq)
    | (simp [hE, hq]; done)

theorem quiet_caseDEFFORM (s : VPreProcImp) (tok : VPTok)
    (hst : s.m_states = [ps_DEFFORM, ps_TOP]) (hq : Quiet s.log) :
    Quiet (caseDEFFORM s tok).1.log := by
  have hE := expecting_ne_underflow "Expecting define formal arguments. Found: " tok true 'E' _
    rfl (by decide)
  unfold caseDEFFORM
  dsimp only
  split_ifs
  all_goals first
    | exact hq
    | (simp only [onLex_log]; rw [quiet_stateChange _ _ (by simp [hst])]; exact hq)
    | (rw [quiet_error]; exact ⟨hq, hE⟩)

theorem quiet_caseDEFVALUE (s : VPreProcImp) (tok : VPTok)
    (hst : s.m_states = [ps_DEFVALUE, ps_TOP]) (hq : Quiet s.log) :
    Quiet (caseDEFVALUE s tok).1.log := by
  unfold caseDEFVALUE
  dsimp only
  split_ifs
  all_goals
    (show Quiet (statePop _).log
     rw [quiet_statePop _ (by simp [hst])]
     simp [hq])

theorem quiet_caseERRORNAME (s : VPreProcImp) (tok : VPTok)
    (hst : s.m_states = [ps_ERRORNAME, ps_TOP]) (hq : Quiet s.log) :
    Quiet (caseERRORNAME s tok).1.log := by
  have hE : "Expecting ".toList ++ BACKTICK :: expecting "error string. Found: " tok true
      ≠ underflowMsg := ne_underflow 'E' _ (by decide)
  unfold caseERRORNAME
  dsimp only
  split_ifs
  all_goals first
    | (rw [quiet_statePop _ (by simp [hst])]; simp [hq]; done)
    | (rw [quiet_statePop _ (by simp [hst]), quiet_error]; exact ⟨hq, hE⟩)

theorem quiet_caseINCNAME (h : Host) (s : VPreProcImp) (tok : VPTok)
    (hst : s.m_states = [ps_INCNAME, ps_TOP]) (hq : Quiet s.log) :
    Quiet (caseINCNAME h s tok).1.log := by
  have hE := expecting_ne_underflow "Expecting include filename. Found: " tok true 'E' _
    rfl (by decide)
  unfold caseINCNAME
  dsimp only
  split_ifs
  all_goals first
    | exact hq
    | (rw [quiet_hostInclude]
       show Quiet (statePop _).log
       rw [quiet_statePop _ (by simp [hst])]; exact hq)
    | (simp only [onLex_log]; rw [quiet_stateChange _ _ (by simp [hst])]; exact hq)
    | (rw [quiet_error, quiet_statePop _ (by simp [hst])]; exact ⟨hq, hE⟩)

theorem quiet_caseDEFPAREN (s : VPreProcImp) (tok : VPTok) (rest : List ProcState)
    (hst : s.m_states = ps_DEFPAREN :: rest) (hne : rest.isEmpty = false) (hq : Quiet s.log) :
    Quiet (caseDEFPAREN s tok).1.log := by
  have hI : "InternalError: Shouldn't be in DEFPAREN w/o active defref".toList ≠ underflowMsg := by
    decide
  have hE : ∀ n : List Char, "Expecting ( to begin argument list for define reference ".toList
      ++ BACKTICK :: n ++ [NL] ≠ underflowMsg := fun n => ne_underflow 'E' _ (by decide)
  unfold caseDEFPAREN
  dsimp only
  split_ifs
  · rw [quiet_stateChange _ _ (by simp [hst, hne])]; exact hq
  · rw [quiet_statePop _ (by simp [hst, hne]), quiet_error, quiet_error]
    exact ⟨⟨hq, hI⟩, hE _⟩
  · rw [quiet_statePop _ (by simp [hst, hne]), quiet_error]
    exact ⟨hq, hE _⟩

theorem quiet_caseDEFARG (h : Host) (s : VPreProcImp) (tok : VPTok) (rest : List ProcState)
    (hst : s.m_states = ps_DEFARG :: rest) (hne : rest.isEmpty = false) (hq : Quiet s.log) :
    Quiet (caseDEFARG h s tok).1.log := by
  have hI : "InternalError: Shouldn't be in DEFARG w/o active defref".toList ≠ underflowMsg := by
    decide
  have hE := expecting_ne_underflow
    "Expecting ) or , to end argument list for define reference. Found: " tok false 'E' _
    rfl (by decide)
  have hq1 : Quiet (if s.m_defRefs.isEmpty then
      s.error "InternalError: Shouldn't be in DEFARG w/o active defref".toList else s).log := by
    split_ifs
    · rw [quiet_error]; exact ⟨hq, hI⟩
    · exact hq
  have hst1 : (if s.m_defRefs.isEmpty then
      s.error "InternalError: Shouldn't be in DEFARG w/o active defref".toList else s).m_states
        = ps_DEFARG :: rest := by
    split_ifs
    · rw [error_m_states]; exact hst
    · exact hst
  unfold caseDEFARG
  dsimp only
  generalize (if s.m_defRefs.isEmpty then
      s.error "InternalError: Shouldn't be in DEFARG w/o active defref".toList else s) = s1
    at hq1 hst1
  split_ifs
  · simp only [onTopRef_log, onLex_log]
    rw [quiet_stateChange _ _ (by simp [hst1, hne])]
    exact hq1
  · simp only [onLex_log]
    rw [quiet_statePop _ (by simp [hst1, hne, foldl_error_m_states]), quiet_unputString]
    refine (quiet_foldl_error _ _ (defineSubst_errors_quiet _ _)).mpr ?_
    exact hq1
  · rw [quiet_statePop _ (by simp [hst1, hne, foldl_error_m_states])]
    simp only [onTopRef_log, onLex_log]
    refine (quiet_foldl_error _ _ (defineSubst_errors_quiet _ _)).mpr ?_
    exact hq1
  · exact hq1
  · exact hq1
  · rw [quiet_statePop _ (by simp [hst1, hne]), quiet_error]
    exact ⟨hq1, hE⟩

theorem quiet_stateSwitch (h : Host) (s : VPreProcImp) (tok : VPTok) (hs : Guarded s)
    (hq : Quiet s.log) : Quiet (stateSwitch h s tok).1.log := by
  have hws := hs.2.1
  cases hx : s.m_states with
  | nil => rw [hx] at hws; simp [wellStacked] at hws
  | cons x rest =>
    rw [hx] at hws
    have hstate : s.state = x := by simp [state, hx]
    unfold stateSwitch
    rw [hstate]
    cases x with
    | ps_TOP => exact hq
    | ps_DEFNAME_UNDEF =>
      have hr := ws_mid _ rest hws (by decide) (by decide) (by decide)
      subst hr
      exact quiet_caseDEFNAME h s _ tok hx hq
    | ps_DEFNAME_DEFINE =>
      have hr := ws_mid _ rest hws (by decide) (by decide) (by decide)
      subst hr
      exact quiet_caseDEFNAME h s _ tok hx hq
    | ps_DEFNAME_IFDEF =>
      have hr := ws_mid _ rest hws (by decide) (by decide) (by decide)
      subst hr
      exact quiet_caseDEFNAME h s _ tok hx hq
    | ps_DEFNAME_IFNDEF =>
      have hr := ws_mid _ rest hws (by decide) (by decide) (by decide)
      subst hr
      exact quiet_caseDEFNAME h s _ tok hx hq
    | ps_DEFNAME_ELSIF =>
      have hr := ws_mid _ rest hws (by decide) (by decide) (by decide)
      subst hr
      exact quiet_caseDEFNAME h s _ tok hx hq
    | ps_DEFFORM =>
      have hr := ws_mid _ rest hws (by decide) (by decide) (by decide)
      subst hr
      exact quiet_caseDEFFORM s tok hx hq
    | ps_DEFVALUE =>
      have hr := ws_mid _ rest hws (by decide) (by decide) (by decide)
      subst hr
      exact quiet_caseDEFVALUE s tok hx hq
    | ps_DEFPAREN =>
      have hne := (ws_def _ _ hws (Or.inl rfl)).1
      exact quiet_caseDEFPAREN s tok rest hx (isEmpty_false_of_ne hne) hq
    | ps_DEFARG =>
      have hne := (ws_def _ _ hws (Or.inr rfl)).1
      exact quiet_caseDEFARG h s tok rest hx (isEmpty_false_of_ne hne) hq
    | ps_INCNAME =>
      have hr := ws_mid _ rest hws (by decide) (by decide) (by decide)
      subst hr
      exact quiet_caseINCNAME h s tok hx hq
    | ps_ERRORNAME =>
      have hr := ws_mid _ rest hws (by decide) (by decide) (by decide)
      subst hr
      exact quiet_caseERRORNAME s tok hx hq

theorem quiet_caseDEFREF (h : Host) (s : VPreProcImp) (hq : Quiet s.log) :
    Quiet (caseDEFREF h s).1.log := by
  have hR : ∀ n : List Char, "Recursive ".toList ++ BACKTICK :: "define substitution: ".toList
      ++ BACKTICK :: n ≠ underflowMsg := fun n => ne_underflow 'R' _ (by decide)
  unfold caseDEFREF
  dsimp only
  split_ifs
  all_goals first
    | exact hq
    | (rw [quiet_error]; exact ⟨hq, hR _⟩)
    | (rw [quiet_unputString]; exact hq)

theorem quiet_tokSwitch (h : Host) (s : VPreProcImp) (tok : VPTok) (hq : Quiet s.log) :
    Quiet (tokSwitch h s tok).1.log := by
  have hT : BACKTICK :: "ifdef not terminated at EOF\n".toList ≠ underflowMsg :=
    ne_underflow BACKTICK _ (by decide)
  unfold tokSwitch
  split
  all_goals (try dsimp only)
  all_goals (try split_ifs)
  all_goals first
    | exact quiet_caseDEFREF h s hq
    | exact hq
    | (rw [quiet_error]; exact ⟨hq, hT⟩)
    | (simp [hq]; done)

theorem quiet_processToken (h : Host) (s : VPreProcImp) (tok : VPTok) (hs : Guarded s)
    (hq : Quiet s.log) : Quiet (processToken h s tok).1.log := by
  unfold processToken
  split_ifs
  · exact hq
  · unfold caseCOMMENT
    dsimp only
    split_ifs
    all_goals first
      | exact hq
      | (simp [hq]; done)
  · simpa using hq
  · have h1 := quiet_stateSwitch h s tok hs hq
    split
    · rename_i s1 heq
      rw [heq] at h1
      exact quiet_tokSwitch h s1 tok h1
    · exact h1

theorem quiet_getToken (h : Host) : ∀ (fuel : Nat) (s : VPreProcImp),
    Guarded s → Quiet s.log → Quiet (getToken h fuel s).1.log
  | 0, s, _, hq => hq
  | fuel + 1, s, hs, hq => by
    rw [getToken]
    split_ifs
    · exact hq
    · have h1 := guarded_getRawToken h (fuel + 1) s hs
      have q1 := quiet_getRawToken h (fuel + 1) s hq
      split
      · rename_i s1 heq
        rw [heq] at q1; exact q1
      · rename_i s1 tok heq
        rw [heq] at h1 q1
        have h2 := guarded_processToken h s1 tok h1
        have q2 := quiet_processToken h s1 tok h1 q1
        split
        · rename_i s2 t heq2
          rw [heq2] at q2; exact q2
        · rename_i s2 j hne heq2
          rw [heq2] at h2 q2
          exact quiet_getToken h fuel s2 h2 q2

theorem quiet_bufferToken (s : VPreProcImp) (tok : VPTok) (hq : Quiet s.log) :
    Quiet (bufferToken s tok).1.log := by
  unfold bufferToken; split_ifs <;> exact hq

theorem quiet_fillLine (h : Host) (st : Bool) (n : Nat) : ∀ (fuel : Nat) (s : VPreProcImp),
    Guarded s → Quiet s.log → Quiet (fillLine h st n fuel s).1.log
  | 0, s, _, hq => hq
  | fuel + 1, s, hs, hq => by
    rw [fillLine]
    split_ifs
    · have h1 := guarded_getToken h (fuel + 1) s hs
      have q1 := quiet_getToken h (fuel + 1) s hs hq
      split
      · rename_i s1 heq
        rw [heq] at q1; exact q1
      · rename_i s1 tok heq
        rw [heq] at h1 q1
        split_ifs
        · exact quiet_bufferToken _ _ q1
        · exact quiet_fillLine h st n fuel _ (guarded_bufferToken _ _ h1)
            (quiet_bufferToken _ _ q1)
    · exact hq

theorem quiet_parseLoop (h : Host) (st : Bool) (n : Nat) : ∀ (fuel : Nat) (s : VPreProcImp),
    Guarded s → Quiet s.log → Quiet (parseLoop h st n fuel s).1.log
  | 0, s, _, hq => hq
  | fuel + 1, s, hs, hq => by
    rw [parseLoop]
    have h1 := guarded_fillLine h st n (fuel + 1) s hs
    have q1 := quiet_fillLine h st n (fuel + 1) s hs hq
    split
    · rename_i s1 heq
      rw [heq] at q1; exact q1
    · rename_i s1 g heq
      rw [heq] at h1 q1
      split_ifs
      · exact quiet_parseLoop h st n fuel _ h1 q1
      · exact q1

theorem quiet_call (h : Host) (s : VPreProcImp) (c : ApiCall) (hs : Guarded s)
    (hq : Quiet s.log) : Quiet (call h s c).log := by
  cases c with
  | getToken fuel => exact quiet_getToken h fuel s hs hq
  | openFile f fl => simp only [call, quiet_openFile]; exact hq
  | insertUnreadback t => exact hq
  | getparseline st n fuel =>
    simp only [call, getparseline]
    split_ifs
    · exact hq
    · exact quiet_parseLoop h st n fuel s hs hq

theorem quiet_run (h : Host) (filelinep : VFileLine) (yyin : List LexOut)
    (calls : List ApiCall) : Quiet (run h filelinep yyin calls).log := by
  have key : ∀ (calls : List ApiCall) (s : VPreProcImp), Guarded s → Quiet s.log →
      Quiet (calls.foldl (call h) s).log := by
    intro calls
    induction calls with
    | nil => intro s _ hq; exact hq
    | cons c cs ih =>
      intro s hs hq
      exact ih _ (guarded_call h s c hs) (quiet_call h s c hs hq)
  exact key calls _ (guarded_run h filelinep yyin []) (fun p hp => by simp [VPreProcImp.new] at hp)

theorem ws_bottom : ∀ st : List ProcState, wellStacked st = true →
    st ≠ [] ∧ st.getLast? = some ps_TOP ∧ (st.headD ps_TOP ≠ ps_TOP → 2 ≤ st.length)
  | [], hw => by simp [wellStacked] at hw
  | [x], hw => by
    simp [wellStacked] at hw
    subst hw
    simp
  | x :: y :: rest, hw => by
    rw [wellStacked] at hw
    split_ifs at hw with hx
    · obtain ⟨_, h2, _⟩ := ws_bottom (y :: rest) hw
      refine ⟨by simp, ?_, fun _ => by simp⟩
      rw [List.getLast?_cons_cons]
      exact h2
    · simp only [Bool.and_eq_true, bne_iff_ne, ne_eq, beq_iff_eq, List.isEmpty_iff] at hw
      obtain ⟨⟨_, h2⟩, h3⟩ := hw
      subst h2 h3
      simp

/-- C13: in every state that a freshly constructed preprocessor reaches by any sequence of
calls, whatever the scanner delivers and the host answers, the parser state stack is not
empty and its bottom entry is `ps_TOP`; whenever its top is not `ps_TOP`, which is when
`getToken` pops, it has at least two entries; and the error of `statePop` for a pop with
nothing on the stack has never been reported. -/
theorem C13_state_stack_never_underflows (h : Host) (filelinep : VFileLine)
    (yyin : List LexOut) (calls : List ApiCall) :
    (run h filelinep yyin calls).m_states ≠ []
      ∧ (run h filelinep yyin calls).m_states.getLast? = some ps_TOP
      ∧ ((run h filelinep yyin calls).state ≠ ps_TOP →
          2 ≤ (run h filelinep yyin calls).m_states.length)
      ∧ ∀ p ∈ (run h filelinep yyin calls).log, p.2 ≠ Event.error underflowMsg := by
  obtain ⟨h1, h2, h3⟩ := ws_bottom _ (guarded_run h filelinep yyin calls).2.1
  exact ⟨h1, h2, h3, quiet_run h filelinep yyin calls⟩

theorem C13_witness :
    (run (tableHost false) (VFileLine.create [] 0) (nestedInput [])
        [ApiCall.openFile "top.v".toList none, ApiCall.getToken 9, ApiCall.getToken 9,
         ApiCall.getToken 9, ApiCall.getToken 2]).state ≠ ps_TOP
      ∧ (run (tableHost false) (VFileLine.create [] 0) (nestedInput [])
          [ApiCall.openFile "top.v".toList none, ApiCall.getToken 9, ApiCall.getToken 9,
           ApiCall.getToken 9, ApiCall.getToken 2]).m_states = [ps_DEFARG, ps_TOP]
      ∧ 2 ≤ (run (tableHost false) (VFileLine.create [] 0) (nestedInput [])
          [ApiCall.openFile "top.v".toList none, ApiCall.getToken 9, ApiCall.getToken 9,
           ApiCall.getToken 9, ApiCall.getToken 2]).m_states.length :=
  ⟨by decide, by decide,
   (C13_state_stack_never_underflows (tableHost false) (VFileLine.create [] 0) (nestedInput [])
      [ApiCall.openFile "top.v".toList none, ApiCall.getToken 9, ApiCall.getToken 9,
       ApiCall.getToken 9, ApiCall.getToken 2]).2.2.1 (by decide)⟩

/-- C14 fails on the code.  (1) With line directives enabled, a file that leaves a
conditional open: the third `getToken` returns end of input with no scanner left and with
the IfEntry stack not empty, and nothing has been reported.  (2) Without line directives,
the same file followed by an undef directive without a name: end of input is returned, the
IfEntry stack is not empty, and the only report is that of the missing name.  (3) Without
line directives and without the undef the error is reported. -/
theorem C14_unterminated_ifdef_not_reported :
    ((getToken (tableHost true) 9 (afterTokens true unterminatedInput 2)).2 = some VP_EOF
        ∧ (afterTokens true unterminatedInput 3).isEof = true
        ∧ (afterTokens true unterminatedInput 3).m_ifdefStack ≠ []
        ∧ (afterTokens true unterminatedInput 3).log = [])
      ∧ ((getToken (tableHost false) 9
            (afterTokens false (unterminatedInput ++ [lexOut VP_UNDEF ""]) 1)).2 = some VP_EOF
        ∧ (afterTokens false (unterminatedInput ++ [lexOut VP_UNDEF ""]) 2).isEof = true
        ∧ (afterTokens false (unterminatedInput ++ [lexOut VP_UNDEF ""]) 2).m_ifdefStack ≠ []
        ∧ (afterTokens false (unterminatedInput ++ [lexOut VP_UNDEF ""]) 2).log
            = [(1, Event.error (expecting "Expecting define name. Found: " VP_EOF true))])
      ∧ ((getToken (tableHost false) 9 (afterTokens false unterminatedInput 1)).2 = some VP_EOF
        ∧ (afterTokens false unterminatedInput 2).m_ifdefStack ≠ []
        ∧ (afterTokens false unterminatedInput 2).log = [(1, Event.error unterminatedMsg)]) := by
  decide

theorem processToken_ELSE_unmatched (h : Host) (s : VPreProcImp) (rest : List ProcState)
    (hst : s.m_states = ps_TOP :: rest) (hemp : s.m_ifdefStack = []) :
    processToken h s VP_ELSE = (s.error (noMatchingIf "else"), Jump.next_tok) := by
  have hstate : s.state = ps_TOP := by simp [state, hst]
  simp [processToken, stateSwitch, hstate, tokSwitch, caseELSE, hemp]
  rfl

theorem processToken_ENDIF_unmatched (h : Host) (s : VPreProcImp) (rest : List ProcState)
    (hst : s.m_states = ps_TOP :: rest) (hemp : s.m_ifdefStack = []) :
    processToken h s VP_ENDIF = (s.error (noMatchingIf "endif"), Jump.next_tok) := by
  have hstate : s.state = ps_TOP := by simp [state, hst]
  simp [processToken, stateSwitch, hstate, tokSwitch, caseENDIF, hemp]
  rfl

theorem processToken_ELSIF_push (h : Host) (s : VPreProcImp) (rest : List ProcState)
    (hst : s.m_states = ps_TOP :: rest) :
    processToken h s VP_ELSIF = (s.statePush ps_DEFNAME_ELSIF, Jump.next_tok) := by
  have hstate : s.state = ps_TOP := by simp [state, hst]
  simp [processToken, stateSwitch, hstate, tokSwitch]

theorem processToken_ELSIF_unmatched (h : Host) (s : VPreProcImp) (rest : List ProcState)
    (hst : s.m_states = ps_DEFNAME_ELSIF :: ps_TOP :: rest) (hemp : s.m_ifdefStack = []) :
    processToken h s VP_SYMBOL
      = ({ ({ s with m_lastSym := s.yytext }.error (noMatchingIf "elsif")) with
            m_states := ps_TOP :: rest }, Jump.next_tok) := by
  have hstate : s.state = ps_DEFNAME_ELSIF := by simp [state, hst]
  simp [processToken, stateSwitch, hstate, caseDEFNAME, caseELSIF, hemp, statePop, hst, error,
    emit]
  rfl

/-- C15: the loop body of `getToken` in state `ps_TOP` with an empty IfEntry stack.  On an
else token and on an endif token it reports the error with no matching if and goes on to
the next token; the IfEntry stack is still empty, and the off-depth and the parser state
stack are unchanged.  On an elsif token it pushes `ps_DEFNAME_ELSIF`, and when the name
arrives (in a state `s1` with that parser stack and an empty IfEntry stack) it reports the
error; the IfEntry stack is still empty, the off-depth is unchanged, and the parser state
stack is again what it was before the directive. -/
theorem C15_unmatched_directive_reported (h : Host) (s : VPreProcImp) (rest : List ProcState)
    (hst : s.m_states = ps_TOP :: rest) (hemp : s.m_ifdefStack = []) :
    ((processToken h s VP_ELSE).2 = Jump.next_tok
        ∧ (processToken h s VP_ELSE).1.log
            = s.log ++ [(s.m_off, Event.error (noMatchingIf "else"))]
        ∧ (processToken h s VP_ELSE).1.m_ifdefStack = []
        ∧ (processToken h s VP_ELSE).1.m_off = s.m_off
        ∧ (processToken h s VP_ELSE).1.m_states = s.m_states)
      ∧ ((processToken h s VP_ENDIF).2 = Jump.next_tok
        ∧ (processToken h s VP_ENDIF).1.log
            = s.log ++ [(s.m_off, Event.error (noMatchingIf "endif"))]
        ∧ (processToken h s VP_ENDIF).1.m_ifdefStack = []
        ∧ (processToken h s VP_ENDIF).1.m_off = s.m_off
        ∧ (processToken h s VP_ENDIF).1.m_states = s.m_states)
      ∧ ((processToken h s VP_ELSIF).2 = Jump.next_tok
        ∧ (processToken h s VP_ELSIF).1.log = s.log
        ∧ (processToken h s VP_ELSIF).1.m_ifdefStack = []
        ∧ (processToken h s VP_ELSIF).1.m_off = s.m_off
        ∧ (processToken h s VP_ELSIF).1.m_states = ps_DEFNAME_ELSIF :: s.m_states
        ∧ ∀ s1 : VPreProcImp, s1.m_states = ps_DEFNAME_ELSIF :: s.m_states →
            s1.m_ifdefStack = [] →
              (processToken h s1 VP_SYMBOL).2 = Jump.next_tok
              ∧ (processToken h s1 VP_SYMBOL).1.log
                  = s1.log ++ [(s1.m_off, Event.error (noMatchingIf "elsif"))]
              ∧ (processToken h s1 VP_SYMBOL).1.m_ifdefStack = []
              ∧ (processToken h s1 VP_SYMBOL).1.m_off = s1.m_off
              ∧ (processToken h s1 VP_SYMBOL).1.m_states = s.m_states) := by
  refine ⟨?_, ?_, ?_⟩
  · rw [processToken_ELSE_unmatched h s rest hst hemp]
    exact ⟨rfl, rfl, hemp, rfl, rfl⟩
  · rw [processToken_ENDIF_unmatched h s rest hst hemp]
    exact ⟨rfl, rfl, hemp, rfl, rfl⟩
  · rw [processToken_ELSIF_push h s rest hst]
    refine ⟨rfl, rfl, hemp, rfl, rfl, ?_⟩
    intro s1 hst1 hemp1
    rw [hst] at hst1
    rw [processToken_ELSIF_unmatched h s1 rest hst1 hemp1]
    exact ⟨rfl, rfl, hemp1, rfl, hst.symm⟩

theorem C15_witness :
    (opened (tableHost false) []).m_states = [ps_TOP]
      ∧ (opened (tableHost false) []).m_ifdefStack = []
      ∧ (processToken (tableHost false) (opened (tableHost false) []) VP_ELSE).1.log
          = [(0, Event.error (noMatchingIf "else"))]
      ∧ (run (tableHost false) (VFileLine.create [] 0)
            [lexOut VP_ELSE "", lexOut VP_ELSIF "", lexOut VP_SYMBOL "A", lexOut VP_ENDIF ""]
            [ApiCall.openFile "top.v".toList none, ApiCall.getToken 9]).log
          = [(0, Event.error (noMatchingIf "else")), (0, Event.error (noMatchingIf "elsif")),
             (0, Event.error (noMatchingIf "endif"))]
      ∧ (run (tableHost false) (VFileLine.create [] 0)
            [lexOut VP_ELSE "", lexOut VP_ELSIF "", lexOut VP_SYMBOL "A", lexOut VP_ENDIF ""]
            [ApiCall.openFile "top.v".toList none, ApiCall.getToken 9]).m_states = [ps_TOP] :=
  ⟨by decide, by decide,
   (C15_unmatched_directive_reported (tableHost false) (opened (tableHost false) []) []
      (by decide) (by decide)).1.2.1.trans (by decide),
   by decide, by decide⟩

@[simp]
theorem emit_m_lineChars (s : VPreProcImp) (e : Event) :
    (s.emit e).m_lineChars = s.m_lineChars := rfl

@[simp]
theorem error_m_lineChars (s : VPreProcImp) (m : List Char) :
    (s.error m).m_lineChars = s.m_lineChars := rfl

@[simp]
theorem fatalSrc_m_lineChars (s : VPreProcImp) (m : List Char) :
    (s.fatalSrc m).m_lineChars = s.m_lineChars := rfl

@[simp]
theorem insertUnreadback_m_lineChars (s : VPreProcImp) (t : List Char) :
    (s.insertUnreadback t).m_lineChars = s.m_lineChars := rfl

@[simp]
theorem insertUnreadbackAtBol_m_lineChars (s : VPreProcImp) (t : List Char) :
    (s.insertUnreadbackAtBol t).m_lineChars = s.m_lineChars := by
  unfold insertUnreadbackAtBol
  (try dsimp only)
  split_ifs <;> simp

@[simp]
theorem addLineComment_m_lineChars (h : Host) (s : VPreProcImp) (l : Int) :
    (addLineComment h s l).m_lineChars = s.m_lineChars := by
  unfold addLineComment
  (try dsimp only)
  split_ifs <;> simp

@[simp]
theorem parsingOn_m_lineChars (h : Host) (s : VPreProcImp) :
    (parsingOn h s).m_lineChars = s.m_lineChars := by
  unfold parsingOn
  (try dsimp only)
  split_ifs <;> simp

@[simp]
theorem parsingOff_m_lineChars (s : VPreProcImp) :
    (s.parsingOff).m_lineChars = s.m_lineChars := rfl

@[simp]
theorem statePush_m_lineChars (s : VPreProcImp) (st : ProcState) :
    (s.statePush st).m_lineChars = s.m_lineChars := rfl

@[simp]
theorem statePop_m_lineChars (s : VPreProcImp) :
    (s.statePop).m_lineChars = s.m_lineChars := by
  unfold statePop
  (try dsimp only)
  split_ifs <;> simp

@[simp]
theorem stateChange_m_lineChars (s : VPreProcImp) (st : ProcState) :
    (s.stateChange st).m_lineChars = s.m_lineChars := by
  simp [stateChange]

@[simp]
theorem onLex_m_lineChars (s : VPreProcImp) (f : VPreLex → VPreLex) :
    (s.onLex f).m_lineChars = s.m_lineChars := rfl

@[simp]
theorem onTopRef_m_lineChars (s : VPreProcImp) (f : VPreDefRef → VPreDefRef) :
    (s.onTopRef f).m_lineChars = s.m_lineChars := rfl

@[simp]
theorem unputString_m_lineChars (s : VPreProcImp) (t : List Char) :
    (s.unputString t).m_lineChars = s.m_lineChars := by
  unfold unputString
  (try dsimp only)
  split_ifs <;> simp

@[simp]
theorem noteBol_m_lineChars (s : VPreProcImp) :
    (s.noteBol).m_lineChars = s.m_lineChars := by
  unfold noteBol
  (try dsimp only)
  split_ifs <;> simp

@[simp]
theorem yylex_m_lineChars (s : VPreProcImp) :
    (s.yylex.1).m_lineChars = s.m_lineChars := by
  unfold yylex
  split <;> simp

@[simp]
theorem takeLineAdd_m_lineChars (s : VPreProcImp) :
    (s.takeLineAdd).m_lineChars = s.m_lineChars := rfl

@[simp]
theorem takeLineCmt_m_lineChars (s : VPreProcImp) :
    (s.takeLineCmt).m_lineChars = s.m_lineChars := by
  simp [takeLineCmt]

@[simp]
theorem lexToken_m_lineChars (s : VPreProcImp) :
    (s.lexToken.1).m_lineChars = s.m_lineChars := by
  simp [lexToken]

@[simp]
theorem ifdefBlock_m_lineChars (s : VPreProcImp) (enable : Bool) :
    (s.ifdefBlock enable).m_lineChars = s.m_lineChars := by
  unfold ifdefBlock
  (try dsimp only)
  split_ifs <;> simp

@[simp]
theorem elsifBlock_m_lineChars (h : Host) (s : VPreProcImp) (lastIf : VPreIfEntry) (rest : List VPreIfEntry) :
    (elsifBlock h s lastIf rest).m_lineChars = s.m_lineChars := by
  unfold elsifBlock
  (try dsimp only)
  split_ifs <;> simp

@[simp]
theorem elseBlock_m_lineChars (h : Host) (s : VPreProcImp) (lastIf : VPreIfEntry) (rest : List VPreIfEntry) :
    (elseBlock h s lastIf rest).m_lineChars = s.m_lineChars := by
  unfold elseBlock
  (try dsimp only)
  split_ifs <;> simp

@[simp]
theorem endifBlock_m_lineChars (h : Host) (s : VPreProcImp) (lastIf : VPreIfEntry) (rest : List VPreIfEntry) :
    (endifBlock h s lastIf rest).m_lineChars = s.m_lineChars := by
  unfold endifBlock
  (try dsimp only)
  split_ifs <;> simp

@[simp]
theorem caseELSIF_m_lineChars (h : Host) (s : VPreProcImp) :
    (caseELSIF h s).m_lineChars = s.m_lineChars := by
  unfold caseELSIF
  split <;> simp

@[simp]
theorem caseELSE_m_lineChars (h : Host) (s : VPreProcImp) :
    (caseELSE h s).m_lineChars = s.m_lineChars := by
  unfold caseELSE
  split <;> simp

@[simp]
theorem caseENDIF_m_lineChars (h : Host) (s : VPreProcImp) :
    (caseENDIF h s).m_lineChars = s.m_lineChars := by
  unfold caseENDIF
  split <;> simp

theorem foldl_error_m_lineChars (msgs : List (List Char)) (s : VPreProcImp) :
    (msgs.foldl (fun s msg => s.error msg) s).m_lineChars = s.m_lineChars := by
  rw [foldl_error_eq]

theorem foldl_scan_m_lineChars (slabs : List (List Char)) (s : VPreProcImp) :
    (slabs.foldl (fun s slab => s.onLex (fun l => l.scanBytesBack (stripSlab slab))) s).m_lineChars
      = s.m_lineChars := by
  induction slabs generalizing s with
  | nil => rfl
  | cons m ms ih => simp [List.foldl, ih]

@[simp]
theorem openFile_m_lineChars (h : Host) (s : VPreProcImp) (f : List Char)
    (fl : Option VFileLine) : (openFile h s f fl).m_lineChars = s.m_lineChars := by
  cases fl <;>
  · unfold openFile
    dsimp only
    split
    · rfl
    · split
      · rfl
      · rename_i s1 hp
        rw [foldl_scan_m_lineChars, addLineComment_m_lineChars]
        split at hp
        · split at hp
          · cases hp
          · simp only [Option.some.injEq] at hp
            subst hp
            simp
        · simp only [Option.some.injEq] at hp
          subst hp
          rfl

@[simp]
theorem hostInclude_m_lineChars (h : Host) (s : VPreProcImp) (n : List Char) :
    (hostInclude h s n).m_lineChars = s.m_lineChars := by
  unfold hostInclude
  dsimp only
  split <;> simp

@[simp]
theorem eof_m_lineChars (h : Host) (s : VPreProcImp) :
    (eof h s).m_lineChars = s.m_lineChars := by
  unfold eof
  dsimp only
  split
  · rfl
  · split
    · show (addLineComment h s 2).m_lineChars = _
      simp
    · split
      · rw [fatalSrc_m_lineChars, addLineComment_m_lineChars]
        show (addLineComment h s 2).m_lineChars = _
        simp
      · rw [addLineComment_m_lineChars]
        show (addLineComment h s 2).m_lineChars = _
        simp

theorem getRawToken_m_lineChars (h : Host) : ∀ (fuel : Nat) (s : VPreProcImp),
    (getRawToken h fuel s).1.m_lineChars = s.m_lineChars
  | 0, s => rfl
  | fuel + 1, s => by
    rw [getRawToken]
    split_ifs
    · rfl
    · rw [getRawToken_m_lineChars h fuel]; simp
    · simp
    · rfl
    · rw [getRawToken_m_lineChars h fuel]; simp
    · simp

@[simp]
theorem caseDEFNAME_m_lineChars (h : Host) (s : VPreProcImp) (st : ProcState)
    (tok : VPTok) : (caseDEFNAME h s st tok).1.m_lineChars = s.m_lineChars := by
  unfold caseDEFNAME
  dsimp only
  split_ifs <;> simp

@[simp]
theorem caseDEFFORM_m_lineChars (s : VPreProcImp) (tok : VPTok) :
    (caseDEFFORM s tok).1.m_lineChars = s.m_lineChars := by
  unfold caseDEFFORM
  dsimp only
  split_ifs <;> simp

@[simp]
theorem caseDEFVALUE_m_lineChars (s : VPreProcImp) (tok : VPTok) :
    (caseDEFVALUE s tok).1.m_lineChars = s.m_lineChars := by
  unfold caseDEFVALUE
  dsimp only
  split_ifs <;> simp

@[simp]
theorem caseDEFPAREN_m_lineChars (s : VPreProcImp) (tok : VPTok) :
    (caseDEFPAREN s tok).1.m_lineChars = s.m_lineChars := by
  unfold caseDEFPAREN
  dsimp only
  split_ifs <;> simp

@[simp]
theorem caseDEFARG_m_lineChars (h : Host) (s : VPreProcImp) (tok : VPTok) :
    (caseDEFARG h s tok).1.m_lineChars = s.m_lineChars := by
  unfold caseDEFARG
  dsimp only
  split_ifs <;> simp [foldl_error_m_lineChars]

@[simp]
theorem caseINCNAME_m_lineChars (h : Host) (s : VPreProcImp) (tok : VPTok) :
    (caseINCNAME h s tok).1.m_lineChars = s.m_lineChars := by
  unfold caseINCNAME
  dsimp only
  split_ifs <;> simp

@[simp]
theorem caseERRORNAME_m_lineChars (s : VPreProcImp) (tok : VPTok) :
    (caseERRORNAME s tok).1.m_lineChars = s.m_lineChars := by
  unfold caseERRORNAME
  dsimp only
  split_ifs <;> simp

@[simp]
theorem stateSwitch_m_lineChars (h : Host) (s : VPreProcImp) (tok : VPTok) :
    (stateSwitch h s tok).1.m_lineChars = s.m_lineChars := by
  unfold stateSwitch
  split <;> simp

@[simp]
theorem caseDEFREF_m_lineChars (h : Host) (s : VPreProcImp) :
    (caseDEFREF h s).1.m_lineChars = s.m_lineChars := by
  unfold caseDEFREF
  dsimp only
  split_ifs <;> simp

@[simp]
theorem tokSwitch_m_lineChars (h : Host) (s : VPreProcImp) (tok : VPTok) :
    (tokSwitch h s tok).1.m_lineChars = s.m_lineChars := by
  unfold tokSwitch
  split
  all_goals (try dsimp only)
  all_goals (try split_ifs)
  all_goals simp

@[simp]
theorem caseCOMMENT_m_lineChars (s : VPreProcImp) (tok : VPTok) :
    (caseCOMMENT s tok).1.m_lineChars = s.m_lineChars := by
  unfold caseCOMMENT
  dsimp only
  split_ifs <;> simp

@[simp]
theorem processToken_m_lineChars (h : Host) (s : VPreProcImp) (tok : VPTok) :
    (processToken h s tok).1.m_lineChars = s.m_lineChars := by
  unfold processToken
  split_ifs
  · rfl
  · simp
  · simp
  · have h1 := stateSwitch_m_lineChars h s tok
    split
    · rename_i s1 heq
      rw [heq] at h1
      rw [tokSwitch_m_lineChars]; exact h1
    · exact h1

theorem getToken_m_lineChars (h : Host) : ∀ (fuel : Nat) (s : VPreProcImp),
    (getToken h fuel s).1.m_lineChars = s.m_lineChars
  | 0, s => rfl
  | fuel + 1, s => by
    rw [getToken]
    split_ifs
    · rfl
    · have h1 := getRawToken_m_lineChars h (fuel + 1) s
      split
      · rename_i s1 heq
        rw [heq] at h1; exact h1
      · rename_i s1 tok heq
        rw [heq] at h1
        have h2 := processToken_m_lineChars h s1 tok
        split
        · rename_i s2 t heq2
          rw [heq2] at h2; rw [h2, h1]
        · rename_i s2 j hne heq2
          rw [heq2] at h2
          rw [getToken_m_lineChars h fuel s2, h2, h1]

theorem c_str_noNUL (l : List Char) : NUL ∉ c_str l := by
  unfold c_str
  intro hin
  have := List.mem_takeWhile_imp hin
  simp at this

theorem strchr_some (c : Char) : ∀ (l : List Char) (i : Nat), strchr c l = some i →
    ∃ body, l.take (i + 1) = body ++ [c] ∧ c ∉ body ∧ body.length = i
  | [], i, hs => by simp [strchr] at hs
  | x :: rest, i, hs => by
    rw [strchr] at hs
    split_ifs at hs with h1 h2
    · simp only [Option.some.injEq] at hs
      subst hs
      refine ⟨[], ?_, by simp, rfl⟩
      simp only [beq_iff_eq] at h2
      simp [h2]
    · cases hr : strchr c rest with
      | none => simp [hr] at hs
      | some j =>
        simp only [hr, Option.map_some', Option.some.injEq] at hs
        subst hs
        obtain ⟨body, hb1, hb2, hb3⟩ := strchr_some c rest j hr
        refine ⟨x :: body, ?_, ?_, by simp [hb3]⟩
        · simp [hb1]
        · simp only [List.mem_cons, not_or]
          refine ⟨?_, hb2⟩
          intro hcx
          apply h2
          simp [hcx]

theorem strchr_none (c : Char) : ∀ (l : List Char), NUL ∉ l → strchr c l = none → c ∉ l
  | [], _, _ => by simp
  | x :: rest, hn, hs => by
    rw [strchr] at hs
    simp only [List.mem_cons, not_or] at hn
    split_ifs at hs with h1 h2
    · exact absurd (by simpa using h1 : x = NUL).symm hn.1
    · simp only [Option.map_eq_none'] at hs
      have := strchr_none c rest hn.2 hs
      simp only [List.mem_cons, not_or]
      refine ⟨?_, this⟩
      intro hcx
      apply h2
      simp [hcx]

theorem strchr_append_self (c : Char) (hc : c ≠ NUL) : ∀ (l : List Char), NUL ∉ l → c ∉ l →
    strchr c (l ++ [c]) = some l.length
  | [], _, _ => by simp [strchr, hc]
  | x :: rest, hn, hl => by
    simp only [List.mem_cons, not_or] at hn hl
    have h1 : (x == NUL) = false := by
      simp only [beq_eq_false_iff_ne, ne_eq]
      exact fun e => hn.1 e.symm
    have h2 : (x == c) = false := by
      simp only [beq_eq_false_iff_ne, ne_eq]
      exact fun e => hl.1 e.symm
    simp [strchr, h1, h2, strchr_append_self c hc rest hn.2 hl.2]

theorem lineBufOK_bufferToken (s : VPreProcImp) (tok : VPTok) (hs : LineBufOK s) :
    LineBufOK (bufferToken s tok).1 := by
  unfold bufferToken LineBufOK
  split_ifs
  · simp only [List.mem_append, List.mem_singleton, not_or]
    exact ⟨hs, by decide⟩
  · exact hs
  · simp only [List.mem_append, not_or]
    exact ⟨hs, c_str_noNUL _⟩

theorem bufferToken_eof (s : VPreProcImp) (tok : VPTok) (hg : (bufferToken s tok).2 = true) :
    (bufferToken s tok).1.m_lineChars = []
      ∨ (bufferToken s tok).1.m_lineChars.getLast? = some NL := by
  unfold bufferToken at hg ⊢
  split_ifs at hg ⊢ with h1 h2
  · right; simp
  · simp only [Bool.and_eq_true, bne_iff_ne, ne_eq, not_and, not_not] at h2
    by_cases he : s.m_lineChars = []
    · left; exact he
    · right; exact h2 he

theorem fillLine_spec (h : Host) (st : Bool) (n : Nat) : ∀ (fuel : Nat) (s s1 : VPreProcImp)
    (g : Bool), fillLine h st n fuel s = (s1, some g) → LineBufOK s →
      LineBufOK s1 ∧ (g = false → needMore st n s1 = false)
        ∧ (g = true → s1.m_lineChars = [] ∨ s1.m_lineChars.getLast? = some NL)
  | 0, s, s1, g, hf, _ => by simp [fillLine] at hf
  | fuel + 1, s, s1, g, hf, hs => by
    rw [fillLine] at hf
    split_ifs at hf with hmore
    · have hl := getToken_m_lineChars h (fuel + 1) s
      split at hf
      · cases hf
      · rename_i s2 tok heq
        rw [heq] at hl
        have hs2 : LineBufOK s2 := by
          unfold LineBufOK; rw [hl]; exact hs
        split_ifs at hf with hg
        · simp only [Prod.mk.injEq, Option.some.injEq] at hf
          obtain ⟨e1, e2⟩ := hf
          subst e1 e2
          exact ⟨lineBufOK_bufferToken _ _ hs2, fun hc => (by cases hc),
            fun _ => bufferToken_eof _ _ hg⟩
        · exact fillLine_spec h st n fuel _ s1 g hf (lineBufOK_bufferToken _ _ hs2)
    · simp only [Prod.mk.injEq, Option.some.injEq] at hf
      obtain ⟨e1, e2⟩ := hf
      subst e1 e2
      exact ⟨hs, fun _ => by simpa using hmore, fun hc => by cases hc⟩

theorem lineBufOK_drop (s : VPreProcImp) (k : Nat) (hs : LineBufOK s) :
    LineBufOK { s with m_lineChars := s.m_lineChars.drop k } := by
  unfold LineBufOK at hs ⊢
  exact fun hin => hs (List.mem_of_mem_drop hin)

theorem cut_isLine (l : List Char) (g : Bool) (hn : NUL ∉ l)
    (h1 : g = false → (strchr NL l).isNone = false)
    (h2 : g = true → l = [] ∨ l.getLast? = some NL) :
    IsLine (l.take (lineLen true l)) := by
  unfold lineLen
  simp only [if_true]
  cases hr : strchr NL l with
  | some i =>
    obtain ⟨body, hb1, hb2, _⟩ := strchr_some NL l i hr
    exact Or.inr ⟨body, hb1, hb2⟩
  | none =>
    cases g with
    | false => simp [hr] at h1
    | true =>
      have hnl := strchr_none NL l hn hr
      rcases h2 rfl with he | he
      · left; simp [he]
      · exact absurd (List.mem_of_getLast?_eq_some he) hnl

theorem parseLoop_spec (h : Host) (n : Nat) : ∀ (fuel : Nat) (s s1 : VPreProcImp)
    (line : List Char), parseLoop h true n fuel s = (s1, some line) → LineBufOK s →
      LineBufOK s1 ∧ IsLine line
  | 0, s, s1, line, hp, _ => by simp [parseLoop] at hp
  | fuel + 1, s, s1, line, hp, hs => by
    rw [parseLoop] at hp
    split at hp
    · cases hp
    · rename_i s2 g heq
      obtain ⟨hb, hg1, hg2⟩ := fillLine_spec h true n (fuel + 1) s s2 g heq hs
      split_ifs at hp
      · exact parseLoop_spec h n fuel _ s1 line hp (lineBufOK_drop _ _ hb)
      · simp only [Prod.mk.injEq, Option.some.injEq] at hp
        obtain ⟨e1, e2⟩ := hp
        subst e1 e2
        refine ⟨lineBufOK_drop _ _ hb, cut_isLine _ g hb ?_ hg2⟩
        intro hgf
        have := hg1 hgf
        simpa [needMore] using this

theorem lineBufOK_fillLine (h : Host) (st : Bool) (n : Nat) : ∀ (fuel : Nat) (s : VPreProcImp),
    LineBufOK s → LineBufOK (fillLine h st n fuel s).1
  | 0, s, hs => hs
  | fuel + 1, s, hs => by
    rw [fillLine]
    split_ifs
    · have hl := getToken_m_lineChars h (fuel + 1) s
      split
      · rename_i s1 heq
        rw [heq] at hl
        unfold LineBufOK; rw [hl]; exact hs
      · rename_i s1 tok heq
        rw [heq] at hl
        have hs1 : LineBufOK s1 := by
          unfold LineBufOK; rw [hl]; exact hs
        split_ifs
        · exact lineBufOK_bufferToken _ _ hs1
        · exact lineBufOK_fillLine h st n fuel _ (lineBufOK_bufferToken _ _ hs1)
    · exact hs

theorem lineBufOK_parseLoop (h : Host) (st : Bool) (n : Nat) : ∀ (fuel : Nat) (s : VPreProcImp),
    LineBufOK s → LineBufOK (parseLoop h st n fuel s).1
  | 0, s, hs => hs
  | fuel + 1, s, hs => by
    rw [parseLoop]
    have h1 := lineBufOK_fillLine h st n (fuel + 1) s hs
    split
    · rename_i s1 heq
      rw [heq] at h1; exact h1
    · rename_i s1 g heq
      rw [heq] at h1
      split_ifs
      · exact lineBufOK_parseLoop h st n fuel _ (lineBufOK_drop _ _ h1)
      · exact lineBufOK_drop _ _ h1

theorem lineBufOK_call (h : Host) (s : VPreProcImp) (c : ApiCall) (hs : LineBufOK s) :
    LineBufOK (call h s c) := by
  cases c with
  | getToken fuel =>
    unfold LineBufOK
    simp only [call]
    rw [getToken_m_lineChars]; exact hs
  | openFile f fl =>
    unfold LineBufOK
    simp only [call]
    rw [openFile_m_lineChars]; exact hs
  | insertUnreadback t => exact hs
  | getparseline st n fuel =>
    simp only [call, getparseline]
    split_ifs
    · exact hs
    · exact lineBufOK_parseLoop h st n fuel s hs

theorem lineBufOK_run (h : Host) (filelinep : VFileLine) (yyin : List LexOut)
    (calls : List ApiCall) : LineBufOK (run h filelinep yyin calls) := by
  have key : ∀ (calls : List ApiCall) (s : VPreProcImp), LineBufOK s →
      LineBufOK (calls.foldl (call h) s) := by
    intro calls
    induction calls with
    | nil => intro s hs; exact hs
    | cons c cs ih => intro s hs; exact ih _ (lineBufOK_call h s c hs)
  exact key calls _ (by simp [LineBufOK, VPreProcImp.new])

theorem getparseline_eof_tail (h : Host) (n fuel : Nat) (s s1 : VPreProcImp)
    (hb : LineBufOK s) (heof : s.isEof = false) (hne : s.m_lineChars ≠ [])
    (hnl : NL ∉ s.m_lineChars) (hg : getToken h (fuel + 1) s = (s1, some VP_EOF)) :
    getparseline h true n (fuel + 1) s
      = ({ s1 with m_lineChars := [] }, some (s.m_lineChars ++ [NL])) := by
  have hl : s1.m_lineChars = s.m_lineChars := by
    have := getToken_m_lineChars h (fuel + 1) s
    rw [hg] at this
    exact this
  have hlast : s.m_lineChars.getLast? ≠ some NL :=
    fun he => hnl (List.mem_of_getLast?_eq_some he)
  have hnone : strchr NL s.m_lineChars = none := by
    cases hr : strchr NL s.m_lineChars with
    | none => rfl
    | some i =>
      obtain ⟨body, hb1, _, _⟩ := strchr_some NL _ i hr
      have : NL ∈ s.m_lineChars.take (i + 1) := by rw [hb1]; simp
      exact absurd (List.mem_of_mem_take this) hnl
  have hbt : bufferToken s1 VP_EOF
      = ({ s1 with m_lineChars := s.m_lineChars ++ [NL] }, true) := by
    unfold bufferToken
    simp [hl, hne, hlast]
  have hfill : fillLine h true n (fuel + 1) s
      = ({ s1 with m_lineChars := s.m_lineChars ++ [NL] }, some true) := by
    rw [fillLine]
    simp [needMore, hnone, hg, hbt]
  have hsome : strchr NL (s.m_lineChars ++ [NL]) = some s.m_lineChars.length :=
    strchr_append_self NL (by decide) _ hb hnl
  unfold getparseline
  rw [if_neg (by simp [heof]), parseLoop, hfill]
  simp [lineLen, hsome, skipLine]

/-- C16: in every state that a freshly constructed preprocessor reaches by any sequence of
calls, whatever the scanner delivers and the host answers: (1) a string that
`getparseline` with `stop_at_eol` true returns is empty, or is a text without a newline
followed by one newline; (2) when a scanner is open, the line buffer holds a non-empty text
without a newline, and the next `getToken` returns end of input, `getparseline` returns
that text with one newline appended and leaves the buffer empty. -/
theorem C16_getline_returns_single_lines (h : Host) (filelinep : VFileLine)
    (yyin : List LexOut) (calls : List ApiCall) (approx_chunk fuel : Nat) :
    (∀ line : List Char,
        (getparseline h true approx_chunk fuel (run h filelinep yyin calls)).2 = some line →
          IsLine line)
      ∧ (∀ s1 : VPreProcImp, (run h filelinep yyin calls).isEof = false →
          (run h filelinep yyin calls).m_lineChars ≠ [] →
          NL ∉ (run h filelinep yyin calls).m_lineChars →
          getToken h (fuel + 1) (run h filelinep yyin calls) = (s1, some VP_EOF) →
            getparseline h true approx_chunk (fuel + 1) (run h filelinep yyin calls)
              = ({ s1 with m_lineChars := [] },
                  some ((run h filelinep yyin calls).m_lineChars ++ [NL]))) := by
  have hb := lineBufOK_run h filelinep yyin calls
  refine ⟨?_, ?_⟩
  · intro line hl
    unfold getparseline at hl
    split_ifs at hl
    · simp only [Option.some.injEq] at hl
      exact Or.inl hl.symm
    · exact (parseLoop_spec h approx_chunk fuel _ _ line (by rw [← hl]) hb).2
  · intro s1 heof hne hnl hg
    exact getparseline_eof_tail h approx_chunk fuel _ s1 hb heof hne hnl hg

theorem C16_witness :
    ((getparseline (tableHost false) true 0 9 (opened (tableHost false)
          [lexOut VP_TEXT "a\nb"])).2 = some "a\n".toList ∧ IsLine "a\n".toList)
      ∧ (tailState.isEof = false ∧ tailState.m_lineChars = ['b']
          ∧ (getToken (tableHost false) 9 tailState).2 = some VP_EOF
          ∧ (getparseline (tableHost false) true 0 9 tailState).2 = some "b\n".toList) :=
  ⟨⟨by decide,
    (C16_getline_returns_single_lines (tableHost false) (VFileLine.create [] 0)
      [lexOut VP_TEXT "a\nb"] [ApiCall.openFile "top.v".toList none] 0 9).1 _ (by decide)⟩,
   by decide, by decide, by decide,
    (congrArg Prod.snd ((C16_getline_returns_single_lines (tableHost false)
      (VFileLine.create [] 0) [lexOut VP_TEXT "a\nb"]
      [ApiCall.openFile "top.v".toList none, ApiCall.getparseline true 0 9] 0 8).2
        (getToken (tableHost false) 9 tailState).1 (by decide) (by decide) (by decide)
        (by decide))).trans (by decide)⟩

theorem trimWhitespace_trailing (l : List Char) : trimWhitespace l true = strip l := by
  have hlead : (if leadspace l != 0 then l.drop (leadspace l) else l) = l.dropWhile isspace := by
    have := trimWhitespace_leading l
    unfold trimWhitespace at this
    simpa using this
  unfold trimWhitespace strip
  simp only [if_true]
  rw [hlead]
  generalize l.dropWhile isspace = out
  have hd : out.take (out.length - trailspace out) = (out.reverse.dropWhile isspace).reverse := by
    unfold trailspace
    rw [← drop_leadspace, List.drop_reverse, List.reverse_reverse]
  by_cases ht : trailspace out = 0
  · simp only [ht, bne_self_eq_false, Bool.false_eq_true, if_false]
    rw [← hd, ht]
    simp
  · simp only [bne_iff_ne, ne_eq, ht, not_false_eq_true, if_true]
    exact hd

theorem strip_head (l : List Char) (c : Char) (hc : (strip l).head? = some c) :
    isspace c = false := by
  unfold strip at hc
  have hsub : ((l.dropWhile isspace).reverse.dropWhile isspace).reverse
      <+: l.dropWhile isspace := by
    have := List.dropWhile_suffix isspace (l := (l.dropWhile isspace).reverse)
    have h2 := List.reverse_prefix.mpr this
    simpa using h2
  obtain ⟨t, ht⟩ := hsub
  have h1 := List.head?_dropWhile_not isspace l
  rw [← ht] at h1
  cases hx : ((l.dropWhile isspace).reverse.dropWhile isspace).reverse with
  | nil => rw [hx] at hc; simp at hc
  | cons x xs =>
    rw [hx] at hc h1
    simp only [List.head?_cons, Option.some.injEq] at hc
    subst hc
    simpa using h1

theorem strip_last (l : List Char) (c : Char) (hc : (strip l).getLast? = some c) :
    isspace c = false := by
  unfold strip at hc
  rw [List.getLast?_reverse] at hc
  have h1 := List.head?_dropWhile_not isspace (l.dropWhile isspace).reverse
  rw [hc] at h1
  simpa using h1

theorem strip_sub (l : List Char) (c : Char) (hc : c ∈ strip l) : c ∈ l := by
  unfold strip at hc
  rw [List.mem_reverse] at hc
  have h1 := (List.dropWhile_sublist isspace).subset hc
  rw [List.mem_reverse] at h1
  exact (List.dropWhile_sublist isspace).subset h1

theorem unNewline_noNL (l : List Char) : NL ∉ unNewline l := by
  unfold unNewline
  intro hin
  rw [List.mem_map] at hin
  obtain ⟨c, _, hc⟩ := hin
  split_ifs at hc with h1
  · revert hc; decide
  · apply h1
    simp [hc]

theorem owedNewlines_eq (l : List Char) : owedNewlines l = List.replicate (l.count NL) NL := by
  unfold owedNewlines
  exact List.filter_beq l NL

theorem processToken_DEFVALUE (h : Host) (s : VPreProcImp) (hst : s.state = ps_DEFVALUE) :
    processToken h s VP_DEFVALUE
      = ({ (if s.m_off == 0 then
              s.emit (Event.define s.m_lastSym (trimWhitespace (unNewline s.lexp.m_defValue) true)
                (unNewline s.m_formals))
            else s).statePop with
            yytext := [NL] ++ owedNewlines s.m_formals ++ owedNewlines s.lexp.m_defValue },
          Jump.ret VP_WHITE) := by
  simp [processToken, stateSwitch, hst, caseDEFVALUE]

theorem statePop_yytext (s : VPreProcImp) : s.statePop.yytext = s.yytext := by
  unfold statePop; dsimp only; split_ifs <;> rfl

theorem statePop_log_of_two (s : VPreProcImp) (hlen : 2 ≤ s.m_states.length) :
    s.statePop.log = s.log := by
  unfold statePop
  dsimp only
  rw [if_neg]
  cases hx : s.m_states with
  | nil => rw [hx] at hlen; simp at hlen
  | cons x rest =>
    cases rest with
    | nil => rw [hx] at hlen; simp at hlen
    | cons y ys => simp

/-- C17 as stated fails: for the definition of `A` as `1`, whose formals and body hold no
newline, so that no newline is rewritten, `getToken` returns a WHITE token whose text is
one newline. -/
theorem C17_counterexample :
    (getToken (tableHost false) 9 plainDefineState).2 = some VP_WHITE
      ∧ (getToken (tableHost false) 9 plainDefineState).1.log
          = [(0, Event.define ['A'] ['1'] [])]
      ∧ (getToken (tableHost false) 9 plainDefineState).1.yytext = [NL]
      ∧ ([] : List Char).count NL + ['1'].count NL = 0
      ∧ ((getToken (tableHost false) 9 plainDefineState).1.yytext.length
          ≠ ([] : List Char).count NL + ['1'].count NL) := by
  decide

/-- C17, amended: `getToken` reads a DEFVALUE token in state `ps_DEFVALUE` (state `s1` is the
one in which the token has been read, with the captured formals in `m_formals` and the
captured body in the scanner's `m_defValue`).  Then `getToken` returns WHITE, and the token
text consists of newlines only, one more than the newlines in the captured formals and body,
each of which the rewrite replaces by a space. -/
theorem C17_define_returns_owed_newlines (h : Host) (fuel : Nat) (s s1 : VPreProcImp)
    (hraw : getRawToken h (fuel + 1) s = (s1, some VP_DEFVALUE))
    (hst : s1.state = ps_DEFVALUE) :
    (getToken h (fuel + 1) s).2 = some VP_WHITE
      ∧ (getToken h (fuel + 1) s).1.yytext
          = List.replicate (1 + s1.m_formals.count NL + s1.lexp.m_defValue.count NL) NL
      ∧ (unNewline s1.m_formals).count NL = 0 ∧ (unNewline s1.lexp.m_defValue).count NL = 0
      ∧ (unNewline s1.m_formals).length = s1.m_formals.length
      ∧ (unNewline s1.lexp.m_defValue).length = s1.lexp.m_defValue.length := by
  have heof := getRawToken_lexed h (fuel + 1) s s1 VP_DEFVALUE hraw (by decide) (by decide)
    (by decide)
  rw [getToken_of_ret h fuel s s1 _ VP_DEFVALUE VP_WHITE heof hraw
    (processToken_DEFVALUE h s1 hst)]
  refine ⟨rfl, ?_, List.count_eq_zero.mpr (unNewline_noNL _),
    List.count_eq_zero.mpr (unNewline_noNL _), by simp [unNewline], by simp [unNewline]⟩
  show [NL] ++ owedNewlines s1.m_formals ++ owedNewlines s1.lexp.m_defValue = _
  rw [owedNewlines_eq, owedNewlines_eq, Nat.add_assoc, List.replicate_add, List.replicate_add]
  simp

theorem C17_witness :
    getRawToken (tableHost false) 9 formalsReadState
        = ((getRawToken (tableHost false) 9 formalsReadState).1, some VP_DEFVALUE)
      ∧ (getRawToken (tableHost false) 9 formalsReadState).1.state = ps_DEFVALUE
      ∧ (getRawToken (tableHost false) 9 formalsReadState).1.m_formals = "(a,\nb)".toList
      ∧ (getRawToken (tableHost false) 9 formalsReadState).1.lexp.m_defValue = "a\n+b \n".toList
      ∧ (getToken (tableHost false) 9 formalsReadState).1.yytext = [NL, NL, NL, NL] :=
  ⟨by decide, by decide, by decide, by decide,
   (C17_define_returns_owed_newlines (tableHost false) 8 formalsReadState
      (getRawToken (tableHost false) 9 formalsReadState).1 (by decide) (by decide)).2.1.trans
     (by decide)⟩

/-- C18: from any state that a freshly constructed preprocessor reaches by any sequence of
calls, `getToken` reads a DEFVALUE token in state `ps_DEFVALUE` at off-depth zero (state
`s1` is the one in which the token has been read).  Then exactly one call is added to the
record, the host's `define` of the last symbol with the formals and with the value
`defineValue body`: the captured body with every newline replaced by a space and then
without its leading and trailing white space.  The value holds no newline and neither
starts nor ends with white space. -/
theorem C18_define_value_is_trimmed (h : Host) (filelinep : VFileLine) (yyin : List LexOut)
    (calls : List ApiCall) (fuel : Nat) (s1 : VPreProcImp)
    (hraw : getRawToken h (fuel + 1) (run h filelinep yyin calls) = (s1, some VP_DEFVALUE))
    (hst : s1.state = ps_DEFVALUE) (hoff : s1.m_off = 0) :
    (getToken h (fuel + 1) (run h filelinep yyin calls)).1.log
        = s1.log ++ [(0, Event.define s1.m_lastSym (defineValue s1.lexp.m_defValue)
            (unNewline s1.m_formals))]
      ∧ NL ∉ defineValue s1.lexp.m_defValue
      ∧ (∀ c, (defineValue s1.lexp.m_defValue).head? = some c → isspace c = false)
      ∧ (∀ c, (defineValue s1.lexp.m_defValue).getLast? = some c → isspace c = false) := by
  have heof := getRawToken_lexed h (fuel + 1) _ s1 VP_DEFVALUE hraw (by decide) (by decide)
    (by decide)
  have hg : Guarded s1 := by
    have := guarded_getRawToken h (fuel + 1) _ (guarded_run h filelinep yyin calls)
    rw [hraw] at this
    exact this
  have hlen : 2 ≤ s1.m_states.length :=
    (ws_bottom _ hg.2.1).2.2 (by
      have : s1.state = s1.m_states.headD ps_TOP := rfl
      rw [← this, hst]; decide)
  rw [getToken_of_ret h fuel _ s1 _ VP_DEFVALUE VP_WHITE heof hraw
    (processToken_DEFVALUE h s1 hst)]
  refine ⟨?_, ?_, fun c hc => strip_head _ c hc, fun c hc => strip_last _ c hc⟩
  · show (statePop _).log = _
    rw [statePop_log_of_two _ (by simp [hoff]; exact hlen)]
    simp [hoff, emit, trimWhitespace_trailing, defineValue]
  · exact fun hin => unNewline_noNL _ (strip_sub _ _ hin)

theorem C18_witness :
    getRawToken (tableHost false) 9
          (run (tableHost false) (VFileLine.create [] 0)
            [lexOut VP_DEFINE "", lexOut VP_SYMBOL "A", lexOutDef VP_DEFFORM "" "",
             lexOutDef VP_DEFVALUE "" "  a\n+b \n"]
            [ApiCall.openFile "top.v".toList none, ApiCall.getToken 3])
        = ((getRawToken (tableHost false) 9
            (run (tableHost false) (VFileLine.create [] 0)
              [lexOut VP_DEFINE "", lexOut VP_SYMBOL "A", lexOutDef VP_DEFFORM "" "",
               lexOutDef VP_DEFVALUE "" "  a\n+b \n"]
              [ApiCall.openFile "top.v".toList none, ApiCall.getToken 3])).1, some VP_DEFVALUE)
      ∧ (getToken (tableHost false) 9
          (run (tableHost false) (VFileLine.create [] 0)
            [lexOut VP_DEFINE "", lexOut VP_SYMBOL "A", lexOutDef VP_DEFFORM "" "",
             lexOutDef VP_DEFVALUE "" "  a\n+b \n"]
            [ApiCall.openFile "top.v".toList none, ApiCall.getToken 3])).1.log
          = [(0, Event.define ['A'] "a +b".toList [])] :=
  ⟨by decide,
   (C18_define_value_is_trimmed (tableHost false) (VFileLine.create [] 0)
      [lexOut VP_DEFINE "", lexOut VP_SYMBOL "A", lexOutDef VP_DEFFORM "" "",
       lexOutDef VP_DEFVALUE "" "  a\n+b \n"]
      [ApiCall.openFile "top.v".toList none, ApiCall.getToken 3] 8
      (getRawToken (tableHost false) 9
        (run (tableHost false) (VFileLine.create [] 0)
          [lexOut VP_DEFINE "", lexOut VP_SYMBOL "A", lexOutDef VP_DEFFORM "" "",
           lexOutDef VP_DEFVALUE "" "  a\n+b \n"]
          [ApiCall.openFile "top.v".toList none, ApiCall.getToken 3])).1
      (by decide) (by decide) (by decide)).1.trans (by decide)⟩

theorem processToken_COMMENT_elided (h : Host) (s : VPreProcImp) (he : elides s = true) :
    (processToken h s VP_COMMENT).2 = Jump.next_tok
      ∧ (processToken h s VP_COMMENT).1.m_lineAdd = s.m_lineAdd + (s.yytext.count NL : Nat)
      ∧ (processToken h s VP_COMMENT).1.yyin = s.yyin := by
  have hlen : (owedNewlines s.yytext).length = s.yytext.count NL := by
    rw [owedNewlines_eq, List.length_replicate]
  unfold elides at he
  simp only [processToken, caseCOMMENT]
  cases hk : s.lexp.m_keepComments <;> by_cases ho : s.m_off = 0 <;>
    simp [hk, ho, hlen, emit] at he ⊢

theorem rawTokens_owed (h : Host) (fuel : Nat) : ∀ (n : Nat) (s : VPreProcImp),
    s.m_lineAdd = (n : Nat) →
      (rawTokens h (fuel + 1) n s).2 = List.replicate n (some VP_WHITE, [NL])
        ∧ (rawTokens h (fuel + 1) n s).1.m_lineAdd = 0
        ∧ (rawTokens h (fuel + 1) n s).1.yyin = s.yyin
  | 0, s, hs => by simpa [rawTokens] using hs
  | n + 1, s, hs => by
    have hne : (s.m_lineAdd != 0) = true := by
      simp only [bne_iff_ne, ne_eq]
      omega
    have hraw : getRawToken h (fuel + 1) s = (s.takeLineAdd, some VP_WHITE) := by
      rw [getRawToken]
      simp [hne]
    have hnext : s.takeLineAdd.m_lineAdd = (n : Nat) := by
      simp only [takeLineAdd]
      push_cast at hs ⊢
      omega
    obtain ⟨h1, h2, h3⟩ := rawTokens_owed h fuel n s.takeLineAdd hnext
    rw [rawTokens, hraw]
    refine ⟨?_, h2, h3⟩
    rw [h1]
    simp [takeLineAdd, List.replicate_succ]

theorem getRawToken_lexed_lineAdd (h : Host) : ∀ (fuel : Nat) (s s1 : VPreProcImp) (tok : VPTok),
    getRawToken h fuel s = (s1, some tok) → tok ≠ VP_WHITE → tok ≠ VP_TEXT → tok ≠ VP_EOF →
      s1.m_lineAdd = 0
  | 0, s, s1, tok, hraw, _, _, _ => by simp [getRawToken] at hraw
  | fuel + 1, s, s1, tok, hraw, hw, ht, he => by
    rw [getRawToken] at hraw
    split_ifs at hraw with h1 h2 h3 h4 h5
    · simp only [Prod.mk.injEq, Option.some.injEq] at hraw
      exact absurd hraw.2.symm hw
    · exact getRawToken_lexed_lineAdd h fuel _ s1 tok hraw hw ht he
    · simp only [Prod.mk.injEq, Option.some.injEq] at hraw
      exact absurd hraw.2.symm ht
    · simp only [Prod.mk.injEq, Option.some.injEq] at hraw
      exact absurd hraw.2.symm he
    · exact getRawToken_lexed_lineAdd h fuel _ s1 tok hraw hw ht he
    · simp only [Prod.mk.injEq, Option.some.injEq] at hraw
      rw [← hraw.1]
      have : s.m_lineAdd = 0 := by simpa using h1
      unfold noteBol lexToken yylex
      dsimp only
      split_ifs <;> split <;> simp [this, onLex]

/-- C19: the loop body of `getToken` on a comment token that it elides (the off-depth is
not zero, comments are not kept, or they go to the host's callback).  (1) It goes on to
the next token, and `m_lineAdd` has grown by the number of newlines in the comment text.
(2) With `m_lineAdd` zero before, the next calls of `getRawToken`, as many as the comment
has newlines, each return WHITE with the text of one newline; after them `m_lineAdd` is
zero again, so that no further newline is owed, and nothing has been taken from the
scanner.  (3) `m_lineAdd` is zero whenever `getRawToken` has just returned a comment
token. -/
theorem C19_elided_comment_newlines_returned (h : Host) (s : VPreProcImp)
    (helide : elides s = true) :
    ((processToken h s VP_COMMENT).2 = Jump.next_tok
        ∧ (processToken h s VP_COMMENT).1.m_lineAdd = s.m_lineAdd + (s.yytext.count NL : Nat))
      ∧ (∀ fuel : Nat, s.m_lineAdd = 0 →
          (rawTokens h (fuel + 1) (s.yytext.count NL) (processToken h s VP_COMMENT).1).2
              = List.replicate (s.yytext.count NL) (some VP_WHITE, [NL])
            ∧ (rawTokens h (fuel + 1) (s.yytext.count NL)
                (processToken h s VP_COMMENT).1).1.m_lineAdd = 0
            ∧ (rawTokens h (fuel + 1) (s.yytext.count NL)
                (processToken h s VP_COMMENT).1).1.yyin = s.yyin)
      ∧ (∀ (fuel : Nat) (s0 : VPreProcImp),
          getRawToken h fuel s0 = (s, some VP_COMMENT) → s.m_lineAdd = 0) := by
  obtain ⟨h1, h2, h3⟩ := processToken_COMMENT_elided h s helide
  refine ⟨⟨h1, h2⟩, ?_, ?_⟩
  · intro fuel h0
    rw [h0, Int.zero_add] at h2
    obtain ⟨r1, r2, r3⟩ := rawTokens_owed h fuel _ _ h2
    exact ⟨r1, r2, r3.trans h3⟩
  · intro fuel s0 hraw
    exact getRawToken_lexed_lineAdd h fuel s0 s VP_COMMENT hraw (by decide) (by decide)
      (by decide)

theorem C19_witness :
    elides commentReadState = true
      ∧ commentReadState.yytext = "/*a\nb\n*/".toList
      ∧ commentReadState.m_lineAdd = 0
      ∧ (processToken (tableHost false) commentReadState VP_COMMENT).1.m_lineAdd = 2
      ∧ (rawTokens (tableHost false) 1 3
          (processToken (tableHost false) commentReadState VP_COMMENT).1).2
            = [(some VP_WHITE, [NL]), (some VP_WHITE, [NL]), (some VP_SYMBOL, ['x'])] :=
  ⟨by decide, by decide, by decide,
   ((C19_elided_comment_newlines_returned (tableHost false) commentReadState
      (by decide)).1.2).trans (by decide),
   by decide⟩

/-- C20 fails on the code.  Whenever `open` fails, that is returns a negative descriptor,
`readWholefile` reports success with nothing read; `openFile` on a preprocessor without a
scanner then reports nothing and opens a scanner, and with a scanner active (within the
depth bound) it reports nothing and pushes that scanner on the include stack.  On the host
`noFileHost`: `openFile` of a missing file on a fresh preprocessor leaves the record empty
and a scanner open, and a second `openFile` of a missing file pushes the first scanner on
the include stack.  The error is reported only for the descriptor 0. -/
theorem C20_open_failure_not_reported :
    (∀ (h : Host) (s : VPreProcImp) (f : List Char) (fl : Option VFileLine),
        h.openFd f < 0 →
          readWholefile h f = (true, [])
          ∧ (s.m_lexp = none →
              (openFile h s f fl).log = s.log ∧ (openFile h s f fl).isEof = false)
          ∧ (∀ l, s.m_lexp = some l → s.m_includeStack.length ≤ h.INCLUDE_DEPTH_MAX →
              (openFile h s f fl).log = s.log
              ∧ (openFile h s f fl).m_includeStack = l :: s.m_includeStack))
      ∧ ((openFile noFileHost (VPreProcImp.new (VFileLine.create [] 0) [])
            "missing.v".toList none).log = []
        ∧ (openFile noFileHost (VPreProcImp.new (VFileLine.create [] 0) [])
            "missing.v".toList none).isEof = false
        ∧ (openFile noFileHost
            (openFile noFileHost (VPreProcImp.new (VFileLine.create [] 0) [])
              "missing.v".toList none) "other.v".toList none).m_includeStack.length = 1
        ∧ (openFile noFileHost
            (openFile noFileHost (VPreProcImp.new (VFileLine.create [] 0) [])
              "missing.v".toList none) "other.v".toList none).log = [])
      ∧ (openFile { tableHost false with openFd := fun _ => 0 }
            (VPreProcImp.new (VFileLine.create [] 0) []) "present.v".toList none).log
          = [(0, Event.error (notFoundMsg "present.v".toList))] := by
  refine ⟨?_, by decide, by decide⟩
  intro h s f fl hfd
  have hne : (h.openFd f == 0) = false := by
    simp only [beq_eq_false_iff_ne, ne_eq]
    omega
  have hr : readWholefile h f = (true, []) := by
    simp [readWholefile, hne, hfd]
  refine ⟨hr, ?_, ?_⟩
  · intro hl
    cases fl <;>
      simp [openFile, hr, hl, isEof, addLineComment, insertUnreadbackAtBol, insertUnreadback] <;>
      split_ifs <;> simp
  · intro l hl hdepth
    have hd : ¬ (h.INCLUDE_DEPTH_MAX < s.m_includeStack.length) := by omega
    cases fl <;>
      simp [openFile, hr, hl, hd, addLineComment, insertUnreadbackAtBol, insertUnreadback] <;>
      split_ifs <;> simp

theorem stripSlab_eq (slab : List Char) : stripSlab slab = withoutCRNUL slab := by
  have hfun : (fun c : Char => !(c == Char.ofNat 13 || c == NUL))
      = (fun c => c != CR && c != NUL) := by
    funext c
    simp [CR, bne, Bool.not_or]
  unfold stripSlab withoutCRNUL
  dsimp only
  rw [hfun]
  split_ifs with hany
  · rfl
  · symm
    rw [List.filter_eq_self]
    intro c hc
    simp only [List.any_eq_true, not_exists, not_and] at hany
    have := hany c hc
    simpa [CR, bne, Bool.not_or] using this

theorem foldl_scan_buffers (slabs : List (List Char)) (s : VPreProcImp) (l : VPreLex)
    (hl : s.m_lexp = some l) :
    (slabs.foldl (fun s slab => s.onLex (fun l => l.scanBytesBack (stripSlab slab))) s).m_lexp
      = some { l with m_bufferStack := l.m_bufferStack ++ slabs.map stripSlab } := by
  induction slabs generalizing s l with
  | nil => simp [hl]
  | cons x xs ih =>
    rw [List.foldl_cons]
    rw [ih (s.onLex (fun l => l.scanBytesBack (stripSlab x))) (l.scanBytesBack (stripSlab x))
      (by simp [onLex, hl])]
    simp [VPreLex.scanBytesBack]

theorem addLineComment_m_lexp (h : Host) (s : VPreProcImp) (l : Int) :
    (addLineComment h s l).m_lexp = s.m_lexp := by
  unfold addLineComment insertUnreadbackAtBol insertUnreadback
  dsimp only
  split_ifs <;> rfl

theorem openFile_buffers (h : Host) (s : VPreProcImp) (f : List Char) (fl : Option VFileLine)
    (hfd : 0 < h.openFd f)
    (hdepth : s.m_lexp = none ∨ s.m_includeStack.length ≤ h.INCLUDE_DEPTH_MAX) :
    scanBuffers (openFile h s f fl) = some ((h.readSlabs f).map withoutCRNUL) := by
  have hne : (h.openFd f == 0) = false := by
    simp only [beq_eq_false_iff_ne, ne_eq]
    omega
  have hneg : ¬ (h.openFd f < 0) := by omega
  have hr : readWholefile h f = (true, h.readSlabs f) := by
    simp [readWholefile, hne, hneg]
  have hmap : (h.readSlabs f).map stripSlab = (h.readSlabs f).map withoutCRNUL := by
    apply List.map_congr_left
    intro a _
    exact stripSlab_eq a
  unfold scanBuffers
  cases hl : s.m_lexp with
  | none =>
    cases fl <;>
      (simp only [openFile, hr, hl, Bool.not_true, Bool.false_eq_true, if_false]
       rw [foldl_scan_buffers _ _ _ (by rw [addLineComment_m_lexp])]
       simp [VPreLex.new, hmap])
  | some l0 =>
    have hd : ¬ (h.INCLUDE_DEPTH_MAX < s.m_includeStack.length) := by
      rcases hdepth with hd | hd
      · rw [hl] at hd; cases hd
      · omega
    cases fl <;>
      (simp only [openFile, hr, hl, gt_iff_lt, hd, if_false, Bool.not_true, Bool.false_eq_true]
       rw [foldl_scan_buffers _ _ _ (by rw [addLineComment_m_lexp])]
       simp [VPreLex.new, hmap])

/-- C21: a slab as `openFile` pushes it to the scanner is the slab without its carriage
returns and NULs, the other bytes in their order; a slab without these two bytes is pushed
as it is; and after an `openFile` that reads the file (the descriptor is positive, and no
scanner is active or the include depth allows the push) the scan buffers of the new scanner
are the stripped slabs of the file, in the order in which they were read. -/
theorem C21_slabs_pushed_stripped_in_order :
    (∀ slab : List Char, stripSlab slab = slab.filter (fun c => c != CR && c != NUL))
      ∧ (∀ slab : List Char, CR ∉ slab → NUL ∉ slab → stripSlab slab = slab)
      ∧ (∀ (h : Host) (s : VPreProcImp) (f : List Char) (fl : Option VFileLine),
          0 < h.openFd f →
          (s.m_lexp = none ∨ s.m_includeStack.length ≤ h.INCLUDE_DEPTH_MAX) →
            scanBuffers (openFile h s f fl)
              = some ((h.readSlabs f).map (fun slab => slab.filter (fun c => c != CR && c != NUL))))
    := by
  refine ⟨stripSlab_eq, ?_, ?_⟩
  · intro slab h1 h2
    rw [stripSlab_eq, withoutCRNUL, List.filter_eq_self]
    intro c hc
    have hc1 : c ≠ CR := fun e => h1 (e ▸ hc)
    have hc2 : c ≠ NUL := fun e => h2 (e ▸ hc)
    simp [hc1, hc2]
  · intro h s f fl hfd hdepth
    exact openFile_buffers h s f fl hfd hdepth

theorem C21_witness :
    0 < ({ tableHost false with
            readSlabs := fun _ => ["ab\r\n".toList, [NUL, 'c'], "d\n".toList] } : Host).openFd
          "top.v".toList
      ∧ scanBuffers (openFile { tableHost false with
            readSlabs := fun _ => ["ab\r\n".toList, [NUL, 'c'], "d\n".toList] }
          (VPreProcImp.new (VFileLine.create [] 0) []) "top.v".toList none)
        = some ["ab\n".toList, ['c'], "d\n".toList] :=
  ⟨by decide,
   (C21_slabs_pushed_stripped_in_order.2.2 { tableHost false with
        readSlabs := fun _ => ["ab\r\n".toList, [NUL, 'c'], "d\n".toList] }
      (VPreProcImp.new (VFileLine.create [] 0) []) "top.v".toList none (by decide)
      (Or.inl rfl)).trans (by decide)⟩

theorem readWholefile_ok (h : Host) (f : List Char) (hfd : h.openFd f ≠ 0) :
    (readWholefile h f).1 = true := by
  have hne : (h.openFd f == 0) = false := by
    simp only [beq_eq_false_iff_ne, ne_eq]
    exact hfd
  simp [readWholefile, hne]

theorem foldl_scan_includeStack (slabs : List (List Char)) (s : VPreProcImp) :
    (slabs.foldl (fun s slab => s.onLex (fun l => l.scanBytesBack (stripSlab slab))) s).m_includeStack
      = s.m_includeStack := by
  induction slabs generalizing s with
  | nil => rfl
  | cons m ms ih => rw [List.foldl_cons, ih]; rfl

theorem foldl_scan_isEof (slabs : List (List Char)) (s : VPreProcImp) :
    (slabs.foldl (fun s slab => s.onLex (fun l => l.scanBytesBack (stripSlab slab))) s).isEof
      = s.isEof := by
  induction slabs generalizing s with
  | nil => rfl
  | cons m ms ih => rw [List.foldl_cons, ih, onLex_isEof]

theorem addLineComment_m_includeStack (h : Host) (s : VPreProcImp) (l : Int) :
    (addLineComment h s l).m_includeStack = s.m_includeStack := by
  unfold addLineComment insertUnreadbackAtBol insertUnreadback
  dsimp only
  split_ifs <;> rfl

theorem addLineComment_isEof (h : Host) (s : VPreProcImp) (l : Int) :
    (addLineComment h s l).isEof = s.isEof := by
  unfold isEof
  rw [addLineComment_m_lexp]

theorem openFile_push (h : Host) (s : VPreProcImp) (f : List Char) (l : VPreLex)
    (hfd : h.openFd f ≠ 0) (hl : s.m_lexp = some l)
    (hdepth : s.m_includeStack.length ≤ h.INCLUDE_DEPTH_MAX) :
    (openFile h s f none).m_includeStack = l :: s.m_includeStack
      ∧ (openFile h s f none).isEof = false
      ∧ (openFile h s f none).log = s.log := by
  have hr := readWholefile_ok h f hfd
  have hd : ¬ (h.INCLUDE_DEPTH_MAX < s.m_includeStack.length) := by omega
  simp only [openFile, hr, hl, gt_iff_lt, hd, if_false, Bool.not_true, Bool.false_eq_true]
  refine ⟨?_, ?_, ?_⟩
  · rw [foldl_scan_includeStack, addLineComment_m_includeStack]
    show (addLineComment h _ 0).m_includeStack = _
    rw [addLineComment_m_includeStack]
  · rw [foldl_scan_isEof, addLineComment_isEof]
    rfl
  · rw [foldl_scan_log, addLineComment_log]
    show (addLineComment h _ 0).log = _
    rw [addLineComment_log]

theorem openFile_first (h : Host) (s : VPreProcImp) (f : List Char)
    (hfd : h.openFd f ≠ 0) (hl : s.m_lexp = none) :
    (openFile h s f none).m_includeStack = s.m_includeStack
      ∧ (openFile h s f none).isEof = false := by
  have hr := readWholefile_ok h f hfd
  simp only [openFile, hr, hl, Bool.not_true, Bool.false_eq_true, if_false]
  refine ⟨?_, ?_⟩
  · rw [foldl_scan_includeStack, addLineComment_m_includeStack]
  · rw [foldl_scan_isEof, addLineComment_isEof]
    rfl

theorem openFile_refused (h : Host) (s : VPreProcImp) (f : List Char) (l : VPreLex)
    (hfd : h.openFd f ≠ 0) (hl : s.m_lexp = some l)
    (hdepth : h.INCLUDE_DEPTH_MAX < s.m_includeStack.length) :
    openFile h s f none = s.error (recursiveInclusionMsg f) := by
  have hr := readWholefile_ok h f hfd
  simp only [openFile, hr, hl, gt_iff_lt, hdepth, if_true, Bool.not_true, Bool.false_eq_true,
    if_false]
  rfl

theorem nestedOpens_succ (h : Host) (f : List Char) (n : Nat) :
    nestedOpens h f (n + 1) = openFile h (nestedOpens h f n) f none := by
  unfold nestedOpens run
  rw [List.replicate_succ', List.foldl_append]
  rfl

theorem nestedOpens_m_off (h : Host) (f : List Char) : ∀ n : Nat, (nestedOpens h f n).m_off = 0
  | 0 => rfl
  | n + 1 => by rw [nestedOpens_succ, openFile_m_off, nestedOpens_m_off h f n]

theorem nestedOpens_depth (h : Host) (f : List Char) (hfd : h.openFd f ≠ 0) :
    ∀ n : Nat, n ≤ h.INCLUDE_DEPTH_MAX + 1 →
      (nestedOpens h f (n + 1)).isEof = false
        ∧ (nestedOpens h f (n + 1)).m_includeStack.length = n
        ∧ (nestedOpens h f (n + 1)).log = []
  | 0, _ => by
    rw [nestedOpens_succ]
    have h0 : (nestedOpens h f 0).m_lexp = none := rfl
    obtain ⟨h1, h2⟩ := openFile_first h _ f hfd h0
    refine ⟨h2, by rw [h1]; rfl, ?_⟩
    have hr := readWholefile_ok h f hfd
    simp only [openFile, hr, h0, Bool.not_true, Bool.false_eq_true, if_false]
    rw [foldl_scan_log, addLineComment_log]
    rfl
  | n + 1, hn => by
    obtain ⟨i1, i2, i3⟩ := nestedOpens_depth h f hfd n (by omega)
    rw [nestedOpens_succ]
    cases hl : (nestedOpens h f (n + 1)).m_lexp with
    | none => simp [isEof, hl] at i1
    | some l =>
      obtain ⟨h1, h2, h3⟩ := openFile_push h _ f l hfd hl (by omega)
      exact ⟨h2, by rw [h1, List.length_cons, i2], by rw [h3, i3]⟩

theorem nestedOpens_refused (h : Host) (f : List Char) (hfd : h.openFd f ≠ 0) :
    nestedOpens h f (h.INCLUDE_DEPTH_MAX + 3)
      = (nestedOpens h f (h.INCLUDE_DEPTH_MAX + 2)).error (recursiveInclusionMsg f) := by
  obtain ⟨i1, i2, _⟩ := nestedOpens_depth h f hfd (h.INCLUDE_DEPTH_MAX + 1) (le_refl _)
  have j1 : (nestedOpens h f (h.INCLUDE_DEPTH_MAX + 2)).isEof = false := i1
  have j2 : (nestedOpens h f (h.INCLUDE_DEPTH_MAX + 2)).m_includeStack.length
      = h.INCLUDE_DEPTH_MAX + 1 := i2
  rw [nestedOpens_succ]
  cases hl : (nestedOpens h f (h.INCLUDE_DEPTH_MAX + 2)).m_lexp with
  | none => simp [isEof, hl] at j1
  | some l => exact openFile_refused h _ f l hfd hl (by omega)

/-- C22, as the claim states it: for the bound 500 of `tableHost`, 502 successive calls of
`openFile` on a file that opens report nothing and leave 501 scanners on the include stack,
one more than `INCLUDE_DEPTH_MAX`. -/
theorem C22_counterexample :
    (tableHost false).INCLUDE_DEPTH_MAX = 500
      ∧ (nestedOpens (tableHost false) "a.v".toList 502).m_includeStack.length = 501
      ∧ (nestedOpens (tableHost false) "a.v".toList 502).log = [] := by
  have h500 := nestedOpens_depth (tableHost false) "a.v".toList (by decide) 501 (by decide)
  exact ⟨rfl, h500.2.1, h500.2.2⟩

theorem substArg_nil (m : ArgMap) : substArg m [] = [] := by simp [substArg]

theorem substBody_close_quote (m : ArgMap) (rest out : List Char) :
    substBody m (DQUOTE :: rest) [] true out = substBody m rest [] false (out ++ [DQUOTE]) := by
  have h2 : (DQUOTE == BACKSLASH) = false := by decide
  cases rest with
  | nil => simp [substBody, substArg_nil]
  | cons d r =>
    rw [substBody]
    simp [substArg_nil, h2]

theorem substBody_in_quote (m : ArgMap) : ∀ (lit rest out : List Char),
    literalText lit = true →
      substBody m (lit ++ DQUOTE :: rest) [] true out
        = substBody m rest [] false (out ++ lit ++ [DQUOTE])
  | [], rest, out, _ => by
    simpa using substBody_close_quote m rest out
  | [c], rest, out, hl => by
    simp only [literalText, Bool.and_eq_true, bne_iff_ne, ne_eq] at hl
    have h1 : (c == BACKSLASH) = false := by simpa using hl.2
    have h2 : (c == DQUOTE) = false := by simpa using hl.1
    show substBody m (c :: DQUOTE :: rest) [] true out = _
    rw [substBody]
    simp only [Bool.not_true, Bool.false_and, Bool.false_eq_true, if_false, substArg_nil,
      List.append_nil, h1, h2]
    rw [substBody_close_quote]
  | c :: d :: lit, rest, out, hl => by
    rw [literalText] at hl
    show substBody m (c :: d :: (lit ++ DQUOTE :: rest)) [] true out = _
    rw [substBody]
    split_ifs at hl with hb
    · simp only [Bool.not_true, Bool.false_and, Bool.false_eq_true, if_false, substArg_nil,
        List.append_nil, hb, if_true]
      rw [substBody_in_quote m lit rest _ hl]
      simp
    · simp only [Bool.and_eq_true, bne_iff_ne, ne_eq] at hl
      have h2 : (c == DQUOTE) = false := by simpa using hl.1
      simp only [Bool.not_true, Bool.false_and, Bool.false_eq_true, if_false, substArg_nil,
        List.append_nil, hb, h2]
      have := substBody_in_quote m (d :: lit) rest (out ++ [c]) hl.2
      simp only [List.cons_append] at this
      rw [this]
      simp

theorem substBody_open_quote (m : ArgMap) (d : Char) (rest argName out : List Char) :
    substBody m (DQUOTE :: d :: rest) argName false out
      = substBody m (d :: rest) [] true (out ++ substArg m argName ++ [DQUOTE]) := by
  have h1 : isArgChar argName DQUOTE = false := by
    have a1 : isalpha DQUOTE = false := by decide
    have a2 : (DQUOTE == '_') = false := by decide
    have a3 : (DQUOTE == '$') = false := by decide
    have a4 : isdigit DQUOTE = false := by decide
    simp [isArgChar, a1, a2, a3, a4]
  have h2 : (DQUOTE == BACKTICK) = false := by decide
  have h3 : (DQUOTE == BACKSLASH) = false := by decide
  rw [substBody]
  simp [h1, h2, h3]

theorem substBody_literal (m : ArgMap) (lit rest argName out : List Char)
    (hl : literalText lit = true) :
    substBody m (DQUOTE :: lit ++ DQUOTE :: rest) argName false out
      = substBody m rest [] false (out ++ substArg m argName ++ DQUOTE :: lit ++ [DQUOTE]) := by
  cases lit with
  | nil =>
    show substBody m (DQUOTE :: DQUOTE :: rest) argName false out = _
    rw [substBody_open_quote, substBody_close_quote]
  | cons c cs =>
    show substBody m (DQUOTE :: c :: (cs ++ DQUOTE :: rest)) argName false out = _
    rw [substBody_open_quote]
    have := substBody_in_quote m (c :: cs) rest (out ++ substArg m argName ++ [DQUOTE]) hl
    simp only [List.cons_append] at this
    rw [this]
    simp

/-- C23: the body walk of `defineSubst` at a string literal outside a string: the run before
it is put out first, then the opening quote, the text of the literal and the closing quote
exactly as they are, whatever names of formals and backtick sequences the text holds, and
the walk goes on after the closing quote outside a string; so the body `"a"` with the formal
`a` bound to `1` is returned unchanged, and so is a literal that holds backtick sequences. -/
theorem C23_string_literal_copied_verbatim :
    (∀ (m : ArgMap) (lit rest argName out : List Char), literalText lit = true →
        substBody m (DQUOTE :: lit ++ DQUOTE :: rest) argName false out
          = substBody m rest [] false (out ++ substArg m argName ++ DQUOTE :: lit ++ [DQUOTE]))
      ∧ defineSubst (mkRef "M" "(a)" ["1"]) "\"a\"".toList
          = { errors := [], out := "\"a\"".toList }
      ∧ defineSubst (mkRef "M" "(a)" ["1"]) "a \"a\" a".toList
          = { errors := [], out := "1 \"a\" 1".toList }
      ∧ defineSubst (mkRef "M" "(a,b)" ["1", "2"]) "\"a\x60\x60b \x60\\ \\\"a\" a".toList
          = { errors := [], out := "\"a\x60\x60b \x60\\ \\\"a\" 1".toList } :=
  ⟨fun m lit rest argName out hl => substBody_literal m lit rest argName out hl,
   by decide, by decide, by decide⟩

theorem C23_witness :
    literalText "a \x60\x60 \\\" b".toList = true
      ∧ substBody [(['a'], ['1'])] ("\"a \x60\x60 \\\" b\"a".toList) [] false []
          = "\"a \x60\x60 \\\" b\"1".toList :=
  ⟨by decide,
   (C23_string_literal_copied_verbatim.1 [(['a'], ['1'])] "a \x60\x60 \\\" b".toList ['a'] [] []
      (by decide)).trans (by decide)⟩

theorem isArgChar_nil (c : Char) : isArgChar [] c = identStart c := by
  simp [isArgChar, identStart]

theorem isArgChar_cons (a : Char) (r : List Char) (c : Char) :
    isArgChar (a :: r) c = identCont c := by
  simp only [isArgChar, identCont, identStart]
  cases isalpha c <;> cases (c == '_') <;> cases (c == '$') <;> cases isdigit c <;> simp

theorem isArgChar_of_ne (r : List Char) (hr : r ≠ []) (c : Char) :
    isArgChar r c = identCont c := by
  cases r with
  | nil => exact absurd rfl hr
  | cons a r => exact isArgChar_cons a r c

theorem substBody_nil (m : ArgMap) (argName : List Char) (quote : Bool) (out : List Char) :
    substBody m [] argName quote out = out ++ substArg m argName := by
  unfold substBody; rfl

theorem substBody_take (m : ArgMap) (c : Char) (tail argName out : List Char)
    (hc : isArgChar argName c = true) :
    substBody m (c :: tail) argName false out = substBody m tail (argName ++ [c]) false out := by
  cases tail with
  | nil =>
    conv_lhs => rw [substBody]
    simp [hc]
  | cons d rest =>
    conv_lhs => rw [substBody]
    simp [hc]

theorem substBody_cont (m : ArgMap) : ∀ (r tail argName out : List Char),
    argName ≠ [] → r.all identCont = true →
    substBody m (r ++ tail) argName false out = substBody m tail (argName ++ r) false out
  | [], tail, argName, out, _, _ => by simp
  | c :: r, tail, argName, out, hn, hr => by
    simp only [List.all_cons, Bool.and_eq_true] at hr
    rw [List.cons_append, substBody_take m c (r ++ tail) argName out
      ((isArgChar_of_ne argName hn c).trans hr.1),
      substBody_cont m r tail (argName ++ [c]) out (by simp) hr.2]
    simp

theorem substBody_run (m : ArgMap) (r tail out : List Char) (hr : isIdentRun r = true) :
    substBody m (r ++ tail) [] false out = substBody m tail r false out := by
  cases r with
  | nil => simp [isIdentRun] at hr
  | cons c r =>
    simp only [isIdentRun, Bool.and_eq_true] at hr
    rw [List.cons_append, substBody_take m c (r ++ tail) [] out ((isArgChar_nil c).trans hr.1),
      substBody_cont m r tail ([] ++ [c]) out (by simp) hr.2]
    simp

theorem substBody_flush (m : ArgMap) (d : Char) (tail r out : List Char)
    (hd : isArgChar r d = false) :
    substBody m (d :: tail) r false out
      = substBody m (d :: tail) [] false (out ++ substArg m r) := by
  have h0 : isArgChar [] d = false := by
    cases r with
    | nil => exact hd
    | cons a r =>
      rw [isArgChar_cons] at hd
      rw [isArgChar_nil]
      simp only [identCont, Bool.or_eq_false_iff] at hd
      exact hd.1
  cases tail with
  | nil =>
    conv_lhs => rw [substBody]
    conv_rhs => rw [substBody]
    simp [hd, h0, substArg_nil]
  | cons e rest =>
    conv_lhs => rw [substBody]
    conv_rhs => rw [substBody]
    simp [hd, h0, substArg_nil]

theorem substBody_whole_run (m : ArgMap) (r tail out : List Char)
    (hr : isIdentRun r = true) (ht : endsRun tail = true) :
    substBody m (r ++ tail) [] false out = substBody m tail [] false (out ++ substArg m r) := by
  rw [substBody_run m r tail out hr]
  cases tail with
  | nil => rw [substBody_nil, substBody_nil, substArg_nil]; simp
  | cons d t =>
    have hne : r ≠ [] := by
      rintro rfl
      simp [isIdentRun] at hr
    refine substBody_flush m d t r out ?_
    rw [isArgChar_of_ne r hne]
    simpa [endsRun] using ht

theorem substArg_bound (m : ArgMap) (r v : List Char) (hr : r ≠ [])
    (hv : m.find r = some v) : substArg m r = v := by
  simp [substArg, hr, hv]

theorem substArg_free (m : ArgMap) (r : List Char) (hv : m.find r = none) :
    substArg m r = r := by
  cases r with
  | nil => simp [substArg]
  | cons a r => simp [substArg, hv]

/-- C24: outside a string, a whole identifier run of the body (a leading `[A-Za-z_$]`
continued by `[A-Za-z_$0-9]`, followed by the end of the body or by a character that cannot
continue it) is looked up as one name: the value of the formal is put out when the run is the
name of a formal, and the run itself when it is not, also when it starts with such a name; so
with the formal `a` bound to `X` the body `ab a1 a$ a` yields `ab a1 a$ X`. -/
theorem C24_whole_identifier_substituted (m : ArgMap) (r tail out : List Char)
    (hr : isIdentRun r = true) (ht : endsRun tail = true) :
    substBody m (r ++ tail) [] false out
        = substBody m tail [] false (out ++ (match m.find r with | some v => v | none => r))
      ∧ (∀ v, m.find r = some v →
          substBody m (r ++ tail) [] false out = substBody m tail [] false (out ++ v))
      ∧ (m.find r = none →
          substBody m (r ++ tail) [] false out = substBody m tail [] false (out ++ r))
      ∧ defineSubst (mkRef "M" "(a)" ["X"]) "ab a1 a$ a".toList
          = { errors := [], out := "ab a1 a$ X".toList } := by
  have hne : r ≠ [] := by
    rintro rfl
    simp [isIdentRun] at hr
  have h := substBody_whole_run m r tail out hr ht
  refine ⟨?_, fun v hv => ?_, fun hv => ?_, by decide⟩
  · rw [h]
    cases hv : m.find r with
    | none => rw [substArg_free m r hv]
    | some v => rw [substArg_bound m r v hne hv]
  · rw [h, substArg_bound m r v hne hv]
  · rw [h, substArg_free m r hv]

theorem C24_witness :
    isIdentRun "a1".toList = true ∧ endsRun " a".toList = true
      ∧ substBody [(['a'], ['X'])] "a1 a".toList [] false [] = "a1 X".toList :=
  ⟨by decide, by decide,
   ((C24_whole_identifier_substituted [(['a'], ['X'])] "a1".toList " a".toList []
      (by decide) (by decide)).2.2.1 (by decide)).trans (by decide)⟩

theorem isArgChar_backtick (argName : List Char) : isArgChar argName BACKTICK = false := by
  have h1 : isalpha BACKTICK = false := by decide
  have h2 : (BACKTICK == '_') = false := by decide
  have h3 : (BACKTICK == '$') = false := by decide
  have h4 : isdigit BACKTICK = false := by decide
  simp [isArgChar, h1, h2, h3, h4]

theorem substBody_double_backtick (m : ArgMap) (rest argName out : List Char) :
    substBody m (BACKTICK :: BACKTICK :: rest) argName false out
      = substBody m rest [] false (out ++ substArg m argName) := by
  conv_lhs => rw [substBody]
  simp [isArgChar_backtick]

/-- C25: outside a string a double backtick of the body puts out nothing: the identifier run
before it ends there and is looked up, and the walk goes on after the two characters with an
empty run, so the text after them starts a run of its own; for two identifier runs joined by
a double backtick the values are put out next to each other, and the body of `a`, two
backticks and `b` with the formals `a` and `b` bound to `x` and `y` yields `xy`. -/
theorem C25_double_backtick_joins :
    (∀ (m : ArgMap) (rest argName out : List Char),
        substBody m (BACKTICK :: BACKTICK :: rest) argName false out
          = substBody m rest [] false (out ++ substArg m argName))
      ∧ (∀ (m : ArgMap) (r1 r2 out : List Char), isIdentRun r1 = true → isIdentRun r2 = true →
          substBody m (r1 ++ BACKTICK :: BACKTICK :: r2) [] false out
            = out ++ substArg m r1 ++ substArg m r2)
      ∧ defineSubst (mkRef "M" "(a,b)" ["x", "y"]) "a\x60\x60b".toList
          = { errors := [], out := "xy".toList }
      ∧ defineSubst (mkRef "M" "(a,b)" ["x", "y"]) "a\x60\x60b a\x60\x60\x60\x60c \x60\x60".toList
          = { errors := [], out := "xy xc ".toList } := by
  refine ⟨substBody_double_backtick, fun m r1 r2 out h1 h2 => ?_, by decide, by decide⟩
  rw [substBody_run m r1 _ out h1, substBody_double_backtick]
  have h := substBody_run m r2 [] (out ++ substArg m r1) h2
  rw [List.append_nil] at h
  rw [h, substBody_nil]

theorem insertUnreadbackAtBol_m_lineAdd (s : VPreProcImp) (t : List Char) :
    (s.insertUnreadbackAtBol t).m_lineAdd = s.m_lineAdd := by
  unfold insertUnreadbackAtBol insertUnreadback; dsimp only; split_ifs <;> rfl

theorem insertUnreadbackAtBol_m_rawAtBol (s : VPreProcImp) (t : List Char) :
    (s.insertUnreadbackAtBol t).m_rawAtBol = s.m_rawAtBol := by
  unfold insertUnreadbackAtBol insertUnreadback; dsimp only; split_ifs <;> rfl

theorem noteBol_m_lineCmt (s : VPreProcImp) : s.noteBol.m_lineCmt = s.m_lineCmt := by
  unfold noteBol; split_ifs <;> rfl

theorem noteBol_m_lineCmtNl (s : VPreProcImp) : s.noteBol.m_lineCmtNl = s.m_lineCmtNl := by
  unfold noteBol; split_ifs <;> rfl

theorem noteBol_yytext (s : VPreProcImp) : s.noteBol.yytext = s.yytext := by
  unfold noteBol; split_ifs <;> rfl

theorem takeLineCmt_m_lineCmt (s : VPreProcImp) : s.takeLineCmt.m_lineCmt = [] := by
  unfold takeLineCmt; dsimp only; rw [noteBol_m_lineCmt]

theorem takeLineCmt_m_lineCmtNl (s : VPreProcImp) : s.takeLineCmt.m_lineCmtNl = false := by
  unfold takeLineCmt; dsimp only; rw [noteBol_m_lineCmtNl]
  cases s.m_lineCmtNl <;> rfl

theorem takeLineCmt_yytext (s : VPreProcImp) :
    s.takeLineCmt.yytext
      = if s.m_lineCmtNl && !s.m_rawAtBol then NL :: s.m_lineCmt else s.m_lineCmt := by
  unfold takeLineCmt; dsimp only; rw [noteBol_yytext]

theorem getRawToken_lineCmt (h : Host) (fuel : Nat) (s : VPreProcImp)
    (hadd : s.m_lineAdd = 0) (hne : s.m_lineCmt ≠ []) (hst : s.state ≠ ps_DEFVALUE) :
    getRawToken h (fuel + 1) s = (s.takeLineCmt, some VP_TEXT) := by
  have h1 : s.takeLineCmt.state ≠ ps_DEFVALUE := by
    unfold state; rw [takeLineCmt_m_states]; exact hst
  rw [getRawToken]
  simp [hadd, hne, h1]

theorem atBol_delivery (s : VPreProcImp) (text : List Char) :
    (∃ pre, (s.insertUnreadbackAtBol text).takeLineCmt.yytext = pre ++ NL :: text)
      ∨ ((s.insertUnreadbackAtBol text).takeLineCmt.yytext = text ∧ s.m_rawAtBol = true) := by
  rw [takeLineCmt_yytext, insertUnreadbackAtBol_m_rawAtBol]
  unfold insertUnreadbackAtBol insertUnreadback
  dsimp only
  by_cases h0 : s.m_lineCmt = []
  · simp only [h0, beq_self_eq_true, if_true, List.nil_append, Bool.true_and]
    cases hb : s.m_rawAtBol
    · exact Or.inl ⟨[], by simp⟩
    · exact Or.inr ⟨by simp, rfl⟩
  · have h0' : (s.m_lineCmt == []) = false := by simpa using h0
    simp only [h0', Bool.false_eq_true, if_false]
    by_cases h1 : s.m_lineCmt.getLast? = some NL
    · obtain ⟨ys, hys⟩ : ∃ ys, s.m_lineCmt = ys ++ [NL] := by
        rcases List.getLast?_eq_some_iff.mp h1 with ⟨ys, hys⟩
        exact ⟨ys, hys⟩
      simp only [h1, bne_self_eq_false, Bool.false_eq_true, if_false]
      left
      split_ifs
      · exact ⟨NL :: ys, by simp [hys]⟩
      · exact ⟨ys, by simp [hys]⟩
    · have h1' : (s.m_lineCmt.getLast? != some NL) = true := by simpa using h1
      simp only [h1', if_true]
      left
      split_ifs
      · exact ⟨NL :: s.m_lineCmt, by simp⟩
      · exact ⟨s.m_lineCmt, by simp⟩

/-- C26: after `insertUnreadbackAtBol(text)`, a `getRawToken` call that owes no newline, is
not in state `ps_DEFVALUE` and finds the line-comment buffer non-empty returns the buffer as
`VP_TEXT`; in the returned text the queued text comes last and is either preceded by a
newline, or it is the whole text and `m_rawAtBol` held before the call; afterwards the
buffer is empty and `m_lineCmtNl` is false. -/
theorem C26_unreadback_delivered_at_bol (h : Host) (fuel : Nat) (s : VPreProcImp)
    (text : List Char) (hadd : s.m_lineAdd = 0) (hst : s.state ≠ ps_DEFVALUE)
    (hne : (s.insertUnreadbackAtBol text).m_lineCmt ≠ []) :
    ∃ s1, getRawToken h (fuel + 1) (s.insertUnreadbackAtBol text) = (s1, some VP_TEXT)
      ∧ ((∃ pre, s1.yytext = pre ++ NL :: text) ∨ (s1.yytext = text ∧ s.m_rawAtBol = true))
      ∧ s1.m_lineCmt = [] ∧ s1.m_lineCmtNl = false := by
  refine ⟨(s.insertUnreadbackAtBol text).takeLineCmt, ?_, atBol_delivery s text,
    takeLineCmt_m_lineCmt _, takeLineCmt_m_lineCmtNl _⟩
  refine getRawToken_lineCmt h fuel _ ?_ hne ?_
  · rw [insertUnreadbackAtBol_m_lineAdd]; exact hadd
  · unfold state; rw [insertUnreadbackAtBol_m_states]; exact hst

theorem C26_witness :
    midLineState.m_lineAdd = 0 ∧ midLineState.state ≠ ps_DEFVALUE
      ∧ midLineState.m_rawAtBol = false
      ∧ (midLineState.insertUnreadbackAtBol "x".toList).m_lineCmt ≠ []
      ∧ (getRawToken (tableHost false) 1 (midLineState.insertUnreadbackAtBol "x".toList)).2
          = some VP_TEXT
      ∧ (getRawToken (tableHost false) 1
          (midLineState.insertUnreadbackAtBol "x".toList)).1.yytext = "\nx".toList
      ∧ ∃ s1, getRawToken (tableHost false) 1 (midLineState.insertUnreadbackAtBol "x".toList)
            = (s1, some VP_TEXT)
          ∧ ((∃ pre, s1.yytext = pre ++ NL :: "x".toList)
              ∨ (s1.yytext = "x".toList ∧ midLineState.m_rawAtBol = true))
          ∧ s1.m_lineCmt = [] ∧ s1.m_lineCmtNl = false :=
  ⟨by decide, by decide, by decide, by decide, by decide, by decide,
   C26_unreadback_delivered_at_bol (tableHost false) 0 midLineState "x".toList
     (by decide) (by decide) (by decide)⟩

/-- C27: a run in which a reference to the macro `F(a)` is followed by a semicolon: the
error for the missing argument list is reported and the state `ps_DEFPAREN` is popped, but
the DefRef frame of `F` stays, so after the third `getToken` call the parser state stack is
back to `ps_TOP` alone with no `ps_DEFPAREN` or `ps_DEFARG` entry while one DefRef frame is
pending; the value `x,y` of the later reference to `A` then joins the argument of that frame
instead of becoming a scan buffer, as it does in the same run without the reference to `F`. -/
theorem C27_abandoned_reference_leaves_frame :
    (afterTokens false abandonedInput 2).m_states = [ps_TOP]
      ∧ (afterTokens false abandonedInput 2).m_defRefs = []
      ∧ (afterTokens false abandonedInput 3).m_states = [ps_TOP]
      ∧ defStates (afterTokens false abandonedInput 3) = 0
      ∧ (afterTokens false abandonedInput 3).m_defRefs = [VPreDefRef.new "F".toList "(a)".toList]
      ∧ ((afterTokens false abandonedInput 3).log.filterMap (fun p =>
            match p.2 with
            | Event.error msg => some msg
            | _ => none)) = [expectingParenMsg "F"]
      ∧ pump (tableHost false) 9 5 (opened (tableHost false) abandonedInput)
          = [(VP_WHITE, [NL]), (VP_WHITE, [NL]), (VP_SYMBOL, ['z']), (VP_SYMBOL, ['w']),
             (VP_EOF, [])]
      ∧ (afterTokens false abandonedInput 4).m_defRefs
          = [{ VPreDefRef.new "F".toList "(a)".toList with m_nextarg := "x,y".toList }]
      ∧ scanBuffers (afterTokens false abandonedInput 4) = some [[]]
      ∧ scanBuffers (afterTokens false (abandonedInput.take 8 ++ abandonedInput.drop 11) 3)
          = some ["x,y".toList, []] := by
  refine ⟨by decide, by decide, by decide, by decide, by decide, by decide, by decide, by decide,
    by decide, by decide⟩

/-- C28: a run with line directives on a file that ends without a newline: `getToken`
returns the enter directive, `abc`, and a newline with the exit directive in one text; the
second `getline` call returns `abc` and the newline and leaves the exit directive in
`m_lineChars` with the scanner closed, and the third call returns the empty string through
the test of `isEof()` at its entry while `m_lineChars` still holds the directive, which no
later call returns; on the same file with a final newline the directive is returned. -/
theorem C28_getline_drops_buffered_text :
    pump (tableHost true) 9 9 (opened (tableHost true) [lexOut VP_SYMBOL "abc"])
        = [(VP_TEXT, "\x60line 1 \"top.v\" 1\n".toList), (VP_SYMBOL, "abc".toList),
           (VP_TEXT, "\n\x60line 1 \"top.v\" 2\n".toList),
           (VP_EOF, "\n\x60line 1 \"top.v\" 2\n".toList)]
      ∧ pumpLines (tableHost true) 9 5 (opened (tableHost true) [lexOut VP_SYMBOL "abc"])
        = ["\x60line 1 \"top.v\" 1\n".toList, "abc\n".toList, [], [], []]
      ∧ (noFinalNewline 2).isEof = true
      ∧ (noFinalNewline 2).m_lineChars = "\x60line 1 \"top.v\" 2\n".toList
      ∧ getparseline (tableHost true) true 0 9 (noFinalNewline 2) = (noFinalNewline 2, some [])
      ∧ (noFinalNewline 3).m_lineChars = "\x60line 1 \"top.v\" 2\n".toList
      ∧ pumpLines (tableHost true) 9 5
          (opened (tableHost true) [lexOut VP_SYMBOL "abc", lexOut VP_WHITE "\n"])
        = ["\x60line 1 \"top.v\" 1\n".toList, "abc\n".toList,
           "\x60line 1 \"top.v\" 2\n".toList, [], []] := by
  refine ⟨by decide, by decide, by decide, by decide, by decide, by decide, by decide⟩

theorem substArg_empty_map (a : List Char) : substArg [] a = a :=
  substArg_free [] a rfl

theorem substBody_plain : ∀ (body argName : List Char) (quote : Bool) (out : List Char),
    BACKTICK ∉ body → substBody [] body argName quote out = out ++ argName ++ body
  | [], a, q, out, _ => by simp [substBody, substArg_empty_map]
  | [c], a, q, out, _ => by
    rw [substBody]
    split
    · rw [substBody_nil, substArg_empty_map]; simp
    · rw [substBody_nil, substArg_empty_map, substArg_empty_map]; simp
  | c :: d :: rest, a, q, out, hb => by
    have hc : (c == BACKTICK) = false := by
      rw [beq_eq_false_iff_ne]
      rintro rfl
      exact hb (List.mem_cons_self _ _)
    have h1 : BACKTICK ∉ d :: rest := fun hm => hb (List.mem_cons_of_mem _ hm)
    have h2 : BACKTICK ∉ rest := fun hm => h1 (List.mem_cons_of_mem _ hm)
    rw [substBody]
    simp only [substArg_empty_map, hc, Bool.and_false, Bool.false_and, Bool.false_eq_true,
      if_false]
    split
    · rw [substBody_plain (d :: rest) _ _ _ h1]; simp
    · split
      · rw [substBody_plain rest _ _ _ h2]; simp
      · rw [substBody_plain (d :: rest) _ _ _ h1]; simp

theorem defineSubst_no_formals (refp : VPreDefRef) (body : List Char)
    (hp : refp.m_params = "()".toList) (ha : refp.m_args = [[]]) (hb : BACKTICK ∉ body) :
    defineSubst refp body = { errors := [], out := c_str body } := by
  have hn : namedFormals refp.m_params = 0 := by rw [hp]; decide
  have h := defineSubst_too_many refp body (by rw [hn, ha]; decide)
  rw [if_pos ⟨hn, by rw [ha]; rfl, by rw [ha]; decide⟩] at h
  rw [h, substBody_plain (c_str body) [] false [] ?_]
  · simp
  · intro hm
    exact hb ((List.takeWhile_sublist _).subset hm)

/-- C29, as the claim states it: a body without a backtick that holds a NUL is not returned
unchanged by a macro with the formals `()` that is called with the single empty actual: the
walk over the C string of the body ends at the NUL. -/
theorem C29_counterexample :
    BACKTICK ∉ ['a', NUL, 'b']
      ∧ defineSubst (mkRef "M" "()" [""]) ['a', NUL, 'b'] = { errors := [], out := ['a'] }
      ∧ defineSubst (mkRef "M" "()" [""]) ['a', NUL, 'b']
          ≠ { errors := [], out := ['a', NUL, 'b'] } := by
  refine ⟨by decide, by decide, by decide⟩

/-- C29, amended: for a macro with the formals `()` that is called with the single empty
actual, and for every body that holds no backtick and no NUL, `defineSubst` reports nothing
and returns the body unchanged, whatever identifiers, digits, backslash escapes and string
literals it holds; for a body without a backtick in general the result is the C string of
the body. -/
theorem C29_no_formals_body_unchanged (refp : VPreDefRef) (body : List Char)
    (hp : refp.m_params = "()".toList) (ha : refp.m_args = [[]]) (hb : BACKTICK ∉ body)
    (hn : NUL ∉ body) :
    defineSubst refp body = { errors := [], out := body } := by
  rw [defineSubst_no_formals refp body hp ha hb, c_str_of_noNUL body]
  rw [List.all_eq_true]
  intro c hc
  rw [bne_iff_ne]
  rintro rfl
  exact hn hc

theorem C29_witness :
    (mkRef "M" "()" [""]).m_params = "()".toList ∧ (mkRef "M" "()" [""]).m_args = [[]]
      ∧ BACKTICK ∉ "a1 $b \\n \"a\" 9_".toList ∧ NUL ∉ "a1 $b \\n \"a\" 9_".toList
      ∧ defineSubst (mkRef "M" "()" [""]) "a1 $b \\n \"a\" 9_".toList
          = { errors := [], out := "a1 $b \\n \"a\" 9_".toList } :=
  ⟨by decide, by decide, by decide, by decide,
   C29_no_formals_body_unchanged (mkRef "M" "()" [""]) "a1 $b \\n \"a\" 9_".toList
     (by decide) (by decide) (by decide) (by decide)⟩

theorem sameNamed_set (m m2 : ArgMap) (h : SameNamed m m2) (n v : List Char) :
    SameNamed (m.set n v) (m2.set n v) := by
  intro a ha
  simp only [ArgMap.find, ArgMap.set, List.lookup]
  cases (a == n)
  · exact h a ha
  · rfl

theorem sameNamed_set_empty (m m2 : ArgMap) (h : SameNamed m m2) (v : List Char) :
    SameNamed (m.set [] v) m2 := by
  intro a ha
  have : (a == ([] : List Char)) = false := by simpa using ha
  simp only [ArgMap.find, ArgMap.set, List.lookup, this]
  exact h a ha

theorem tracks_atBase {st : FormalsState} {level : Int} {quote : Bool} {cur : Piece}
    (h : Tracks st level quote cur) : st.atBase = (!quote && level == 1) := by
  obtain ⟨h1, h2, _⟩ := h
  simp [FormalsState.atBase, h1, h2]

theorem tracks_assign {st : FormalsState} {level : Int} {quote : Bool} {cur : Piece}
    (h : Tracks st level quote cur) (hr : cur.right = none) :
    Tracks { st with haveDefault := true, argName := st.token, token := [] } level quote
      cur.assign := by
  obtain ⟨h1, h2, h3, h4, h5⟩ := h
  rw [hr] at h3
  simp only [Option.isSome_none] at h3
  simp only [h3, Bool.false_eq_true, if_false] at h4
  refine ⟨h1, h2, ?_, ?_, ?_⟩
  · simp [Piece.assign, hr]
  · simp [Piece.assign, hr, h4]
  · simp [Piece.assign, hr]

theorem tracks_add {st : FormalsState} {level : Int} {quote : Bool} {cur : Piece}
    (h : Tracks st level quote cur) (cs : List Char) :
    Tracks { st with token := st.token ++ cs } level quote (cur.add cs) := by
  obtain ⟨h1, h2, h3, h4, h5⟩ := h
  cases hr : cur.right with
  | none =>
    rw [hr] at h3 h5
    simp only [Option.isSome_none] at h3
    simp only [h3, Bool.false_eq_true, if_false] at h4
    refine ⟨h1, h2, ?_, ?_, ?_⟩
    · simp [Piece.add, hr, h3]
    · simp [Piece.add, hr, h3, h4]
    · simp [Piece.add, hr, h3]
  | some r =>
    rw [hr] at h3 h5
    simp only [Option.isSome_some] at h3
    simp only [h3, if_true] at h4 h5
    simp only [Option.getD_some] at h5
    refine ⟨h1, h2, ?_, ?_, ?_⟩
    · simp [Piece.add, hr, h3]
    · simp [Piece.add, hr, h3, h4]
    · simp [Piece.add, hr, h3, h5]

theorem tracks_char {st : FormalsState} {level : Int} {quote : Bool} {cur : Piece}
    (h : Tracks st level quote cur) (c : Char) :
    Tracks (formalsChar c st) (if quote then level else nestLevel c level)
      (if c == DQUOTE then !quote else quote) (cur.add [c]) := by
  have h0 := tracks_add h [c]
  obtain ⟨h1, h2, h3, h4, h5⟩ := h0
  obtain ⟨g1, g2, _⟩ := h
  refine ⟨?_, ?_, h3, h4, h5⟩
  · simp only [formalsChar, g1, g2, nestLevel]
    cases quote <;> simp
  · simp only [formalsChar, g2]

theorem namedOf_cons (p : Piece) (ps : List Piece) :
    namedOf (p :: ps) = if strip p.left = [] then namedOf ps else p.toFormal :: namedOf ps := by
  unfold namedOf
  by_cases h : strip p.left = []
  · simp [List.filter, Piece.toFormal, h]
  · have hb : (strip p.left != []) = true := by simpa using h
    simp [List.filter, Piece.toFormal, h, hb]

theorem bindFormal_unnamed (refp : VPreDefRef) (st : FormalsState) (level : Int) (quote : Bool)
    (cur : Piece) (ms : ArgMap) (h : Tracks st level quote cur)
    (hm : SameNamed st.argValueByName ms) (hn : strip cur.left = []) :
    ∃ st1, bindFormal refp st = .ok st1 ∧ st1.numArgs = st.numArgs
      ∧ Tracks st1 level quote ⟨[], none⟩ ∧ SameNamed st1.argValueByName ms := by
  obtain ⟨h1, h2, h3, h4, h5⟩ := h
  unfold bindFormal
  simp only [h4, trimWhitespace_trailing, hn, bne_self_eq_false, Bool.false_eq_true, if_false]
  exact ⟨_, rfl, rfl, ⟨h1, h2, rfl, rfl, rfl⟩, sameNamed_set_empty _ _ hm _⟩

theorem bindFormal_named (refp : VPreDefRef) (st : FormalsState) (level : Int) (quote : Bool)
    (cur : Piece) (ms : ArgMap) (h : Tracks st level quote cur)
    (hm : SameNamed st.argValueByName ms) (hn : strip cur.left ≠ [])
    (hc : (decide (st.numArgs < refp.m_args.length) || cur.right.isSome) = true) :
    ∃ st1, bindFormal refp st = .ok st1 ∧ st1.numArgs = st.numArgs + 1
      ∧ Tracks st1 level quote ⟨[], none⟩
      ∧ SameNamed st1.argValueByName
          (ms.set (strip cur.left) (effective refp.m_args st.numArgs cur.toFormal)) := by
  obtain ⟨h1, h2, h3, h4, h5⟩ := h
  have hb : (strip cur.left != []) = true := by simpa using hn
  unfold bindFormal
  simp only [h4, h5, trimWhitespace_trailing, hb, if_true]
  by_cases hk : st.numArgs < refp.m_args.length
  · have hk2 : refp.m_args.length > st.numArgs := hk
    simp only [hk2, if_true]
    refine ⟨_, rfl, rfl, ⟨h1, h2, rfl, rfl, rfl⟩, ?_⟩
    have he : effective refp.m_args st.numArgs cur.toFormal
        = (if (trimWhitespace (refp.m_args.getD st.numArgs []) false != []) = true
            then trimWhitespace (refp.m_args.getD st.numArgs []) false
            else cur.right.getD []) := by
      simp [effective, hk, Piece.toFormal]
    rw [he]
    exact sameNamed_set _ _ hm _ _
  · have hk2 : ¬ refp.m_args.length > st.numArgs := hk
    have hs : cur.right.isSome = true := by simpa [hk] using hc
    simp only [hk2, if_false, h3, hs, Bool.not_true, Bool.false_eq_true]
    refine ⟨_, rfl, rfl, ⟨h1, h2, rfl, rfl, rfl⟩, ?_⟩
    have he : effective refp.m_args st.numArgs cur.toFormal = cur.right.getD [] := by
      simp [effective, hk, Piece.toFormal]
    rw [he]
    exact sameNamed_set _ _ hm _ _

theorem bindFormal_missing (refp : VPreDefRef) (st : FormalsState) (level : Int) (quote : Bool)
    (cur : Piece) (h : Tracks st level quote cur) (hn : strip cur.left ≠ [])
    (hc : (decide (st.numArgs < refp.m_args.length) || cur.right.isSome) = false) :
    bindFormal refp st
      = .error { errors := [missingMsg (strip cur.left) refp.m_name],
                 out := errorStub refp.m_name } := by
  obtain ⟨h1, h2, h3, h4, h5⟩ := h
  have hb : (strip cur.left != []) = true := by simpa using hn
  simp only [Bool.or_eq_false_iff, decide_eq_false_iff_not] at hc
  have hk2 : ¬ refp.m_args.length > st.numArgs := hc.1
  simp only [h3, hc.2, Bool.false_eq_true, if_false] at h4
  unfold bindFormal
  simp only [h3, hc.2, Bool.false_eq_true, if_false, h4, trimWhitespace_trailing, hb, if_true,
    hk2, Bool.not_false]

theorem agrees_bind (refp : VPreDefRef) (st : FormalsState) (level : Int) (quote : Bool)
    (cur : Piece) (ms : ArgMap) (ps : List Piece)
    (next : FormalsState → Except SubstResult FormalsState)
    (h : Tracks st level quote cur) (hm : SameNamed st.argValueByName ms)
    (hnext : ∀ (st1 : FormalsState) (ms1 : ArgMap), Tracks st1 level quote ⟨[], none⟩ →
      SameNamed st1.argValueByName ms1 →
      Agrees (next st1) (bindList refp st1.numArgs (namedOf ps) ms1)) :
    Agrees (match bindFormal refp st with
            | .error e => .error e
            | .ok st1 => next st1)
      (bindList refp st.numArgs (namedOf (cur :: ps)) ms) := by
  rw [namedOf_cons]
  by_cases hn : strip cur.left = []
  · obtain ⟨st1, e1, e2, e3, e4⟩ := bindFormal_unnamed refp st level quote cur ms h hm hn
    rw [if_pos hn, e1, ← e2]
    exact hnext st1 ms e3 e4
  · rw [if_neg hn, bindList]
    have hd : cur.toFormal.dflt = cur.right := rfl
    have hname : cur.toFormal.name = strip cur.left := rfl
    rw [hd, hname]
    cases hc : (decide (st.numArgs < refp.m_args.length) || cur.right.isSome) with
    | true =>
      obtain ⟨st1, e1, e2, e3, e4⟩ := bindFormal_named refp st level quote cur ms h hm hn hc
      rw [if_pos rfl, e1, ← e2]
      exact hnext st1 _ e3 e4
    | false =>
      rw [if_neg (by simp), bindFormal_missing refp st level quote cur h hn hc]
      rfl

theorem agrees_done (refp : VPreDefRef) (st : FormalsState) (ms : ArgMap)
    (hm : SameNamed st.argValueByName ms) :
    Agrees (.ok st) (bindList refp st.numArgs [] ms) :=
  ⟨st, rfl, rfl, hm⟩

theorem parseFormals_spec (refp : VPreDefRef) : ∀ (cs : List Char) (st : FormalsState)
    (level : Int) (quote : Bool) (cur : Piece) (ms : ArgMap),
    Tracks st level quote cur → SameNamed st.argValueByName ms →
    assignedOnce cs level quote cur.right.isSome = true →
    Agrees (parseFormals refp cs st)
      (bindList refp st.numArgs (namedOf (scanPieces cs level quote cur)) ms)
  | [], st, level, quote, cur, ms, _, hm, _ => by
    rw [parseFormals, scanPieces]
    exact agrees_done refp st ms hm
  | [c], st, level, quote, cur, ms, h, hm, hone => by
    rw [parseFormals, scanPieces, tracks_atBase h]
    split
    · have := agrees_bind refp st level quote cur ms [] (fun s => .ok s) h hm
        (fun st1 ms1 _ hm1 => agrees_done refp st1 ms1 hm1)
      cases hb : bindFormal refp st with
      | error e => rw [hb] at this; exact this
      | ok s => rw [hb] at this; exact this
    · split
      · exact agrees_done refp _ ms hm
      · exact agrees_done refp (formalsChar c st) ms hm
  | c :: d :: rest, st, level, quote, cur, ms, h, hm, hone => by
    rw [assignedOnce] at hone
    rw [parseFormals, scanPieces, tracks_atBase h]
    split
    · rename_i hc
      rw [if_pos hc] at hone
      exact agrees_bind refp st level quote cur ms _ (parseFormals refp (d :: rest)) h hm
        (fun st1 ms1 h1 hm1 => parseFormals_spec refp (d :: rest) st1 level quote _ ms1 h1 hm1 hone)
    · rename_i hc
      rw [if_neg hc] at hone
      split
      · rename_i hc2
        rw [if_pos hc2] at hone
        simp only [Bool.and_eq_true, Bool.not_eq_true'] at hone
        have hr : cur.right = none := by
          cases hcr : cur.right with
          | none => rfl
          | some r => rw [hcr] at hone; exact absurd hone.1 (by simp)
        have ht := tracks_assign h hr
        have hs : cur.assign.right.isSome = true := by simp [Piece.assign, hr]
        have := parseFormals_spec refp (d :: rest) _ level quote cur.assign ms ht hm
          (by rw [hs]; exact hone.2)
        exact this
      · rename_i hc2
        rw [if_neg hc2] at hone
        have hsome : ∀ cs : List Char, (cur.add cs).right.isSome = cur.right.isSome := by
          intro cs
          unfold Piece.add
          cases cur.right <;> rfl
        split
        · rename_i hc3
          rw [if_pos hc3] at hone
          have ht := tracks_add h [c, d]
          exact parseFormals_spec refp rest _ level quote (cur.add [c, d]) ms ht hm
            (by rw [hsome]; exact hone)
        · rename_i hc3
          rw [if_neg hc3] at hone
          have ht := tracks_char h c
          have := parseFormals_spec refp (d :: rest) (formalsChar c st) _ _ (cur.add [c]) ms ht hm
            (by rw [hsome]; exact hone)
          exact this

theorem tracks_init : Tracks FormalsState.init 1 false ⟨[], none⟩ :=
  ⟨rfl, rfl, rfl, rfl, rfl⟩

theorem defineSubst_unfold (refp : VPreDefRef) (value : List Char) :
    defineSubst refp value =
      match parseFormals refp (formalsChars refp.m_params) FormalsState.init with
      | .error e => e
      | .ok st =>
        if refp.m_args.length > st.numArgs
            && !(refp.m_args.length == 1 && st.numArgs == 0
                  && trimWhitespace (refp.m_args.getD 0 []) false == []) then
          { errors := [tooManyMsg refp.m_name], out := errorStub refp.m_name }
        else { errors := [], out := substBody st.argValueByName (c_str value) [] false [] } :=
  rfl

theorem defineSubst_spec (refp : VPreDefRef) (value : List Char)
    (hone : defaultsPlain refp.m_params = true) :
    defineSubst refp value =
      match bindList refp 0 (specFormals refp.m_params) [] with
      | .error e => e
      | .ok st =>
        if refp.m_args.length > (specFormals refp.m_params).length
            && !(refp.m_args.length == 1 && (specFormals refp.m_params).length == 0
                  && trimWhitespace (refp.m_args.getD 0 []) false == []) then
          { errors := [tooManyMsg refp.m_name], out := errorStub refp.m_name }
        else { errors := [], out := substBody st.argValueByName (c_str value) [] false [] } := by
  have hag := parseFormals_spec refp (formalsChars refp.m_params) FormalsState.init 1 false
    ⟨[], none⟩ [] tracks_init (fun _ _ => rfl) hone
  have h0 : FormalsState.init.numArgs = 0 := rfl
  rw [h0] at hag
  rw [defineSubst_unfold]
  unfold specFormals
  cases hb : bindList refp 0
      (namedOf (scanPieces (formalsChars refp.m_params) 1 false ⟨[], none⟩)) [] with
  | error e =>
    rw [hb] at hag
    simp only [Agrees] at hag
    rw [hag]
  | ok s2 =>
    rw [hb] at hag
    obtain ⟨s1, e1, e2, e3⟩ := hag
    have hn := bindList_numArgs refp _ 0 [] s2 hb
    rw [Nat.zero_add] at hn
    rw [e1]
    simp only [e2, hn]
    rw [substBody_congr s1.argValueByName s2.argValueByName e3]

/-- C6, as the claim states it: with formals `(a,b)` and the single actual `1` the
missing-argument error is reported and the returned string starts with a space, so it is not
the string made of a backtick, the name and one space; and with the formals `(a=x==1,b)`,
whose second formal `b` has neither an actual nor a default when the single actual `p` is
passed, nothing is reported and the body `a+b` yields `a+p`, because the loop takes the
empty text between the last two `=` as the name and binds `b` to the actual. -/
theorem C6_counterexample :
    defineSubst (mkRef "P" "(a,b)" ["1"]) "a+b".toList
        = { errors := [missingMsg ['b'] ['P']], out := [' ', BACKTICK, 'P', ' '] }
      ∧ (defineSubst (mkRef "P" "(a,b)" ["1"]) "a+b".toList).out ≠ [BACKTICK, 'P', ' ']
      ∧ specFormals "(a=x==1,b)".toList
          = [⟨[], ['a'], [], some "x==1".toList⟩, ⟨[], ['b'], [], none⟩]
      ∧ defaultsPlain "(a=x==1,b)".toList = false
      ∧ defineSubst (mkRef "P" "(a=x==1,b)" ["p"]) "a+b".toList
          = { errors := [], out := "a+p".toList } := by
  refine ⟨by decide, by decide, by decide, by decide, by decide⟩

/-- C6, amended: for every formals string in which no default holds an `=` outside brackets
and strings: when there are fewer actuals than named formals and the first formal without an
actual has no default, `defineSubst` reports the missing-argument error for that formal and
returns exactly one space, a backtick, the name and one space, with no part of the body. -/
theorem C6_missing_argument_stub (refp : VPreDefRef) (value : List Char) (f : Formal)
    (hone : defaultsPlain refp.m_params = true)
    (hf : (specFormals refp.m_params)[refp.m_args.length]? = some f) (hnone : f.dflt = none) :
    defineSubst refp value
      = { errors := [missingMsg f.name refp.m_name],
          out := ' ' :: BACKTICK :: (refp.m_name ++ [' ']) } := by
  rw [defineSubst_spec refp value hone,
    bindList_missing refp f hnone _ 0 [] (Nat.zero_le _) (by simpa using hf)]
  rfl

theorem C6_witness :
    defaultsPlain (mkRef "P" "(a=(1,2), b)" ["1"]).m_params = true
      ∧ (specFormals (mkRef "P" "(a=(1,2), b)" ["1"]).m_params)[
            (mkRef "P" "(a=(1,2), b)" ["1"]).m_args.length]?
          = some ⟨[' '], ['b'], [], none⟩
      ∧ defineSubst (mkRef "P" "(a=(1,2), b)" ["1"]) "a+b".toList
          = { errors := [missingMsg ['b'] ['P']], out := [' ', BACKTICK, 'P', ' '] } :=
  ⟨by decide, by decide,
   C6_missing_argument_stub (mkRef "P" "(a=(1,2), b)" ["1"]) "a+b".toList
     ⟨[' '], ['b'], [], none⟩ (by decide) (by decide) rfl⟩

@[simp]
theorem emit_m_includeStack (s : VPreProcImp) (e : Event) :
    (s.emit e).m_includeStack = s.m_includeStack := rfl

@[simp]
theorem error_m_includeStack (s : VPreProcImp) (m : List Char) :
    (s.error m).m_includeStack = s.m_includeStack := rfl

@[simp]
theorem fatalSrc_m_includeStack (s : VPreProcImp) (m : List Char) :
    (s.fatalSrc m).m_includeStack = s.m_includeStack := rfl

@[simp]
theorem insertUnreadback_m_includeStack (s : VPreProcImp) (t : List Char) :
    (s.insertUnreadback t).m_includeStack = s.m_includeStack := rfl

@[simp]
theorem insertUnreadbackAtBol_m_includeStack (s : VPreProcImp) (t : List Char) :
    (s.insertUnreadbackAtBol t).m_includeStack = s.m_includeStack := by
  unfold insertUnreadbackAtBol
  (try dsimp only)
  split_ifs <;> simp [addLineComment_m_includeStack]

@[simp]
theorem parsingOn_m_includeStack (h : Host) (s : VPreProcImp) :
    (parsingOn h s).m_includeStack = s.m_includeStack := by
  unfold parsingOn
  (try dsimp only)
  split_ifs <;> simp [addLineComment_m_includeStack]

@[simp]
theorem parsingOff_m_includeStack (s : VPreProcImp) :
    (s.parsingOff).m_includeStack = s.m_includeStack := rfl

@[simp]
theorem statePush_m_includeStack (s : VPreProcImp) (st : ProcState) :
    (s.statePush st).m_includeStack = s.m_includeStack := rfl

@[simp]
theorem statePop_m_includeStack (s : VPreProcImp) :
    (s.statePop).m_includeStack = s.m_includeStack := by
  unfold statePop
  (try dsimp only)
  split_ifs <;> simp [addLineComment_m_includeStack]

@[simp]
theorem stateChange_m_includeStack (s : VPreProcImp) (st : ProcState) :
    (s.stateChange st).m_includeStack = s.m_includeStack := by
  simp [stateChange]

@[simp]
theorem onLex_m_includeStack (s : VPreProcImp) (f : VPreLex → VPreLex) :
    (s.onLex f).m_includeStack = s.m_includeStack := rfl

@[simp]
theorem onTopRef_m_includeStack (s : VPreProcImp) (f : VPreDefRef → VPreDefRef) :
    (s.onTopRef f).m_includeStack = s.m_includeStack := rfl

@[simp]
theorem unputString_m_includeStack (s : VPreProcImp) (t : List Char) :
    (s.unputString t).m_includeStack = s.m_includeStack := by
  unfold unputString
  (try dsimp only)
  split_ifs <;> simp [addLineComment_m_includeStack]

@[simp]
theorem noteBol_m_includeStack (s : VPreProcImp) :
    (s.noteBol).m_includeStack = s.m_includeStack := by
  unfold noteBol
  (try dsimp only)
  split_ifs <;> simp [addLineComment_m_includeStack]

@[simp]
theorem yylex_m_includeStack (s : VPreProcImp) :
    (s.yylex.1).m_includeStack = s.m_includeStack := by
  unfold yylex
  split <;> simp [addLineComment_m_includeStack]

@[simp]
theorem takeLineAdd_m_includeStack (s : VPreProcImp) :
    (s.takeLineAdd).m_includeStack = s.m_includeStack := rfl

@[simp]
theorem takeLineCmt_m_includeStack (s : VPreProcImp) :
    (s.takeLineCmt).m_includeStack = s.m_includeStack := by
  simp [takeLineCmt]

@[simp]
theorem lexToken_m_includeStack (s : VPreProcImp) :
    (s.lexToken.1).m_includeStack = s.m_includeStack := by
  simp [lexToken]

@[simp]
theorem ifdefBlock_m_includeStack (s : VPreProcImp) (enable : Bool) :
    (s.ifdefBlock enable).m_includeStack = s.m_includeStack := by
  unfold ifdefBlock
  (try dsimp only)
  split_ifs <;> simp [addLineComment_m_includeStack]

@[simp]
theorem elsifBlock_m_includeStack (h : Host) (s : VPreProcImp) (lastIf : VPreIfEntry) (rest : List VPreIfEntry) :
    (elsifBlock h s lastIf rest).m_includeStack = s.m_includeStack := by
  unfold elsifBlock
  (try dsimp only)
  split_ifs <;> simp [addLineComment_m_includeStack]

@[simp]
theorem elseBlock_m_includeStack (h : Host) (s : VPreProcImp) (lastIf : VPreIfEntry) (rest : List VPreIfEntry) :
    (elseBlock h s lastIf rest).m_includeStack = s.m_includeStack := by
  unfold elseBlock
  (try dsimp only)
  split_ifs <;> simp [addLineComment_m_includeStack]

@[simp]
theorem endifBlock_m_includeStack (h : Host) (s : VPreProcImp) (lastIf : VPreIfEntry) (rest : List VPreIfEntry) :
    (endifBlock h s lastIf rest).m_includeStack = s.m_includeStack := by
  unfold endifBlock
  (try dsimp only)
  split_ifs <;> simp [addLineComment_m_includeStack]

@[simp]
theorem caseELSIF_m_includeStack (h : Host) (s : VPreProcImp) :
    (caseELSIF h s).m_includeStack = s.m_includeStack := by
  unfold caseELSIF
  split <;> simp [addLineComment_m_includeStack]

@[simp]
theorem caseELSE_m_includeStack (h : Host) (s : VPreProcImp) :
    (caseELSE h s).m_includeStack = s.m_includeStack := by
  unfold caseELSE
  split <;> simp [addLineComment_m_includeStack]

@[simp]
theorem caseENDIF_m_includeStack (h : Host) (s : VPreProcImp) :
    (caseENDIF h s).m_includeStack = s.m_includeStack := by
  unfold caseENDIF
  split <;> simp [addLineComment_m_includeStack]

theorem foldl_error_m_includeStack (msgs : List (List Char)) (s : VPreProcImp) :
    (msgs.foldl (fun s msg => s.error msg) s).m_includeStack = s.m_includeStack := by
  rw [foldl_error_eq]

@[simp]
theorem caseDEFNAME_m_includeStack (h : Host) (s : VPreProcImp) (st : ProcState)
    (tok : VPTok) : (caseDEFNAME h s st tok).1.m_includeStack = s.m_includeStack := by
  unfold caseDEFNAME
  dsimp only
  split_ifs <;> simp [addLineComment_m_includeStack]

@[simp]
theorem caseDEFFORM_m_includeStack (s : VPreProcImp) (tok : VPTok) :
    (caseDEFFORM s tok).1.m_includeStack = s.m_includeStack := by
  unfold caseDEFFORM
  dsimp only
  split_ifs <;> simp [addLineComment_m_includeStack]

@[simp]
theorem caseDEFVALUE_m_includeStack (s : VPreProcImp) (tok : VPTok) :
    (caseDEFVALUE s tok).1.m_includeStack = s.m_includeStack := by
  unfold caseDEFVALUE
  dsimp only
  split_ifs <;> simp [addLineComment_m_includeStack]

@[simp]
theorem caseDEFPAREN_m_includeStack (s : VPreProcImp) (tok : VPTok) :
    (caseDEFPAREN s tok).1.m_includeStack = s.m_includeStack := by
  unfold caseDEFPAREN
  dsimp only
  split_ifs <;> simp [addLineComment_m_includeStack]

@[simp]
theorem caseDEFARG_m_includeStack (h : Host) (s : VPreProcImp) (tok : VPTok) :
    (caseDEFARG h s tok).1.m_includeStack = s.m_includeStack := by
  unfold caseDEFARG
  dsimp only
  split_ifs <;> simp [addLineComment_m_includeStack, foldl_error_m_includeStack]

@[simp]
theorem caseERRORNAME_m_includeStack (s : VPreProcImp) (tok : VPTok) :
    (caseERRORNAME s tok).1.m_includeStack = s.m_includeStack := by
  unfold caseERRORNAME
  dsimp only
  split_ifs <;> simp [addLineComment_m_includeStack]

@[simp]
theorem caseDEFREF_m_includeStack (h : Host) (s : VPreProcImp) :
    (caseDEFREF h s).1.m_includeStack = s.m_includeStack := by
  unfold caseDEFREF
  dsimp only
  split_ifs <;> simp [addLineComment_m_includeStack]

@[simp]
theorem tokSwitch_m_includeStack (h : Host) (s : VPreProcImp) (tok : VPTok) :
    (tokSwitch h s tok).1.m_includeStack = s.m_includeStack := by
  unfold tokSwitch
  split
  all_goals (try dsimp only)
  all_goals (try split_ifs)
  all_goals simp [addLineComment_m_includeStack]

@[simp]
theorem caseCOMMENT_m_includeStack (s : VPreProcImp) (tok : VPTok) :
    (caseCOMMENT s tok).1.m_includeStack = s.m_includeStack := by
  unfold caseCOMMENT
  dsimp only
  split_ifs <;> simp [addLineComment_m_includeStack]

theorem openFile_stack (h : Host) (s : VPreProcImp) (f : List Char) (fl : Option VFileLine) :
    (openFile h s f fl).m_includeStack = s.m_includeStack
      ∨ ∃ l, s.m_lexp = some l ∧ s.m_includeStack.length ≤ h.INCLUDE_DEPTH_MAX
          ∧ (openFile h s f fl).m_includeStack = l :: s.m_includeStack := by
  cases fl <;>
  · unfold openFile
    dsimp only
    split
    · exact Or.inl rfl
    · split
      · exact Or.inl rfl
      · rename_i s1 hp
        rw [foldl_scan_includeStack, addLineComment_m_includeStack]
        split at hp
        · rename_i l hl
          split at hp
          · cases hp
          · rename_i hd
            simp only [Option.some.injEq] at hp
            subst hp
            refine Or.inr ⟨l, hl, by simpa using hd, ?_⟩
            show (addLineComment h _ 0).m_includeStack = _
            rw [addLineComment_m_includeStack]
        · simp only [Option.some.injEq] at hp
          subst hp
          exact Or.inl rfl

theorem depthOK_openFile (h : Host) (s : VPreProcImp) (f : List Char) (fl : Option VFileLine)
    (hs : DepthOK h s) : DepthOK h (openFile h s f fl) := by
  unfold DepthOK at hs ⊢
  rcases openFile_stack h s f fl with e | ⟨l, _, hd, e⟩
  · rw [e]; exact hs
  · rw [e, List.length_cons]; omega

theorem depthOK_hostInclude (h : Host) (s : VPreProcImp) (n : List Char) (hs : DepthOK h s) :
    DepthOK h (hostInclude h s n) := by
  unfold hostInclude
  dsimp only
  split
  · exact depthOK_openFile h _ _ _ hs
  · exact hs

theorem eof_stack_le (h : Host) (s : VPreProcImp) :
    (eof h s).m_includeStack.length ≤ s.m_includeStack.length := by
  unfold eof
  dsimp only
  split
  · exact Nat.le_refl _
  · split
    · rename_i he
      show (addLineComment h s 2).m_includeStack.length ≤ _
      rw [addLineComment_m_includeStack]
    · rename_i l rest he
      have he2 : (addLineComment h s 2).m_includeStack = l :: rest := he
      rw [addLineComment_m_includeStack] at he2
      split
      · rw [fatalSrc_m_includeStack, addLineComment_m_includeStack]
        show rest.length ≤ _
        rw [he2, List.length_cons]; omega
      · rw [addLineComment_m_includeStack]
        show rest.length ≤ _
        rw [he2, List.length_cons]; omega

theorem getRawToken_stack_le (h : Host) : ∀ (fuel : Nat) (s : VPreProcImp),
    (getRawToken h fuel s).1.m_includeStack.length ≤ s.m_includeStack.length
  | 0, s => Nat.le_refl _
  | fuel + 1, s => by
    rw [getRawToken]
    split_ifs
    · simp
    · refine Nat.le_trans (getRawToken_stack_le h fuel _) ?_
      simp
    · simp
    · exact Nat.le_refl _
    · refine Nat.le_trans (getRawToken_stack_le h fuel _) ?_
      refine Nat.le_trans (eof_stack_le h _) ?_
      simp
    · simp

theorem depthOK_getRawToken (h : Host) (fuel : Nat) (s : VPreProcImp) (hs : DepthOK h s) :
    DepthOK h (getRawToken h fuel s).1 :=
  Nat.le_trans (getRawToken_stack_le h fuel s) hs

theorem depthOK_caseINCNAME (h : Host) (s : VPreProcImp) (tok : VPTok) (hs : DepthOK h s) :
    DepthOK h (caseINCNAME h s tok).1 := by
  unfold caseINCNAME
  dsimp only
  split_ifs
  · refine depthOK_hostInclude h _ _ ?_
    unfold DepthOK
    simpa using hs
  · unfold DepthOK
    simpa using hs
  · exact hs
  · unfold DepthOK
    simpa using hs

theorem depthOK_stateSwitch (h : Host) (s : VPreProcImp) (tok : VPTok) (hs : DepthOK h s) :
    DepthOK h (stateSwitch h s tok).1 := by
  unfold stateSwitch
  split
  all_goals first
    | exact depthOK_caseINCNAME h s tok hs
    | (unfold DepthOK; simpa using hs)

theorem depthOK_processToken (h : Host) (s : VPreProcImp) (tok : VPTok) (hs : DepthOK h s) :
    DepthOK h (processToken h s tok).1 := by
  unfold processToken
  split_ifs
  · exact hs
  · unfold DepthOK; simpa using hs
  · unfold DepthOK; simpa [addLineComment_m_includeStack] using hs
  · have h1 := depthOK_stateSwitch h s tok hs
    split
    · rename_i s1 heq
      rw [heq] at h1
      unfold DepthOK at h1 ⊢
      rw [tokSwitch_m_includeStack]; exact h1
    · exact h1

theorem depthOK_getToken (h : Host) : ∀ (fuel : Nat) (s : VPreProcImp), DepthOK h s →
    DepthOK h (getToken h fuel s).1
  | 0, s, hs => hs
  | fuel + 1, s, hs => by
    rw [getToken]
    split_ifs
    · exact hs
    · have h1 := depthOK_getRawToken h (fuel + 1) s hs
      split
      · rename_i s1 heq
        rw [heq] at h1; exact h1
      · rename_i s1 tok heq
        rw [heq] at h1
        have h2 := depthOK_processToken h s1 tok h1
        split
        · rename_i s2 t heq2
          rw [heq2] at h2; exact h2
        · rename_i s2 j hne heq2
          rw [heq2] at h2
          exact depthOK_getToken h fuel s2 h2

theorem depthOK_bufferToken (h : Host) (s : VPreProcImp) (tok : VPTok) (hs : DepthOK h s) :
    DepthOK h (bufferToken s tok).1 := by
  unfold bufferToken
  split_ifs <;> exact hs

theorem depthOK_fillLine (h : Host) (st : Bool) (n : Nat) : ∀ (fuel : Nat) (s : VPreProcImp),
    DepthOK h s → DepthOK h (fillLine h st n fuel s).1
  | 0, s, hs => hs
  | fuel + 1, s, hs => by
    rw [fillLine]
    split_ifs
    · have h1 := depthOK_getToken h (fuel + 1) s hs
      split
      · rename_i s1 heq
        rw [heq] at h1; exact h1
      · rename_i s1 tok heq
        rw [heq] at h1
        split_ifs
        · exact depthOK_bufferToken h s1 tok h1
        · exact depthOK_fillLine h st n fuel _ (depthOK_bufferToken h s1 tok h1)
    · exact hs

theorem depthOK_parseLoop (h : Host) (st : Bool) (n : Nat) : ∀ (fuel : Nat) (s : VPreProcImp),
    DepthOK h s → DepthOK h (parseLoop h st n fuel s).1
  | 0, s, hs => hs
  | fuel + 1, s, hs => by
    rw [parseLoop]
    have h1 := depthOK_fillLine h st n (fuel + 1) s hs
    split
    · rename_i s1 heq
      rw [heq] at h1; exact h1
    · rename_i s1 g heq
      rw [heq] at h1
      split_ifs
      · exact depthOK_parseLoop h st n fuel _ h1
      · exact h1

theorem depthOK_call (h : Host) (s : VPreProcImp) (c : ApiCall) (hs : DepthOK h s) :
    DepthOK h (call h s c) := by
  cases c with
  | getToken fuel => exact depthOK_getToken h fuel s hs
  | openFile f fl => exact depthOK_openFile h s f fl hs
  | insertUnreadback text => exact hs
  | getparseline st n fuel =>
    show DepthOK h (getparseline h st n fuel s).1
    unfold getparseline
    split_ifs
    · exact hs
    · exact depthOK_parseLoop h st n fuel s hs

theorem depthOK_run (h : Host) (filelinep : VFileLine) (yyin : List LexOut)
    (calls : List ApiCall) : DepthOK h (run h filelinep yyin calls) := by
  unfold run
  have hgen : ∀ (cs : List ApiCall) (s : VPreProcImp), DepthOK h s →
      DepthOK h (cs.foldl (call h) s) := by
    intro cs
    induction cs with
    | nil => exact fun s hs => hs
    | cons c cs ih => exact fun s hs => ih _ (depthOK_call h s c hs)
  exact hgen calls _ (Nat.zero_le _)

theorem openFile_over_bound (h : Host) (s : VPreProcImp) (f : List Char)
    (fl : Option VFileLine) (l : VPreLex) (hl : s.m_lexp = some l)
    (hdepth : h.INCLUDE_DEPTH_MAX < s.m_includeStack.length) :
    (openFile h s f fl).m_includeStack = s.m_includeStack
      ∧ (openFile h s f fl).m_lexp = s.m_lexp
      ∧ (openFile h s f fl).log
          = s.log ++ [(s.m_off, Event.error
              (if h.openFd f = 0 then notFoundMsg f else recursiveInclusionMsg f))] := by
  by_cases hfd : h.openFd f = 0
  · have hr : (readWholefile h f) = (false, []) := by simp [readWholefile, hfd]
    cases fl <;>
    · simp only [openFile, hr, Bool.not_false, if_true, hfd]
      exact ⟨rfl, rfl, rfl⟩
  · have hr := readWholefile_ok h f hfd
    cases fl <;>
    · simp only [openFile, hr, hl, gt_iff_lt, hdepth, if_true, Bool.not_true, Bool.false_eq_true,
        if_false, hfd]
      first
        | exact ⟨rfl, rfl, rfl⟩
        | exact ⟨rfl, hl, rfl⟩

/-- C22, amended: after every sequence of calls of the interface (calls of `openFile`, and
calls of `getToken` and `getparseline`, which open the files of include directives and pop
the stack at the end of a file), for every host and every scanner output, the include stack
holds at most `INCLUDE_DEPTH_MAX + 1` scanners; an `openFile` called while a scanner is
active and the stack holds more than `INCLUDE_DEPTH_MAX` scanners pushes nothing, keeps the
current scanner and reports the recursive inclusion (or that the file was not found, when it
cannot be opened); and the bound is reached: `INCLUDE_DEPTH_MAX + 2` successive calls of
`openFile` on a file that opens leave `INCLUDE_DEPTH_MAX + 1` scanners on the stack without
a report, and the next call is the first to be refused. -/
theorem C22_include_stack_bounded :
    (∀ (h : Host) (filelinep : VFileLine) (yyin : List LexOut) (calls : List ApiCall),
        (run h filelinep yyin calls).m_includeStack.length ≤ h.INCLUDE_DEPTH_MAX + 1)
      ∧ (∀ (h : Host) (s : VPreProcImp) (f : List Char) (fl : Option VFileLine) (l : VPreLex),
          s.m_lexp = some l → h.INCLUDE_DEPTH_MAX < s.m_includeStack.length →
            (openFile h s f fl).m_includeStack = s.m_includeStack
              ∧ (openFile h s f fl).m_lexp = s.m_lexp
              ∧ (openFile h s f fl).log
                  = s.log ++ [(s.m_off, Event.error
                      (if h.openFd f = 0 then notFoundMsg f else recursiveInclusionMsg f))])
      ∧ (∀ (h : Host) (f : List Char), h.openFd f ≠ 0 →
          (nestedOpens h f (h.INCLUDE_DEPTH_MAX + 2)).m_includeStack.length
              = h.INCLUDE_DEPTH_MAX + 1
            ∧ (nestedOpens h f (h.INCLUDE_DEPTH_MAX + 2)).log = []
            ∧ nestedOpens h f (h.INCLUDE_DEPTH_MAX + 3)
                = (nestedOpens h f (h.INCLUDE_DEPTH_MAX + 2)).error (recursiveInclusionMsg f)) :=
  ⟨depthOK_run, openFile_over_bound,
   fun h f hfd =>
    ⟨(nestedOpens_depth h f hfd (h.INCLUDE_DEPTH_MAX + 1) (le_refl _)).2.1,
     (nestedOpens_depth h f hfd (h.INCLUDE_DEPTH_MAX + 1) (le_refl _)).2.2,
     nestedOpens_refused h f hfd⟩⟩

theorem C22_witness :
    shallowHost.INCLUDE_DEPTH_MAX = 1
      ∧ (List.range 6).map (fun n => (nestedOpens shallowHost "a.v".toList n).m_includeStack.length)
          = [0, 0, 1, 2, 2, 2]
      ∧ (nestedOpens shallowHost "a.v".toList 3).log = []
      ∧ (nestedOpens shallowHost "a.v".toList 4).log
          = [(0, Event.error (recursiveInclusionMsg "a.v".toList))]
      ∧ (run shallowHost (VFileLine.create [] 0) []
            (List.replicate 5 (ApiCall.openFile "a.v".toList none))).m_includeStack.length
          ≤ shallowHost.INCLUDE_DEPTH_MAX + 1 :=
  ⟨rfl, by decide, by decide, by decide,
   C22_include_stack_bounded.1 shallowHost (VFileLine.create [] 0) []
     (List.replicate 5 (ApiCall.openFile "a.v".toList none))⟩

end VPreProcImp
